import Mathlib

/-!
# M.Whistler's state machine: the scheduler (`src/scheduler/scheduler.c`)

A shallow embedding of the cooperative scheduler and a verification of its
registration, cancellation and dispatch operations.

Modelling conventions.

* A task pointer (`SchedulerTask_t`) and a context pointer (`void*`) are natural
  numbers; `0` is the null pointer.
* Timestamps are `Int`; every C operation on `int64_t` / `uint64_t` is followed by an
  explicit wrap (`toInt64`, `toUInt64`).  Signed overflow, undefined in C, is modelled as
  wrap-around too; the statements that depend on a sum assume the range in which it does
  not occur (`scheduler.c`: "Scheduler does not support timer overflow").
* `systime_get` reads an arbitrary clock sequence `clock : Nat → Nat`: the `k`-th call
  returns `clock k` (as a `uint64_t`).  The machine state counts the calls made so far.
* A task is a C function that may touch the whole machine, the scheduler included: the
  task environment `exec task context s` gives the value returned by the call
  `task(context)` in state `s` together with the state it leaves behind.
* `scheduler_changed_notify` is external; the state counts its calls.
* The catch-up `while` loop of `scheduler_core_process` may diverge; it is run with
  fuel and yields `none` when the fuel is exhausted.  Every catch-up loop of a pass gets
  the same amount of fuel; more than `2^64` iterations are never needed when the period
  is positive and the timer is in range.
-/

namespace MWScheduler

/-! ## Machine integers -/

/-- The C constant `INT64_MAX`. -/
def INT64_MAX : Int := 9223372036854775807

/-- Conversion of an integer to `int64_t` (two's complement wrap-around). -/
def toInt64 (x : Int) : Int :=
  (x + 9223372036854775808) % 18446744073709551616 - 9223372036854775808

/-- Conversion of an integer to `uint64_t`. -/
def toUInt64 (x : Int) : Int := x % 18446744073709551616

/-- Conversion of a natural number to `uint32_t`. -/
def toUInt32 (x : Nat) : Nat := x % 4294967296

/-- The macro `SYSTICKS_PER_MS` of `sys_time.h`. -/
def SYSTICKS_PER_MS : Int := 1

/-- The macro `MS_TO_SYSTICKS(ms)` of `sys_time.h`:
`((int64_t)(((int64_t)(ms)) * SYSTICKS_PER_MS))`. -/
def MS_TO_SYSTICKS (ms : Int) : Int := toInt64 (toInt64 ms * SYSTICKS_PER_MS)

/-! ## Data model (`scheduler.h`) -/

/-- The enumeration `TaskExecutionModeEnum_t`; `SCHEDULE_MODE_ONCE` has the value 0. -/
inductive TaskExecutionModeEnum_t where
  | SCHEDULE_MODE_ONCE
  | SCHEDULE_MODE_FIXED_RATE
  | SCHEDULE_MODE_MULTI_SCHEDULE
  deriving DecidableEq

open TaskExecutionModeEnum_t

/-- The struct `TaskOrder_t`. -/
structure TaskOrder_t where
  execute : Nat
  rate : Nat
  mode : TaskExecutionModeEnum_t
  context : Nat
  deriving DecidableEq

/-- The struct `SchedulerEntry_t`. -/
structure SchedulerEntry_t where
  order : TaskOrder_t
  config : Nat
  current_execution_beginning : Int
  next_execution_time : Int
  deriving DecidableEq

/-- The macro `SCHEDULER_SIZE`. -/
def SCHEDULER_SIZE : Nat := 16

/-- An entry all of whose bytes are zero (what `memset(.., 0, ..)` leaves). -/
def zero_entry : SchedulerEntry_t :=
  { order := { execute := 0, rate := 0, mode := SCHEDULE_MODE_ONCE, context := 0 },
    config := 0, current_execution_beginning := 0, next_execution_time := 0 }

/-- The type of the array `scheduled_tasks[SCHEDULER_SIZE]`. -/
structure Table where
  slots : List SchedulerEntry_t
  size_eq : slots.length = SCHEDULER_SIZE

/-- Read `scheduled_tasks[i]`. -/
def Table.get (t : Table) (i : Nat) : SchedulerEntry_t := t.slots.getD i zero_entry

/-- Write `scheduled_tasks[i] = e`. -/
def Table.set (t : Table) (i : Nat) (e : SchedulerEntry_t) : Table :=
  { slots := t.slots.set i e, size_eq := by rw [List.length_set]; exact t.size_eq }

/-- The table in which every entry is zero. -/
def Table.zero : Table :=
  { slots := List.replicate SCHEDULER_SIZE zero_entry, size_eq := List.length_replicate _ _ }

/-- A slot is occupied when a task pointer is bound in it. -/
def Table.occupied (t : Table) (i : Nat) : Prop := (t.get i).order.execute ≠ 0

instance (t : Table) (i : Nat) : Decidable (t.occupied i) := by
  unfold Table.occupied; infer_instance

/-- Number of occupied slots of the table. -/
def Table.occupied_count (t : Table) : Nat :=
  t.slots.countP (fun e => decide (e.order.execute ≠ 0))

/-- The machine: the scheduler's static array, the number of `systime_get` calls made so
far, the number of `scheduler_changed_notify` calls made so far, and the memory `mem` of
the rest of the program (the static variables of the tasks). -/
structure Machine (σ : Type) where
  scheduled_tasks : Table
  clock_reads : Nat
  notify_calls : Nat
  mem : σ

/-- The task environment: `exec task context s` is the outcome of the C call
`task(context)` started in state `s`: the returned `uint32_t` and the state left behind. -/
abbrev TaskEnv (σ : Type) := Nat → Nat → Machine σ → Nat × Machine σ

/-! ## Operations (`sys_time_emu.c`, `scheduler.c`) -/

/-- The function `systime_get`: the next value of the clock sequence, as a `uint64_t`. -/
def systime_get {σ : Type} (clock : Nat → Nat) (s : Machine σ) : Int × Machine σ :=
  (toUInt64 (clock s.clock_reads), { s with clock_reads := s.clock_reads + 1 })

/-- The external function `scheduler_changed_notify`. -/
def scheduler_changed_notify {σ : Type} (s : Machine σ) : Machine σ :=
  { s with notify_calls := s.notify_calls + 1 }

/-- The function `scheduler_init`. -/
def scheduler_init {σ : Type} (s : Machine σ) : Machine σ :=
  { s with scheduled_tasks := Table.zero }

/-- The function `bind_task`, applied to `&scheduled_tasks[i]`.  The sum
`systime_get() + MS_TO_SYSTICKS(rate)` is computed in `uint64_t` and stored in an
`int64_t`. -/
def bind_task {σ : Type} (clock : Nat → Nat) (i : Nat) (task_order : TaskOrder_t)
    (s : Machine σ) : Int × Machine σ :=
  let r := systime_get clock s
  let next := toInt64 (toUInt64 (r.1 + toUInt64 (MS_TO_SYSTICKS task_order.rate)))
  let s1 := r.2
  let entry : SchedulerEntry_t :=
    { order := task_order, config := 0,
      current_execution_beginning := next, next_execution_time := next }
  let s2 : Machine σ := { s1 with scheduled_tasks := s1.scheduled_tasks.set i entry }
  (0, scheduler_changed_notify s2)

/-- The function `free_task`, applied to `&scheduled_tasks[i]`. -/
def free_task {σ : Type} (i : Nat) (s : Machine σ) : Machine σ :=
  { s with scheduled_tasks := s.scheduled_tasks.set i zero_entry }

/-- The search loops of `schedule` and `cancel_schedule`:
`for (i = ..; i < ..; i++) if (scheduled_tasks[i].order.execute == task) return i`,
with `k` iterations left and the cursor at `i`. -/
def find_slot (t : Table) (task : Nat) : Nat → Nat → Option Nat
  | 0, _ => none
  | k + 1, i => if (t.get i).order.execute = task then some i else find_slot t task k (i + 1)

/-- The function `schedule`. -/
def schedule {σ : Type} (clock : Nat → Nat) (task : Nat)
    (execution_mode : TaskExecutionModeEnum_t) (rate : Nat) (context : Nat)
    (s : Machine σ) : Int × Machine σ :=
  let new_task : TaskOrder_t :=
    { execute := task, rate := rate, mode := execution_mode, context := context }
  let found :=
    if new_task.mode ≠ SCHEDULE_MODE_MULTI_SCHEDULE then
      find_slot s.scheduled_tasks task SCHEDULER_SIZE 0
    else none
  match found with
  | some i => ((i : Int), (bind_task clock i new_task s).2)
  | none =>
    match find_slot s.scheduled_tasks 0 SCHEDULER_SIZE 0 with
    | some i => ((i : Int), (bind_task clock i new_task s).2)
    | none => (-1, s)

/-- The function `cancel_schedule`. -/
def cancel_schedule {σ : Type} (task : Nat) (s : Machine σ) : Int × Machine σ :=
  match find_slot s.scheduled_tasks task SCHEDULER_SIZE 0 with
  | some i => ((i : Int), free_task i s)
  | none => (-1, s)

/-- The catch-up loop of `scheduler_core_process`:
`while (next_execution_time <= now) next_execution_time += rate`.  Both timestamps of the
entry hold the same value throughout, so only one is carried. -/
def catch_up : Nat → Int → Int → Int → Option Int
  | 0, _, _, _ => none
  | fuel + 1, next, rate, now =>
    if next ≤ now then catch_up fuel (toInt64 (next + rate)) rate now else some next

/-- The local variables of `scheduler_core_process` between two iterations of its `for`
loop, the machine, and the list of the slots whose task has been invoked so far (a
record, not a variable of the program). -/
structure Pass (σ : Type) where
  now : Int
  next_wake_sys_time : Int
  invoked : List Nat
  sys : Machine σ

/-- The last statement of the `for` body: the wake time is lowered to the slot's
`next_execution_time`. -/
def note_wake {σ : Type} (i : Nat) (p : Pass σ) : Pass σ :=
  let task := p.sys.scheduled_tasks.get i
  if task.next_execution_time < p.next_wake_sys_time then
    { p with next_wake_sys_time := task.next_execution_time }
  else p

/-- One iteration of the `for` loop of `scheduler_core_process`, for slot `i`.  After
the task has returned, the entry is read again through the pointer `task`. -/
def process_slot {σ : Type} (clock : Nat → Nat) (exec : TaskEnv σ) (fuel : Nat) (i : Nat)
    (p : Pass σ) : Option (Pass σ) :=
  let task := p.sys.scheduled_tasks.get i
  if task.order.execute = 0 then some p
  else if task.next_execution_time ≤ p.now then
    let call := exec task.order.execute task.order.context p.sys
    let ticks_to_next_run := MS_TO_SYSTICKS (toInt64 (toUInt32 call.1))
    let r := systime_get clock call.2
    let now := toInt64 r.1
    let s := r.2
    let task := s.scheduled_tasks.get i
    let invoked := p.invoked ++ [i]
    if ticks_to_next_run = 0 then
      if task.order.mode = SCHEDULE_MODE_FIXED_RATE then
        match catch_up fuel
            (toInt64 (task.current_execution_beginning + MS_TO_SYSTICKS task.order.rate))
            (MS_TO_SYSTICKS task.order.rate) now with
        | none => none
        | some next =>
          let entry : SchedulerEntry_t :=
            { task with next_execution_time := next, current_execution_beginning := next }
          some (note_wake i
            { now := now, next_wake_sys_time := p.next_wake_sys_time, invoked := invoked,
              sys := { s with scheduled_tasks := s.scheduled_tasks.set i entry } })
      else
        some { now := now, next_wake_sys_time := p.next_wake_sys_time, invoked := invoked,
               sys := free_task i s }
    else
      let entry : SchedulerEntry_t :=
        { task with next_execution_time := toInt64 (ticks_to_next_run + now) }
      some (note_wake i
        { now := now, next_wake_sys_time := p.next_wake_sys_time, invoked := invoked,
          sys := { s with scheduled_tasks := s.scheduled_tasks.set i entry } })
  else some (note_wake i p)

/-- The `for` loop of `scheduler_core_process` with `k` iterations left and the cursor at
slot `i`. -/
def core_loop {σ : Type} (clock : Nat → Nat) (exec : TaskEnv σ) (fuel : Nat) :
    Nat → Nat → Pass σ → Option (Pass σ)
  | 0, _, p => some p
  | k + 1, i, p =>
    match process_slot clock exec fuel i p with
    | none => none
    | some q => core_loop clock exec fuel k (i + 1) q

/-- The state of `scheduler_core_process` on entering its `for` loop. -/
def pass_start {σ : Type} (clock : Nat → Nat) (s : Machine σ) : Pass σ :=
  let r := systime_get clock s
  { now := toInt64 r.1, next_wake_sys_time := INT64_MAX, invoked := [], sys := r.2 }

/-- The function `scheduler_core_process`: the returned `int64_t`, the slots whose task
was invoked (in order), and the machine after the pass; `none` when a catch-up loop does
not end within `fuel` iterations. -/
def scheduler_core_process {σ : Type} (clock : Nat → Nat) (exec : TaskEnv σ) (fuel : Nat)
    (s : Machine σ) : Option (Int × List Nat × Machine σ) :=
  match core_loop clock exec fuel SCHEDULER_SIZE 0 (pass_start clock s) with
  | none => none
  | some p =>
    some (if p.next_wake_sys_time = INT64_MAX then -1 else p.next_wake_sys_time,
          p.invoked, p.sys)

/-! ## Auxiliary notions used by the statements -/

/-- A task pointer is bound in slot `i`. -/
def Table.bound (t : Table) (task : Nat) (i : Nat) : Prop := (t.get i).order.execute = task

instance (t : Table) (task i : Nat) : Decidable (t.bound task i) := by
  unfold Table.bound; infer_instance

/-- A machine whose table is all zero: the state left by `scheduler_init` at start-up. -/
def Machine.boot : Machine Unit :=
  { scheduled_tasks := Table.zero, clock_reads := 0, notify_calls := 0, mem := () }

/-- The call `task->order.execute(task->order.context)` that a pass in state `p` makes
for slot `i`: the returned value and the machine left behind. -/
def slot_call {σ : Type} (exec : TaskEnv σ) (i : Nat) (p : Pass σ) : Nat × Machine σ :=
  exec (p.sys.scheduled_tasks.get i).order.execute
    (p.sys.scheduled_tasks.get i).order.context p.sys

/-- The `uint32_t` returned by the task of slot `i`. -/
def slot_return {σ : Type} (exec : TaskEnv σ) (i : Nat) (p : Pass σ) : Nat :=
  toUInt32 (slot_call exec i p).1

/-- The clock value read right after the task of slot `i` has returned. -/
def slot_resample {σ : Type} (clock : Nat → Nat) (exec : TaskEnv σ) (i : Nat)
    (p : Pass σ) : Nat :=
  clock (slot_call exec i p).2.clock_reads

/-- A slot is due in pass state `p`: it is occupied and its `next_execution_time` is not
later than the current value of `now`. -/
def slot_due {σ : Type} (i : Nat) (p : Pass σ) : Prop :=
  p.sys.scheduled_tasks.occupied i ∧
  (p.sys.scheduled_tasks.get i).next_execution_time ≤ p.now

instance {σ : Type} (i : Nat) (p : Pass σ) : Decidable (slot_due i p) := by
  unfold slot_due; infer_instance

/-! ## Conditions used by the statements about a dispatch pass -/

/-- No task changes the scheduler's table: the tasks call neither `schedule` nor
`cancel_schedule` while they run. -/
def TasksKeepTable {σ : Type} (exec : TaskEnv σ) : Prop :=
  ∀ task context s, (exec task context s).2.scheduled_tasks = s.scheduled_tasks

/-- The supported range of a timestamp: not negative and at least `2^32` ticks below
`INT64_MAX`, so that adding a `uint32_t` delay cannot overflow
("Scheduler does not support timer overflow"). -/
def TimeInRange (x : Int) : Prop := 0 ≤ x ∧ x + 4294967296 ≤ INT64_MAX

instance (x : Int) : Decidable (TimeInRange x) := by
  unfold TimeInRange; infer_instance

/-- Every reading of the clock lies in the supported range. -/
def ClockInRange (clock : Nat → Nat) : Prop := ∀ k, TimeInRange (clock k : Int)

/-- Every occupied slot holds a `uint32_t` rate and timestamps in the supported range. -/
def TableInRange (t : Table) : Prop :=
  ∀ i, i < SCHEDULER_SIZE → t.occupied i →
    (t.get i).order.rate < 4294967296 ∧
    TimeInRange (t.get i).current_execution_beginning ∧
    TimeInRange (t.get i).next_execution_time

instance (t : Table) : Decidable (TableInRange t) := by
  unfold TableInRange; infer_instance

/-- Every occupied slot in `SCHEDULE_MODE_FIXED_RATE` has a positive period. -/
def PeriodsPositive (t : Table) : Prop :=
  ∀ i, i < SCHEDULER_SIZE → t.occupied i →
    (t.get i).order.mode = SCHEDULE_MODE_FIXED_RATE → 0 < (t.get i).order.rate

instance (t : Table) : Decidable (PeriodsPositive t) := by
  unfold PeriodsPositive; infer_instance

/-- The value `m` is the least `next_execution_time` among the occupied slots. -/
def Table.least_wake (t : Table) (m : Int) : Prop :=
  (∃ i, i < SCHEDULER_SIZE ∧ t.occupied i ∧ (t.get i).next_execution_time = m) ∧
  ∀ i, i < SCHEDULER_SIZE → t.occupied i → m ≤ (t.get i).next_execution_time

instance (t : Table) (m : Int) : Decidable (t.least_wake m) := by
  unfold Table.least_wake; infer_instance

/-- The invariant of the `for` loop of `scheduler_core_process` when the cursor is at
slot `j`: the wake time is a lower bound of the `next_execution_time` of the occupied
slots below `j`, these lie in `[0, INT64_MAX)`, and the wake time is `INT64_MAX` or is
attained by one of them. -/
def WakeInvariant {σ : Type} (j : Nat) (p : Pass σ) : Prop :=
  (∀ i, i < j → p.sys.scheduled_tasks.occupied i →
    p.next_wake_sys_time ≤ (p.sys.scheduled_tasks.get i).next_execution_time ∧
    0 ≤ (p.sys.scheduled_tasks.get i).next_execution_time ∧
    (p.sys.scheduled_tasks.get i).next_execution_time < INT64_MAX) ∧
  (p.next_wake_sys_time = INT64_MAX ∨
    ∃ i, i < j ∧ p.sys.scheduled_tasks.occupied i ∧
      (p.sys.scheduled_tasks.get i).next_execution_time = p.next_wake_sys_time)

/-! ## What a pass sees after a task has returned -/

/-- The machine after the task of slot `i` has returned and the clock has been read
again. -/
def slot_after {σ : Type} (clock : Nat → Nat) (exec : TaskEnv σ) (i : Nat)
    (p : Pass σ) : Machine σ :=
  (systime_get clock (slot_call exec i p).2).2

/-- The value of `now` after the task of slot `i` has returned. -/
def slot_now {σ : Type} (clock : Nat → Nat) (exec : TaskEnv σ) (i : Nat)
    (p : Pass σ) : Int :=
  toInt64 (systime_get clock (slot_call exec i p).2).1

/-- The entry of slot `i` as the pass reads it again after the task has returned. -/
def slot_reread {σ : Type} (exec : TaskEnv σ) (i : Nat) (p : Pass σ) : SchedulerEntry_t :=
  (slot_call exec i p).2.scheduled_tasks.get i

/-- Every occupied slot holds a rate that fits `uint32_t`. -/
def RatesTyped (t : Table) : Prop :=
  ∀ i, i < SCHEDULER_SIZE → t.occupied i → (t.get i).order.rate < 4294967296

instance (t : Table) : Decidable (RatesTyped t) := by
  unfold RatesTyped; infer_instance

/-- No task lowers the count of clock readings: time does not run backwards while a task
runs. -/
def TasksAdvanceReads {σ : Type} (exec : TaskEnv σ) : Prop :=
  ∀ task context s, s.clock_reads ≤ (exec task context s).2.clock_reads

/-- No task changes the count of `scheduler_changed_notify` calls: the tasks call neither
`schedule` nor the notification itself. -/
def TasksKeepNotify {σ : Type} (exec : TaskEnv σ) : Prop :=
  ∀ task context s, (exec task context s).2.notify_calls = s.notify_calls

/-! ## Reachable states -/

/-- The states reachable from `scheduler_init` by calls of `schedule`, `cancel_schedule`
and `scheduler_core_process` (passes that return); `allowed task mode` tells which
registrations the callers make. -/
inductive Reachable {σ : Type} (clock : Nat → Nat) (exec : TaskEnv σ)
    (allowed : Nat → TaskExecutionModeEnum_t → Prop) : Machine σ → Prop where
  | init (s : Machine σ) : Reachable clock exec allowed (scheduler_init s)
  | schedule (s : Machine σ) (task : Nat) (mode : TaskExecutionModeEnum_t)
      (rate context : Nat) :
      Reachable clock exec allowed s → allowed task mode →
      Reachable clock exec allowed (schedule clock task mode rate context s).2
  | cancel (s : Machine σ) (task : Nat) :
      Reachable clock exec allowed s →
      Reachable clock exec allowed (cancel_schedule task s).2
  | process (s s' : Machine σ) (fuel : Nat) (r : Int) (tr : List Nat) :
      Reachable clock exec allowed s →
      scheduler_core_process clock exec fuel s = some (r, tr, s') →
      Reachable clock exec allowed s'

/-- No task is bound in more than one slot whose mode is not
`SCHEDULE_MODE_MULTI_SCHEDULE`. -/
def Table.no_duplicates (t : Table) : Prop :=
  ∀ i, i < SCHEDULER_SIZE → ∀ j, j < SCHEDULER_SIZE → t.occupied i →
    (t.get i).order.execute = (t.get j).order.execute →
    (t.get i).order.mode ≠ SCHEDULE_MODE_MULTI_SCHEDULE →
    (t.get j).order.mode ≠ SCHEDULE_MODE_MULTI_SCHEDULE → i = j

/-- The table of a program in which the tasks `multi` are only ever registered in
`SCHEDULE_MODE_MULTI_SCHEDULE` and the other tasks never are: a slot bound to a task of
the first kind is in that mode, and a task of the second kind is bound in at most one
slot. -/
def Table.disciplined (multi : Nat → Prop) (t : Table) : Prop :=
  (∀ i, i < SCHEDULER_SIZE → t.occupied i → multi (t.get i).order.execute →
    (t.get i).order.mode = SCHEDULE_MODE_MULTI_SCHEDULE) ∧
  (∀ i j, i < SCHEDULER_SIZE → j < SCHEDULER_SIZE → t.occupied i →
    (t.get i).order.execute = (t.get j).order.execute →
    ¬ multi (t.get i).order.execute → i = j)

/-! ## The coroutine macros (`mw_coroutine.h`)

The macros call `schedule` with three arguments; the fourth argument of `scheduler.h`,
the context, is a parameter of the model.  `__LINE__` is the parameter `line`. -/

/-- The static variables that `create_coroutine` and `begin_coroutine` declare for a
routine: the semaphore, its value and the resume point `a`; `user` is the rest of the
memory of the program. -/
structure Statics (τ : Type) where
  a : Int
  semaphore : Int
  semaphore_value : Int
  user : τ

/-- The function `semaphore_name##_setter_callback` generated by `create_coroutine`. -/
def semaphore_setter_callback {τ : Type} (clock : Nat → Nat) (routine_name context : Nat)
    (value : Int) (s : Machine (Statics τ)) : Int × Machine (Statics τ) :=
  let s1 : Machine (Statics τ) := { s with mem := { s.mem with semaphore := 1 } }
  let s2 : Machine (Statics τ) := { s1 with mem := { s1.mem with semaphore_value := value } }
  (0, (schedule clock routine_name SCHEDULE_MODE_MULTI_SCHEDULE 0 context s2).2)

/-- The statements of `wait_ms(routine_name, ms)` up to its `return 0`. -/
def wait_ms_suspend {τ : Type} (clock : Nat → Nat) (routine_name context : Nat)
    (line : Int) (ms : Nat) (s : Machine (Statics τ)) : Nat × Machine (Statics τ) :=
  let s1 : Machine (Statics τ) := { s with mem := { s.mem with a := line } }
  (0, (schedule clock routine_name SCHEDULE_MODE_MULTI_SCHEDULE ms context s1).2)

/-- The statements of `wait(semaphore_name)` up to its `return 0`. -/
def wait_suspend {τ : Type} (line : Int) (s : Machine (Statics τ)) :
    Nat × Machine (Statics τ) :=
  let s1 : Machine (Statics τ) := { s with mem := { s.mem with a := line } }
  (0, { s1 with mem := { s1.mem with semaphore := 0 } })

/-- The statement of `wait(semaphore_name)` after its `case (__LINE__):` label. -/
def wait_resume {τ : Type} (s : Machine (Statics τ)) : Machine (Statics τ) :=
  { s with mem := { s.mem with semaphore := 0 } }

/-- The statement `a = 0;` of `end_coroutine()`. -/
def end_coroutine {τ : Type} (s : Machine (Statics τ)) : Machine (Statics τ) :=
  { s with mem := { s.mem with a := 0 } }

/-- A routine of the shape
`begin_coroutine() BEFORE; wait(sem); AFTER ... end_coroutine() TAIL`:
the `switch (a)` enters at `case 0`, at the label of the `wait`, or, when `a` matches no
label, falls to `end_coroutine`.  `after` is all that follows the `wait` statement. -/
def coroutine_with_wait {τ : Type} (line : Int)
    (before : Machine (Statics τ) → Machine (Statics τ))
    (after tail : Machine (Statics τ) → Nat × Machine (Statics τ))
    (s : Machine (Statics τ)) : Nat × Machine (Statics τ) :=
  if s.mem.a = 0 then wait_suspend line (before s)
  else if s.mem.a = line then after (wait_resume s)
  else tail (end_coroutine s)

/-- A routine of the shape
`begin_coroutine() BEFORE; wait_ms(routine_name, ms); AFTER ... end_coroutine() TAIL`;
the label of `wait_ms` is followed by an empty statement. -/
def coroutine_with_wait_ms {τ : Type} (clock : Nat → Nat) (routine_name context : Nat)
    (line : Int) (ms : Nat)
    (before : Machine (Statics τ) → Machine (Statics τ))
    (after tail : Machine (Statics τ) → Nat × Machine (Statics τ))
    (s : Machine (Statics τ)) : Nat × Machine (Statics τ) :=
  if s.mem.a = 0 then wait_ms_suspend clock routine_name context line ms (before s)
  else if s.mem.a = line then after s
  else tail (end_coroutine s)

/-! ## What a running task may do to the table -/

/-- The array `scheduled_tasks` is `static` in `scheduler.c`: a task changes it only by
calling `schedule` and `cancel_schedule`.  `TaskEffect clock allowed s s'` says that the
table of `s'` comes from the table of `s` by a sequence of such calls, the registrations
being among those that `allowed task mode` admits; between the calls the task may change
anything but the table. -/
inductive TaskEffect {σ : Type} (clock : Nat → Nat)
    (allowed : Nat → TaskExecutionModeEnum_t → Prop) : Machine σ → Machine σ → Prop where
  | keep (s s' : Machine σ) :
      s'.scheduled_tasks = s.scheduled_tasks → TaskEffect clock allowed s s'
  | schedule (s s1 s' : Machine σ) (task : Nat) (mode : TaskExecutionModeEnum_t)
      (rate context : Nat) :
      TaskEffect clock allowed s s1 → allowed task mode →
      s'.scheduled_tasks = (schedule clock task mode rate context s1).2.scheduled_tasks →
      TaskEffect clock allowed s s'
  | cancel (s s1 s' : Machine σ) (task : Nat) :
      TaskEffect clock allowed s s1 →
      s'.scheduled_tasks = (cancel_schedule task s1).2.scheduled_tasks →
      TaskEffect clock allowed s s'

/-! ## Concrete data for the examples -/

/-- A clock that starts at 1000 and advances by one tick at every reading, up to
1001000. -/
def demo_clock : Nat → Nat := fun k => 1000 + min k 1000000

/-- The table after `scheduler_init` and two registrations of task 7 in
`SCHEDULE_MODE_MULTI_SCHEDULE`: slots 0 and 1 are both bound to task 7. -/
def twice_scheduled : Machine Unit :=
  (schedule demo_clock 7 SCHEDULE_MODE_MULTI_SCHEDULE 0 0
    (schedule demo_clock 7 SCHEDULE_MODE_MULTI_SCHEDULE 0 0
      (scheduler_init Machine.boot)).2).2

/-- A clock that reads 0 at first and 250 ever after: a registration at time 0 and a
dispatch delayed until time 250. -/
def late_clock : Nat → Nat := fun k => if k = 0 then 0 else 250

/-- Tasks that return 0 and touch nothing. -/
def idle_exec : TaskEnv Unit := fun _ _ s => (0, s)

/-- Tasks that ask to be run again after 4 ticks and touch nothing. -/
def busy_exec : TaskEnv Unit := fun _ _ s => (4, s)

/-- Tasks that call `schedule` while they run.  Task 2 does what `wait_ms(5)` expands
to: it registers itself in `SCHEDULE_MODE_MULTI_SCHEDULE` with delay 5 and returns 0.
Task 3 registers itself anew (once, rate 9, context 42) and returns 4.  Task 4 registers
itself anew at the fixed rate 7 and returns 0.  Every other task returns 0 and touches
nothing. -/
def calling_exec (clock : Nat → Nat) : TaskEnv Unit := fun task _ s =>
  if task = 2 then (0, (schedule clock 2 SCHEDULE_MODE_MULTI_SCHEDULE 5 0 s).2)
  else if task = 3 then (4, (schedule clock 3 SCHEDULE_MODE_ONCE 9 42 s).2)
  else if task = 4 then (0, (schedule clock 4 SCHEDULE_MODE_FIXED_RATE 7 0 s).2)
  else (0, s)

/-- Slot 0 empty and task 2 bound once in slot 1: the state after `scheduler_init`, the
registration of tasks 1 and 2 and the cancellation of task 1. -/
def gap_machine : Machine Unit :=
  (cancel_schedule 1
    (schedule demo_clock 2 SCHEDULE_MODE_ONCE 0 0
      (schedule demo_clock 1 SCHEDULE_MODE_ONCE 0 0 (scheduler_init Machine.boot)).2).2).2

/-- Task 5 bound once in slot 0 and task 2 bound once in slot 1. -/
def pair_machine : Machine Unit :=
  (schedule demo_clock 2 SCHEDULE_MODE_ONCE 0 0
    (schedule demo_clock 5 SCHEDULE_MODE_ONCE 0 0 (scheduler_init Machine.boot)).2).2

/-- Task 3 bound once in slot 0, with context 11. -/
def single_machine : Machine Unit :=
  (schedule demo_clock 3 SCHEDULE_MODE_ONCE 0 11 (scheduler_init Machine.boot)).2

/-- Task 4 registered at time 0 with the fixed period 100: slot 0 has anchor 100. -/
def fixed_machine : Machine Unit :=
  (schedule late_clock 4 SCHEDULE_MODE_FIXED_RATE 100 0 (scheduler_init Machine.boot)).2

/-- A full table: tasks 1 to 16 registered in turn after `scheduler_init`. -/
def full_machine : Machine Unit :=
  (List.range 16).foldl
    (fun s k => (schedule demo_clock (k + 1) SCHEDULE_MODE_ONCE 10 0 s).2)
    (scheduler_init Machine.boot)

/-- Task 3 registered once with a delay of 50 ticks at time 1000: not due before 1050. -/
def waiting_machine : Machine Unit :=
  (schedule demo_clock 3 SCHEDULE_MODE_ONCE 50 0 (scheduler_init Machine.boot)).2

/-- Task 6 registered at the fixed rate 0 at time 1000. -/
def stuck_machine : Machine Unit :=
  (schedule demo_clock 6 SCHEDULE_MODE_FIXED_RATE 0 0 (scheduler_init Machine.boot)).2

/-- The state after `scheduler_init`, `schedule(1, ONCE)`, `schedule(7, ONCE)`,
`cancel_schedule(1)`, `schedule(7, MULTI_SCHEDULE)` and `schedule(7, ONCE)`. -/
def doubled_machine : Machine Unit :=
  (schedule demo_clock 7 SCHEDULE_MODE_ONCE 0 0
    (schedule demo_clock 7 SCHEDULE_MODE_MULTI_SCHEDULE 0 0
      (cancel_schedule 1
        (schedule demo_clock 7 SCHEDULE_MODE_ONCE 0 0
          (schedule demo_clock 1 SCHEDULE_MODE_ONCE 0 0
            (scheduler_init Machine.boot)).2).2).2).2).2

/-- Task 8 registers task 9 (once, no delay) while it runs and returns 0; every other
task returns 0 and touches nothing. -/
def spawning_exec (clock : Nat → Nat) : TaskEnv Unit := fun task _ s =>
  if task = 8 then (0, (schedule clock 9 SCHEDULE_MODE_ONCE 0 0 s).2) else (0, s)

/-- Task 8 bound once in slot 0, due at once. -/
def spawner_machine : Machine Unit :=
  (schedule demo_clock 8 SCHEDULE_MODE_ONCE 0 0 (scheduler_init Machine.boot)).2

/-- A machine with the statics of a coroutine, all zero as C initialises them, and a
zero table. -/
def Machine.co_boot : Machine (Statics Unit) :=
  { scheduled_tasks := Table.zero, clock_reads := 0, notify_calls := 0,
    mem := { a := 0, semaphore := 0, semaphore_value := 0, user := () } }

/-- Task 2 is a coroutine whose only suspension is `wait_ms(2, 5)`, written on line 30;
every other task returns 0 and touches nothing. -/
def sleeping_exec (clock : Nat → Nat) : TaskEnv (Statics Unit) := fun task _ s =>
  if task = 2 then
    coroutine_with_wait_ms clock 2 0 30 5 (fun s => s) (fun s => (0, end_coroutine s))
      (fun s => (0, s)) s
  else (0, s)

/-- Slot 0 empty and the coroutine (task 2) bound once in slot 1: the state after
`scheduler_init`, the registration of tasks 1 and 2 and the cancellation of task 1. -/
def co_gap_machine : Machine (Statics Unit) :=
  (cancel_schedule 1
    (schedule demo_clock 2 SCHEDULE_MODE_ONCE 0 0
      (schedule demo_clock 1 SCHEDULE_MODE_ONCE 0 0 (scheduler_init Machine.co_boot)).2).2).2

/-- The coroutine (task 2) bound once in slot 0. -/
def co_single_machine : Machine (Statics Unit) :=
  (schedule demo_clock 2 SCHEDULE_MODE_ONCE 0 0 (scheduler_init Machine.co_boot)).2


/-- Task 3 registers itself anew (once, rate 9, context 42) while it runs and returns 0;
every other task returns 0 and touches nothing. -/
def rearming_exec (clock : Nat → Nat) : TaskEnv Unit := fun task _ s =>
  if task = 3 then (0, (schedule clock 3 SCHEDULE_MODE_ONCE 9 42 s).2) else (0, s)


/-- Task 2 is a coroutine whose only suspension is a `wait` on its semaphore, written on
line 40; every other task returns 0 and touches nothing. -/
def waiting_exec : TaskEnv (Statics Unit) := fun task _ s =>
  if task = 2 then
    coroutine_with_wait 40 (fun s => s) (fun s => (0, end_coroutine s)) (fun s => (0, s)) s
  else (0, s)


/-- The state after `scheduler_init`, `schedule(3, ONCE)`, `schedule(2, MULTI_SCHEDULE)`
and a second `schedule(3, ONCE)`: task 3 in slot 0 and task 2 in slot 1, both due at
once. -/
def rebound_machine : Machine Unit :=
  (schedule demo_clock 3 SCHEDULE_MODE_ONCE 0 11
    (schedule demo_clock 2 SCHEDULE_MODE_MULTI_SCHEDULE 0 0
      (schedule demo_clock 3 SCHEDULE_MODE_ONCE 0 11 (scheduler_init Machine.boot)).2).2).2

end MWScheduler

namespace MWScheduler
open TaskExecutionModeEnum_t

/-! ## Machine integers: basic facts -/

theorem toInt64_of_range (x : Int) (h1 : -9223372036854775808 ≤ x)
    (h2 : x ≤ 9223372036854775807) : toInt64 x = x := by
  unfold toInt64; omega

theorem toInt64_bounds (x : Int) :
    -9223372036854775808 ≤ toInt64 x ∧ toInt64 x ≤ 9223372036854775807 := by
  unfold toInt64; omega

theorem toUInt64_of_range (x : Int) (h1 : 0 ≤ x) (h2 : x < 18446744073709551616) :
    toUInt64 x = x := by
  unfold toUInt64; omega

theorem MS_TO_SYSTICKS_of_range (x : Int) (h1 : -9223372036854775808 ≤ x)
    (h2 : x ≤ 9223372036854775807) : MS_TO_SYSTICKS x = x := by
  unfold MS_TO_SYSTICKS SYSTICKS_PER_MS
  rw [mul_one, toInt64_of_range x h1 h2, toInt64_of_range x h1 h2]

theorem toUInt32_lt (x : Nat) : toUInt32 x < 4294967296 := by
  unfold toUInt32; omega

/-! ## The table -/

theorem Table.get_set_eq (t : Table) (i : Nat) (e : SchedulerEntry_t)
    (h : i < SCHEDULER_SIZE) : (t.set i e).get i = e := by
  have hl : i < t.slots.length := by rw [t.size_eq]; exact h
  simp [Table.get, Table.set, List.getD_eq_getElem?_getD, List.getElem?_set, hl]

theorem Table.get_set_ne (t : Table) (i j : Nat) (e : SchedulerEntry_t) (h : i ≠ j) :
    (t.set i e).get j = t.get j := by
  simp [Table.get, Table.set, List.getD_eq_getElem?_getD, List.getElem?_set, h]

theorem Table.get_of_le (t : Table) (i : Nat) (h : SCHEDULER_SIZE ≤ i) :
    t.get i = zero_entry := by
  have hl : t.slots.length ≤ i := by rw [t.size_eq]; exact h
  simp [Table.get, List.getD_eq_getElem?_getD, List.getElem?_eq_none hl]

theorem Table.ext_get (t u : Table) (h : ∀ i, i < SCHEDULER_SIZE → t.get i = u.get i) :
    t = u := by
  cases t with
  | mk ts hts =>
    cases u with
    | mk us hus =>
      have : ts = us := by
        apply List.ext_getElem (by rw [hts, hus])
        intro n h1 h2
        have hn : n < SCHEDULER_SIZE := by rw [← hts]; exact h1
        have := h n hn
        simpa [Table.get, List.getD_eq_getElem?_getD, List.getElem?_eq_getElem h1,
          List.getElem?_eq_getElem h2] using this
      subst this
      rfl

theorem Table.set_get_self (t : Table) (i : Nat) : t.set i (t.get i) = t := by
  apply Table.ext_get
  intro j hj
  by_cases h : i = j
  · subst h
    rw [Table.get_set_eq _ _ _ hj]
  · rw [Table.get_set_ne _ _ _ _ h]

theorem countP_set_add {α : Type} (p : α → Bool) (l : List α) (i : Nat) (e : α)
    (h : i < l.length) :
    (l.set i e).countP p + (if p (l.getD i e) then 1 else 0)
      = l.countP p + (if p e then 1 else 0) := by
  induction l generalizing i with
  | nil => simp at h
  | cons a l ih =>
    cases i with
    | zero =>
      simp only [List.set_cons_zero, List.countP_cons, List.getD_cons_zero]
      omega
    | succ n =>
      have hn : n < l.length := by simpa using h
      have := ih n hn
      simp only [List.set_cons_succ, List.countP_cons, List.getD_cons_succ]
      omega

theorem Table.occupied_count_set (t : Table) (i : Nat) (e : SchedulerEntry_t)
    (h : i < SCHEDULER_SIZE) :
    (t.set i e).occupied_count + (if (t.get i).order.execute ≠ 0 then 1 else 0)
      = t.occupied_count + (if e.order.execute ≠ 0 then 1 else 0) := by
  have hl : i < t.slots.length := by rw [t.size_eq]; exact h
  have := countP_set_add (fun e => decide (e.order.execute ≠ 0)) t.slots i e hl
  have hg : t.slots.getD i e = t.get i := by
    simp [Table.get, List.getD_eq_getElem?_getD, List.getElem?_eq_getElem hl]
  rw [hg] at this
  simpa [Table.occupied_count, Table.set] using this

/-! ## The search loop -/

theorem find_slot_eq_some_iff (t : Table) (task : Nat) (k a i : Nat) :
    find_slot t task k a = some i ↔
      a ≤ i ∧ i < a + k ∧ (t.get i).order.execute = task ∧
        ∀ j, a ≤ j → j < i → (t.get j).order.execute ≠ task := by
  induction k generalizing a with
  | zero =>
    simp only [find_slot]
    constructor
    · intro h; cases h
    · rintro ⟨h1, h2, _⟩; omega
  | succ k ih =>
    simp only [find_slot]
    by_cases hc : (t.get a).order.execute = task
    · rw [if_pos hc]
      constructor
      · intro h
        have : a = i := by simpa using h
        subst this
        exact ⟨le_refl _, by omega, hc, fun j h1 h2 => by omega⟩
      · rintro ⟨h1, _, _, h4⟩
        by_cases hai : a = i
        · rw [hai]
        · exact absurd hc (h4 a (le_refl _) (by omega))
    · rw [if_neg hc, ih (a + 1)]
      constructor
      · rintro ⟨h1, h2, h3, h4⟩
        refine ⟨by omega, by omega, h3, ?_⟩
        intro j hj1 hj2
        by_cases hja : j = a
        · rw [hja]; exact hc
        · exact h4 j (by omega) hj2
      · rintro ⟨h1, h2, h3, h4⟩
        have hne : a ≠ i := by
          intro h; rw [h] at hc; exact hc h3
        exact ⟨by omega, by omega, h3, fun j hj1 hj2 => h4 j (by omega) hj2⟩

theorem find_slot_eq_none_iff (t : Table) (task : Nat) (k a : Nat) :
    find_slot t task k a = none ↔
      ∀ j, a ≤ j → j < a + k → (t.get j).order.execute ≠ task := by
  induction k generalizing a with
  | zero =>
    simp only [find_slot]
    constructor
    · intro _ j h1 h2; omega
    · intro _; trivial
  | succ k ih =>
    simp only [find_slot]
    by_cases hc : (t.get a).order.execute = task
    · rw [if_pos hc]
      constructor
      · intro h; cases h
      · intro h; exact absurd hc (h a (le_refl _) (by omega))
    · rw [if_neg hc, ih (a + 1)]
      constructor
      · intro h j h1 h2
        by_cases hja : j = a
        · rw [hja]; exact hc
        · exact h j (by omega) (by omega)
      · intro h j h1 h2
        exact h j (by omega) (by omega)

/-! ## Registration and cancellation: what the functions compute -/

theorem bind_time_of_range (c r : Nat) (h : (c : Int) + (r : Int) ≤ INT64_MAX) :
    toInt64 (toUInt64 (toUInt64 (c : Int) + toUInt64 (MS_TO_SYSTICKS (r : Int))))
      = (c : Int) + (r : Int) := by
  unfold INT64_MAX at h
  unfold MS_TO_SYSTICKS SYSTICKS_PER_MS toUInt64 toInt64
  simp only [mul_one]
  omega

theorem bind_task_table {σ : Type} (clock : Nat → Nat) (i : Nat) (o : TaskOrder_t)
    (s : Machine σ) :
    (bind_task clock i o s).2.scheduled_tasks =
      s.scheduled_tasks.set i
        { order := o, config := 0,
          current_execution_beginning :=
            toInt64 (toUInt64 (toUInt64 (clock s.clock_reads : Int)
              + toUInt64 (MS_TO_SYSTICKS (o.rate : Int)))),
          next_execution_time :=
            toInt64 (toUInt64 (toUInt64 (clock s.clock_reads : Int)
              + toUInt64 (MS_TO_SYSTICKS (o.rate : Int)))) } := rfl

theorem bind_task_notify {σ : Type} (clock : Nat → Nat) (i : Nat) (o : TaskOrder_t)
    (s : Machine σ) : (bind_task clock i o s).2.notify_calls = s.notify_calls + 1 := rfl

theorem bind_task_reads {σ : Type} (clock : Nat → Nat) (i : Nat) (o : TaskOrder_t)
    (s : Machine σ) : (bind_task clock i o s).2.clock_reads = s.clock_reads + 1 := rfl

theorem schedule_rebind {σ : Type} (clock : Nat → Nat) (task : Nat)
    (mode : TaskExecutionModeEnum_t) (rate context : Nat) (s : Machine σ) (i : Nat)
    (hmode : mode ≠ SCHEDULE_MODE_MULTI_SCHEDULE)
    (hf : find_slot s.scheduled_tasks task SCHEDULER_SIZE 0 = some i) :
    schedule clock task mode rate context s =
      ((i : Int), (bind_task clock i
        { execute := task, rate := rate, mode := mode, context := context } s).2) := by
  simp only [schedule, ne_eq, hmode, not_false_eq_true, if_true, hf]

theorem schedule_fresh {σ : Type} (clock : Nat → Nat) (task : Nat)
    (mode : TaskExecutionModeEnum_t) (rate context : Nat) (s : Machine σ) (i : Nat)
    (hnot : mode = SCHEDULE_MODE_MULTI_SCHEDULE ∨
      find_slot s.scheduled_tasks task SCHEDULER_SIZE 0 = none)
    (hf : find_slot s.scheduled_tasks 0 SCHEDULER_SIZE 0 = some i) :
    schedule clock task mode rate context s =
      ((i : Int), (bind_task clock i
        { execute := task, rate := rate, mode := mode, context := context } s).2) := by
  rcases hnot with h | h
  · simp only [schedule, h, ne_eq, not_true_eq_false, if_false, hf]
  · by_cases hm : mode = SCHEDULE_MODE_MULTI_SCHEDULE
    · simp only [schedule, hm, ne_eq, not_true_eq_false, if_false, hf]
    · simp only [schedule, ne_eq, hm, not_false_eq_true, if_true, h, hf]

theorem schedule_full {σ : Type} (clock : Nat → Nat) (task : Nat)
    (mode : TaskExecutionModeEnum_t) (rate context : Nat) (s : Machine σ)
    (hnot : mode = SCHEDULE_MODE_MULTI_SCHEDULE ∨
      find_slot s.scheduled_tasks task SCHEDULER_SIZE 0 = none)
    (hf : find_slot s.scheduled_tasks 0 SCHEDULER_SIZE 0 = none) :
    schedule clock task mode rate context s = (-1, s) := by
  rcases hnot with h | h
  · simp only [schedule, h, ne_eq, not_true_eq_false, if_false, hf]
  · by_cases hm : mode = SCHEDULE_MODE_MULTI_SCHEDULE
    · simp only [schedule, hm, ne_eq, not_true_eq_false, if_false, hf]
    · simp only [schedule, ne_eq, hm, not_false_eq_true, if_true, h, hf]

theorem find_slot_after_set (t : Table) (task : Nat) (i : Nat) (e : SchedulerEntry_t)
    (hi : i < SCHEDULER_SIZE) (he : e.order.execute = task)
    (hlow : ∀ j, j < i → (t.get j).order.execute ≠ task) :
    find_slot (t.set i e) task SCHEDULER_SIZE 0 = some i := by
  rw [find_slot_eq_some_iff]
  refine ⟨Nat.zero_le _, by omega, ?_, ?_⟩
  · rw [Table.get_set_eq _ _ _ hi]; exact he
  · intro j _ hj
    rw [Table.get_set_ne _ _ _ _ (by omega)]
    exact hlow j hj

/-- A registration in a mode other than `SCHEDULE_MODE_MULTI_SCHEDULE`, made right
after slot `i` was bound to the same task with no lower slot bound to it, rebinds
slot `i`. -/
theorem schedule_again {σ : Type} (clock : Nat → Nat) (s : Machine σ) (task : Nat)
    (o1 : TaskOrder_t) (m2 : TaskExecutionModeEnum_t) (r2 c2 : Nat) (i : Nat)
    (ho1 : o1.execute = task) (hi : i < SCHEDULER_SIZE)
    (hm2 : m2 ≠ SCHEDULE_MODE_MULTI_SCHEDULE)
    (hlow : ∀ j, j < i → (s.scheduled_tasks.get j).order.execute ≠ task) :
    schedule clock task m2 r2 c2 (bind_task clock i o1 s).2 =
      ((i : Int), (bind_task clock i
        { execute := task, rate := r2, mode := m2, context := c2 }
        (bind_task clock i o1 s).2).2) := by
  apply schedule_rebind _ _ _ _ _ _ _ hm2
  rw [bind_task_table]
  exact find_slot_after_set _ _ _ _ hi ho1 hlow

theorem rebind_facts {σ : Type} (clock : Nat → Nat) (s1 : Machine σ) (task : Nat)
    (m2 : TaskExecutionModeEnum_t) (r2 c2 : Nat) (i : Nat) (hi : i < SCHEDULER_SIZE)
    (hb : (s1.scheduled_tasks.get i).order.execute = task)
    (hrange : (clock s1.clock_reads : Int) + (r2 : Int) ≤ INT64_MAX) :
    (bind_task clock i { execute := task, rate := r2, mode := m2, context := c2 }
        s1).2.scheduled_tasks.occupied_count = s1.scheduled_tasks.occupied_count ∧
    (bind_task clock i { execute := task, rate := r2, mode := m2, context := c2 }
        s1).2.scheduled_tasks.get i =
      { order := { execute := task, rate := r2, mode := m2, context := c2 }, config := 0,
        current_execution_beginning := (clock s1.clock_reads : Int) + (r2 : Int),
        next_execution_time := (clock s1.clock_reads : Int) + (r2 : Int) } ∧
    (∀ j, j ≠ i →
      (bind_task clock i { execute := task, rate := r2, mode := m2, context := c2 }
        s1).2.scheduled_tasks.get j = s1.scheduled_tasks.get j) := by
  rw [bind_task_table]
  dsimp only
  refine ⟨?_, ?_, ?_⟩
  · have := Table.occupied_count_set s1.scheduled_tasks i
      { order := { execute := task, rate := r2, mode := m2, context := c2 }, config := 0,
        current_execution_beginning :=
          toInt64 (toUInt64 (toUInt64 (clock s1.clock_reads : Int)
            + toUInt64 (MS_TO_SYSTICKS (r2 : Int)))),
        next_execution_time :=
          toInt64 (toUInt64 (toUInt64 (clock s1.clock_reads : Int)
            + toUInt64 (MS_TO_SYSTICKS (r2 : Int)))) } hi
    rw [hb] at this
    simp only at this
    omega
  · rw [Table.get_set_eq _ _ _ hi, bind_time_of_range _ _ hrange]
  · intro j hj
    rw [Table.get_set_ne _ _ _ _ (Ne.symm hj)]

/-- Claim C3.  Two registrations of the same task, both in a mode other than
`SCHEDULE_MODE_MULTI_SCHEDULE`: the second call returns what the first returned, the
number of occupied slots does not change, the slot returned by the first call holds the
second order with both timestamps equal to `now + r2` (`now` is the clock value read by
the second call, `now + r2` at most `INT64_MAX`), and every other slot is as the first
call left it.  When the first call fails (`-1`, table full), so does the second, and the
table stays as it was. -/
theorem C3_second_registration_rebinds {σ : Type} (clock : Nat → Nat) (s : Machine σ)
    (task : Nat) (m1 m2 : TaskExecutionModeEnum_t) (r1 c1 r2 c2 : Nat)
    (hm1 : m1 ≠ SCHEDULE_MODE_MULTI_SCHEDULE) (hm2 : m2 ≠ SCHEDULE_MODE_MULTI_SCHEDULE)
    (hrange : (clock (schedule clock task m1 r1 c1 s).2.clock_reads : Int) + (r2 : Int)
      ≤ INT64_MAX) :
    (schedule clock task m2 r2 c2 (schedule clock task m1 r1 c1 s).2).1
        = (schedule clock task m1 r1 c1 s).1 ∧
    (schedule clock task m2 r2 c2 (schedule clock task m1 r1 c1 s).2).2.scheduled_tasks.occupied_count
        = (schedule clock task m1 r1 c1 s).2.scheduled_tasks.occupied_count ∧
    (∀ i, i < SCHEDULER_SIZE → (schedule clock task m1 r1 c1 s).1 = (i : Int) →
      (schedule clock task m2 r2 c2 (schedule clock task m1 r1 c1 s).2).2.scheduled_tasks.get i
        = { order := { execute := task, rate := r2, mode := m2, context := c2 },
            config := 0,
            current_execution_beginning :=
              (clock (schedule clock task m1 r1 c1 s).2.clock_reads : Int) + (r2 : Int),
            next_execution_time :=
              (clock (schedule clock task m1 r1 c1 s).2.clock_reads : Int) + (r2 : Int) }) ∧
    (∀ j, j < SCHEDULER_SIZE → (j : Int) ≠ (schedule clock task m1 r1 c1 s).1 →
      (schedule clock task m2 r2 c2 (schedule clock task m1 r1 c1 s).2).2.scheduled_tasks.get j
        = (schedule clock task m1 r1 c1 s).2.scheduled_tasks.get j) := by
  have key : ∀ i, i < SCHEDULER_SIZE →
      (∀ j, j < i → (s.scheduled_tasks.get j).order.execute ≠ task) →
      schedule clock task m1 r1 c1 s = ((i : Int), (bind_task clock i
        { execute := task, rate := r1, mode := m1, context := c1 } s).2) →
      (schedule clock task m2 r2 c2 (schedule clock task m1 r1 c1 s).2).1
          = (schedule clock task m1 r1 c1 s).1 ∧
      (schedule clock task m2 r2 c2
          (schedule clock task m1 r1 c1 s).2).2.scheduled_tasks.occupied_count
          = (schedule clock task m1 r1 c1 s).2.scheduled_tasks.occupied_count ∧
      (∀ i, i < SCHEDULER_SIZE → (schedule clock task m1 r1 c1 s).1 = (i : Int) →
        (schedule clock task m2 r2 c2
            (schedule clock task m1 r1 c1 s).2).2.scheduled_tasks.get i
          = { order := { execute := task, rate := r2, mode := m2, context := c2 },
              config := 0,
              current_execution_beginning :=
                (clock (schedule clock task m1 r1 c1 s).2.clock_reads : Int) + (r2 : Int),
              next_execution_time :=
                (clock (schedule clock task m1 r1 c1 s).2.clock_reads : Int) + (r2 : Int) }) ∧
      (∀ j, j < SCHEDULER_SIZE → (j : Int) ≠ (schedule clock task m1 r1 c1 s).1 →
        (schedule clock task m2 r2 c2
            (schedule clock task m1 r1 c1 s).2).2.scheduled_tasks.get j
          = (schedule clock task m1 r1 c1 s).2.scheduled_tasks.get j) := by
    intro i hi hlow hfirst
    rw [hfirst] at hrange ⊢
    simp only at hrange ⊢
    have hsecond := schedule_again clock s task
      { execute := task, rate := r1, mode := m1, context := c1 } m2 r2 c2 i rfl hi hm2 hlow
    rw [hsecond]
    simp only
    have hb : ((bind_task clock i
        { execute := task, rate := r1, mode := m1, context := c1 } s).2.scheduled_tasks.get
          i).order.execute = task := by
      rw [bind_task_table, Table.get_set_eq _ _ _ hi]
    obtain ⟨f1, f2, f3⟩ := rebind_facts clock _ task m2 r2 c2 i hi hb hrange
    refine ⟨trivial, f1, ?_, ?_⟩
    · intro i2 _ h2
      have : i = i2 := by exact_mod_cast h2
      subst this
      exact f2
    · intro j _ hj
      apply f3
      intro h
      apply hj
      rw [h]
  cases hA : find_slot s.scheduled_tasks task SCHEDULER_SIZE 0 with
  | some i =>
    obtain ⟨_, hi, _, hlow⟩ := (find_slot_eq_some_iff _ _ _ _ _).1 hA
    exact key i (by omega) (fun j hj => hlow j (Nat.zero_le _) hj)
      (schedule_rebind clock task m1 r1 c1 s i hm1 hA)
  | none =>
    cases hB : find_slot s.scheduled_tasks 0 SCHEDULER_SIZE 0 with
    | some i =>
      obtain ⟨_, hi, _, _⟩ := (find_slot_eq_some_iff _ _ _ _ _).1 hB
      have hn := (find_slot_eq_none_iff _ _ _ _).1 hA
      exact key i (by omega) (fun j hj => hn j (Nat.zero_le _) (by omega))
        (schedule_fresh clock task m1 r1 c1 s i (Or.inr hA) hB)
    | none =>
      have h1 := schedule_full clock task m1 r1 c1 s (Or.inr hA) hB
      rw [h1]
      simp only
      have h2 := schedule_full clock task m2 r2 c2 s (Or.inr hA) hB
      rw [h2]
      refine ⟨rfl, rfl, ?_, ?_⟩
      · intro i _ h; omega
      · intro j _ _; rfl

/-- A worked instance of C3: task 7 registered once-only, then at a fixed rate. -/
theorem C3_second_registration_rebinds_witness :
    SCHEDULE_MODE_ONCE ≠ SCHEDULE_MODE_MULTI_SCHEDULE ∧
    SCHEDULE_MODE_FIXED_RATE ≠ SCHEDULE_MODE_MULTI_SCHEDULE ∧
    (schedule demo_clock 7 SCHEDULE_MODE_ONCE 10 1 Machine.boot).1 = 0 ∧
    (schedule demo_clock 7 SCHEDULE_MODE_FIXED_RATE 20 2
      (schedule demo_clock 7 SCHEDULE_MODE_ONCE 10 1 Machine.boot).2).2.scheduled_tasks.get 0
      = { order := { execute := 7, rate := 20, mode := SCHEDULE_MODE_FIXED_RATE,
                     context := 2 },
          config := 0, current_execution_beginning := 1021, next_execution_time := 1021 } :=
  ⟨by decide, by decide, by decide,
   (C3_second_registration_rebinds demo_clock Machine.boot 7 SCHEDULE_MODE_ONCE
      SCHEDULE_MODE_FIXED_RATE 10 1 20 2 (by decide) (by decide) (by decide)).2.2.1 0
      (by decide) (by decide)⟩

/-- Claim C4.  In a table with an empty slot, registering a non-null task in
`SCHEDULE_MODE_MULTI_SCHEDULE` returns the lowest empty slot, binds it to the order with
both timestamps `now + rate` (at most `INT64_MAX`), leaves every other slot, and so every
slot occupied before, unchanged, and raises the number of occupied slots by one. -/
theorem C4_multi_schedule_takes_first_empty {σ : Type} (clock : Nat → Nat)
    (s : Machine σ) (task rate context : Nat)
    (hfree : ∃ j, j < SCHEDULER_SIZE ∧ ¬ s.scheduled_tasks.occupied j)
    (htask : task ≠ 0)
    (hrange : (clock s.clock_reads : Int) + (rate : Int) ≤ INT64_MAX) :
    ∃ i, i < SCHEDULER_SIZE ∧
      (schedule clock task SCHEDULE_MODE_MULTI_SCHEDULE rate context s).1 = (i : Int) ∧
      ¬ s.scheduled_tasks.occupied i ∧
      (∀ j, j < i → s.scheduled_tasks.occupied j) ∧
      (schedule clock task SCHEDULE_MODE_MULTI_SCHEDULE rate context s).2.scheduled_tasks.get i
        = { order := { execute := task, rate := rate,
                       mode := SCHEDULE_MODE_MULTI_SCHEDULE, context := context },
            config := 0,
            current_execution_beginning := (clock s.clock_reads : Int) + (rate : Int),
            next_execution_time := (clock s.clock_reads : Int) + (rate : Int) } ∧
      (∀ j, j < SCHEDULER_SIZE → s.scheduled_tasks.occupied j →
        (schedule clock task SCHEDULE_MODE_MULTI_SCHEDULE rate context s).2.scheduled_tasks.get j
          = s.scheduled_tasks.get j) ∧
      (∀ j, j < SCHEDULER_SIZE → j ≠ i →
        (schedule clock task SCHEDULE_MODE_MULTI_SCHEDULE rate context s).2.scheduled_tasks.get j
          = s.scheduled_tasks.get j) ∧
      (schedule clock task SCHEDULE_MODE_MULTI_SCHEDULE rate context
          s).2.scheduled_tasks.occupied_count
        = s.scheduled_tasks.occupied_count + 1 := by
  cases hB : find_slot s.scheduled_tasks 0 SCHEDULER_SIZE 0 with
  | none =>
    obtain ⟨j, hj, hjfree⟩ := hfree
    have hn := (find_slot_eq_none_iff _ _ _ _).1 hB j (Nat.zero_le _) (by omega)
    exact absurd hn hjfree
  | some i =>
    obtain ⟨_, hi, hzero, hlow⟩ := (find_slot_eq_some_iff _ _ _ _ _).1 hB
    have hi16 : i < SCHEDULER_SIZE := by omega
    have hs := schedule_fresh clock task SCHEDULE_MODE_MULTI_SCHEDULE rate context s i
      (Or.inl rfl) hB
    rw [hs]
    dsimp only
    rw [bind_task_table]
    dsimp only
    rw [bind_time_of_range _ _ hrange]
    have hnot : ¬ s.scheduled_tasks.occupied i := by
      intro h; exact h hzero
    refine ⟨i, hi16, rfl, hnot, fun j hj => hlow j (Nat.zero_le _) hj, ?_, ?_, ?_, ?_⟩
    · rw [Table.get_set_eq _ _ _ hi16]
    · intro j _ hocc
      have hne : i ≠ j := by
        intro h; rw [h] at hnot; exact hnot hocc
      rw [Table.get_set_ne _ _ _ _ hne]
    · intro j _ hne
      rw [Table.get_set_ne _ _ _ _ (Ne.symm hne)]
    · have := Table.occupied_count_set s.scheduled_tasks i
        { order := { execute := task, rate := rate,
                     mode := SCHEDULE_MODE_MULTI_SCHEDULE, context := context },
          config := 0,
          current_execution_beginning := (clock s.clock_reads : Int) + (rate : Int),
          next_execution_time := (clock s.clock_reads : Int) + (rate : Int) } hi16
      rw [hzero] at this
      simp only [ne_eq, not_true_eq_false, if_false, htask, not_false_eq_true,
        if_true] at this
      omega

/-- A worked instance of C4: task 7, already bound in slots 0 and 1, is registered a
third time and gets slot 2. -/
theorem C4_multi_schedule_takes_first_empty_witness :
    (∃ j, j < SCHEDULER_SIZE ∧ ¬ twice_scheduled.scheduled_tasks.occupied j) ∧
    (7 : Nat) ≠ 0 ∧
    ∃ i, i < SCHEDULER_SIZE ∧
      (schedule demo_clock 7 SCHEDULE_MODE_MULTI_SCHEDULE 5 3 twice_scheduled).1 = (i : Int) ∧
      (schedule demo_clock 7 SCHEDULE_MODE_MULTI_SCHEDULE 5 3
          twice_scheduled).2.scheduled_tasks.occupied_count
        = twice_scheduled.scheduled_tasks.occupied_count + 1 :=
  ⟨⟨2, by decide, by decide⟩, by decide,
   (C4_multi_schedule_takes_first_empty demo_clock twice_scheduled 7 5 3
      ⟨2, by decide, by decide⟩ (by decide) (by decide)).imp
      (fun _ h => ⟨h.1, h.2.1, h.2.2.2.2.2.2.2⟩)⟩

/-- Claim C5.  When all 16 slots are occupied, a registration that does not rebind (the
mode is `SCHEDULE_MODE_MULTI_SCHEDULE`, or the task is bound in no slot) returns `-1`,
leaves the table as it was, and does not call `scheduler_changed_notify`. -/
theorem C5_full_table_rejects {σ : Type} (clock : Nat → Nat) (s : Machine σ)
    (task : Nat) (mode : TaskExecutionModeEnum_t) (rate context : Nat)
    (hfull : ∀ j, j < SCHEDULER_SIZE → s.scheduled_tasks.occupied j)
    (hnot : mode = SCHEDULE_MODE_MULTI_SCHEDULE ∨
      ∀ j, j < SCHEDULER_SIZE → ¬ s.scheduled_tasks.bound task j) :
    (schedule clock task mode rate context s).1 = -1 ∧
    (schedule clock task mode rate context s).2.scheduled_tasks = s.scheduled_tasks ∧
    (∀ j, j < SCHEDULER_SIZE →
      (schedule clock task mode rate context s).2.scheduled_tasks.get j
        = s.scheduled_tasks.get j) ∧
    (schedule clock task mode rate context s).2.notify_calls = s.notify_calls := by
  have hB : find_slot s.scheduled_tasks 0 SCHEDULER_SIZE 0 = none := by
    rw [find_slot_eq_none_iff]
    intro j _ hj
    exact hfull j (by omega)
  have hA : mode = SCHEDULE_MODE_MULTI_SCHEDULE ∨
      find_slot s.scheduled_tasks task SCHEDULER_SIZE 0 = none := by
    rcases hnot with h | h
    · exact Or.inl h
    · right
      rw [find_slot_eq_none_iff]
      intro j _ hj
      exact h j (by omega)
  rw [schedule_full clock task mode rate context s hA hB]
  exact ⟨rfl, rfl, fun _ _ => rfl, rfl⟩

set_option maxRecDepth 100000 in
/-- A worked instance of C5: a seventeenth task is turned away by a full table. -/
theorem C5_full_table_rejects_witness :
    (∀ j, j < SCHEDULER_SIZE → full_machine.scheduled_tasks.occupied j) ∧
    (schedule demo_clock 99 SCHEDULE_MODE_ONCE 10 0 full_machine).1 = -1 ∧
    (schedule demo_clock 99 SCHEDULE_MODE_ONCE 10 0 full_machine).2.notify_calls
      = full_machine.notify_calls :=
  ⟨by decide,
   (C5_full_table_rejects demo_clock full_machine 99 SCHEDULE_MODE_ONCE 10 0 (by decide)
      (Or.inr (by decide))).1,
   (C5_full_table_rejects demo_clock full_machine 99 SCHEDULE_MODE_ONCE 10 0 (by decide)
      (Or.inr (by decide))).2.2.2⟩

/-! ## Cancellation -/

theorem cancel_found {σ : Type} (task : Nat) (s : Machine σ) (i : Nat)
    (h : find_slot s.scheduled_tasks task SCHEDULER_SIZE 0 = some i) :
    cancel_schedule task s = ((i : Int), free_task i s) := by
  simp only [cancel_schedule, h]

theorem cancel_missing {σ : Type} (task : Nat) (s : Machine σ)
    (h : find_slot s.scheduled_tasks task SCHEDULER_SIZE 0 = none) :
    cancel_schedule task s = (-1, s) := by
  simp only [cancel_schedule, h]

/-- Claim C8.  For a task bound in at least one occupied slot, `cancel_schedule` returns
the lowest slot bound to it, zeroes that slot, leaves every other slot unchanged (other
slots bound to the same task included), and lowers the number of occupied slots by
one. -/
theorem C8_cancel_removes_first_match {σ : Type} (s : Machine σ) (task : Nat)
    (hb : ∃ j, j < SCHEDULER_SIZE ∧ s.scheduled_tasks.occupied j ∧
      s.scheduled_tasks.bound task j) :
    ∃ i, i < SCHEDULER_SIZE ∧ (cancel_schedule task s).1 = (i : Int) ∧
      s.scheduled_tasks.bound task i ∧
      (∀ j, j < i → ¬ s.scheduled_tasks.bound task j) ∧
      (cancel_schedule task s).2.scheduled_tasks.get i = zero_entry ∧
      (∀ j, j < SCHEDULER_SIZE → j ≠ i →
        (cancel_schedule task s).2.scheduled_tasks.get j = s.scheduled_tasks.get j) ∧
      (cancel_schedule task s).2.scheduled_tasks.occupied_count + 1
        = s.scheduled_tasks.occupied_count := by
  obtain ⟨j, hj, hocc, hbound⟩ := hb
  have htask : task ≠ 0 := by
    intro h
    apply hocc
    rw [← h]
    exact hbound
  cases hA : find_slot s.scheduled_tasks task SCHEDULER_SIZE 0 with
  | none =>
    have hn := (find_slot_eq_none_iff _ _ _ _).1 hA j (Nat.zero_le _) (by omega)
    exact absurd hbound hn
  | some i =>
    obtain ⟨_, hi, hbi, hlow⟩ := (find_slot_eq_some_iff _ _ _ _ _).1 hA
    have hi16 : i < SCHEDULER_SIZE := by omega
    rw [cancel_found task s i hA]
    refine ⟨i, hi16, rfl, hbi, fun j hj => hlow j (Nat.zero_le _) hj, ?_, ?_, ?_⟩
    · exact Table.get_set_eq _ _ _ hi16
    · intro j _ hne
      exact Table.get_set_ne _ _ _ _ (Ne.symm hne)
    · have := Table.occupied_count_set s.scheduled_tasks i zero_entry hi16
      rw [hbi] at this
      have hz : zero_entry.order.execute = 0 := rfl
      simp only [hz, ne_eq, not_true_eq_false, if_false, htask, not_false_eq_true,
        if_true] at this
      show (s.scheduled_tasks.set i zero_entry).occupied_count + 1 = _
      omega

/-- A worked instance of C8: task 7 is bound in slots 0 and 1; cancelling it frees
slot 0 only. -/
theorem C8_cancel_removes_first_match_witness :
    (∃ j, j < SCHEDULER_SIZE ∧ twice_scheduled.scheduled_tasks.occupied j ∧
      twice_scheduled.scheduled_tasks.bound 7 j) ∧
    ∃ i, i < SCHEDULER_SIZE ∧ (cancel_schedule 7 twice_scheduled).1 = (i : Int) ∧
      (cancel_schedule 7 twice_scheduled).2.scheduled_tasks.occupied_count + 1
        = twice_scheduled.scheduled_tasks.occupied_count :=
  ⟨⟨0, by decide, by decide, by decide⟩,
   (C8_cancel_removes_first_match twice_scheduled 7
      ⟨0, by decide, by decide, by decide⟩).imp
      (fun _ h => ⟨h.1, h.2.1, h.2.2.2.2.2.2⟩)⟩

/-- Claim C9, evaluated on the code.  After `scheduler_init` and two registrations of
task 7 in `SCHEDULE_MODE_MULTI_SCHEDULE`, `cancel_schedule` returns 0 and slot 1 is still
bound to task 7: the loop returns at the first match, so not all scheduled instances
are removed. -/
theorem C9_cancel_leaves_other_instances :
    (cancel_schedule 7 twice_scheduled).1 = 0 ∧
    (cancel_schedule 7 twice_scheduled).2.scheduled_tasks.bound 7 1 ∧
    (cancel_schedule 7 twice_scheduled).2.scheduled_tasks.occupied 1 := by
  decide

/-- Claim C10 fails for the null task pointer: it is bound in no occupied slot of the
table left by `scheduler_init`, yet `cancel_schedule` returns slot 0, not `-1`. -/
theorem C10_null_pointer_counterexample :
    (∀ j, j < SCHEDULER_SIZE → (scheduler_init Machine.boot).scheduled_tasks.occupied j →
      ¬ (scheduler_init Machine.boot).scheduled_tasks.bound 0 j) ∧
    (cancel_schedule 0 (scheduler_init Machine.boot)).1 = 0 ∧
    (cancel_schedule 0 (scheduler_init Machine.boot)).1 ≠ -1 := by
  decide

/-- Claim C10, amended.  For a non-null task bound in no occupied slot,
`cancel_schedule` returns `-1` and leaves the machine, hence the whole table,
unchanged. -/
theorem C10_cancel_unregistered {σ : Type} (s : Machine σ) (task : Nat)
    (htask : task ≠ 0)
    (hun : ∀ j, j < SCHEDULER_SIZE → s.scheduled_tasks.occupied j →
      ¬ s.scheduled_tasks.bound task j) :
    (cancel_schedule task s).1 = -1 ∧
    (cancel_schedule task s).2.scheduled_tasks = s.scheduled_tasks ∧
    (cancel_schedule task s).2 = s := by
  have hA : find_slot s.scheduled_tasks task SCHEDULER_SIZE 0 = none := by
    rw [find_slot_eq_none_iff]
    intro j _ hj hb
    have hocc : s.scheduled_tasks.occupied j := by
      show (s.scheduled_tasks.get j).order.execute ≠ 0
      rw [hb]; exact htask
    exact hun j (by omega) hocc hb
  rw [cancel_missing task s hA]
  exact ⟨rfl, rfl, rfl⟩

/-- A worked instance of the amended C10: task 9 was never registered. -/
theorem C10_cancel_unregistered_witness :
    (9 : Nat) ≠ 0 ∧
    (∀ j, j < SCHEDULER_SIZE → twice_scheduled.scheduled_tasks.occupied j →
      ¬ twice_scheduled.scheduled_tasks.bound 9 j) ∧
    (cancel_schedule 9 twice_scheduled).1 = -1 ∧
    (cancel_schedule 9 twice_scheduled).2 = twice_scheduled :=
  ⟨by decide, by decide,
   (C10_cancel_unregistered twice_scheduled 9 (by decide) (by decide)).1,
   (C10_cancel_unregistered twice_scheduled 9 (by decide) (by decide)).2.2⟩

/-! ## One iteration of the dispatch loop -/

theorem note_wake_sys {σ : Type} (i : Nat) (p : Pass σ) : (note_wake i p).sys = p.sys := by
  unfold note_wake; dsimp only; split <;> rfl

theorem note_wake_now {σ : Type} (i : Nat) (p : Pass σ) : (note_wake i p).now = p.now := by
  unfold note_wake; dsimp only; split <;> rfl

theorem note_wake_invoked {σ : Type} (i : Nat) (p : Pass σ) :
    (note_wake i p).invoked = p.invoked := by
  unfold note_wake; dsimp only; split <;> rfl

theorem note_wake_value {σ : Type} (i : Nat) (p : Pass σ) :
    (note_wake i p).next_wake_sys_time
      = min (p.sys.scheduled_tasks.get i).next_execution_time p.next_wake_sys_time := by
  unfold note_wake; dsimp only
  split
  · rename_i h; rw [min_eq_left (le_of_lt h)]
  · rename_i h; rw [min_eq_right (not_lt.1 h)]

theorem ticks_of_return (r : Nat) :
    MS_TO_SYSTICKS (toInt64 ((toUInt32 r : Nat) : Int)) = ((toUInt32 r : Nat) : Int) := by
  have h := toUInt32_lt r
  have h1 : toInt64 ((toUInt32 r : Nat) : Int) = ((toUInt32 r : Nat) : Int) :=
    toInt64_of_range _ (by omega) (by omega)
  rw [h1]
  exact MS_TO_SYSTICKS_of_range _ (by omega) (by omega)

theorem now_of_clock (c : Nat) (h : TimeInRange (c : Int)) :
    toInt64 (toUInt64 (c : Int)) = (c : Int) := by
  unfold TimeInRange INT64_MAX at h
  unfold toInt64 toUInt64
  omega

theorem process_slot_empty {σ : Type} (clock : Nat → Nat) (exec : TaskEnv σ) (fuel i : Nat)
    (p : Pass σ) (h : (p.sys.scheduled_tasks.get i).order.execute = 0) :
    process_slot clock exec fuel i p = some p := by
  unfold process_slot; dsimp only; rw [if_pos h]

theorem process_slot_not_due {σ : Type} (clock : Nat → Nat) (exec : TaskEnv σ)
    (fuel i : Nat) (p : Pass σ) (h : (p.sys.scheduled_tasks.get i).order.execute ≠ 0)
    (hd : ¬ (p.sys.scheduled_tasks.get i).next_execution_time ≤ p.now) :
    process_slot clock exec fuel i p = some (note_wake i p) := by
  unfold process_slot; dsimp only; rw [if_neg h, if_neg hd]

theorem process_slot_again {σ : Type} (clock : Nat → Nat) (exec : TaskEnv σ)
    (fuel i : Nat) (p : Pass σ) (hframe : TasksKeepTable exec) (hdue : slot_due i p)
    (hnz : slot_return exec i p ≠ 0)
    (hclk : TimeInRange (slot_resample clock exec i p : Int)) :
    process_slot clock exec fuel i p = some (note_wake i
      { now := (slot_resample clock exec i p : Int),
        next_wake_sys_time := p.next_wake_sys_time,
        invoked := p.invoked ++ [i],
        sys := { (systime_get clock (slot_call exec i p).2).2 with
          scheduled_tasks := p.sys.scheduled_tasks.set i
            { p.sys.scheduled_tasks.get i with
              next_execution_time :=
                (slot_return exec i p : Int) + (slot_resample clock exec i p : Int) } } }) := by
  obtain ⟨hocc, hd⟩ := hdue
  have hocc2 : (p.sys.scheduled_tasks.get i).order.execute ≠ 0 := hocc
  have hnow := now_of_clock _ hclk
  have hlt := toUInt32_lt (slot_call exec i p).1
  have hsum : toInt64 ((slot_return exec i p : Int) + (slot_resample clock exec i p : Int))
      = (slot_return exec i p : Int) + (slot_resample clock exec i p : Int) := by
    apply toInt64_of_range
    · unfold TimeInRange at hclk; omega
    · unfold TimeInRange INT64_MAX at hclk
      unfold slot_return
      omega
  have hnz2 : ¬ ((slot_return exec i p : Nat) : Int) = 0 := by
    intro h; apply hnz; exact_mod_cast h
  have hft := hframe (p.sys.scheduled_tasks.get i).order.execute
    (p.sys.scheduled_tasks.get i).order.context p.sys
  unfold process_slot
  dsimp only
  rw [if_neg hocc2, if_pos hd, ticks_of_return]
  unfold slot_return slot_resample slot_call at *
  unfold systime_get at *
  dsimp only at *
  rw [if_neg hnz2, hnow, hsum, hft]

theorem process_slot_free {σ : Type} (clock : Nat → Nat) (exec : TaskEnv σ)
    (fuel i : Nat) (p : Pass σ) (hframe : TasksKeepTable exec) (hdue : slot_due i p)
    (hz : slot_return exec i p = 0)
    (hmode : (p.sys.scheduled_tasks.get i).order.mode ≠ SCHEDULE_MODE_FIXED_RATE)
    (hclk : TimeInRange (slot_resample clock exec i p : Int)) :
    process_slot clock exec fuel i p = some
      { now := (slot_resample clock exec i p : Int),
        next_wake_sys_time := p.next_wake_sys_time,
        invoked := p.invoked ++ [i],
        sys := { (systime_get clock (slot_call exec i p).2).2 with
          scheduled_tasks := p.sys.scheduled_tasks.set i zero_entry } } := by
  obtain ⟨hocc, hd⟩ := hdue
  have hocc2 : (p.sys.scheduled_tasks.get i).order.execute ≠ 0 := hocc
  have hnow := now_of_clock _ hclk
  have hz2 : ((slot_return exec i p : Nat) : Int) = 0 := by rw [hz]; rfl
  have hft := hframe (p.sys.scheduled_tasks.get i).order.execute
    (p.sys.scheduled_tasks.get i).order.context p.sys
  unfold process_slot
  dsimp only
  rw [if_neg hocc2, if_pos hd, ticks_of_return]
  unfold slot_return slot_resample slot_call at *
  unfold systime_get free_task at *
  dsimp only at *
  rw [if_pos hz2, hnow, hft, if_neg hmode]

theorem process_slot_fixed {σ : Type} (clock : Nat → Nat) (exec : TaskEnv σ)
    (fuel i : Nat) (p : Pass σ) (hframe : TasksKeepTable exec) (hdue : slot_due i p)
    (hz : slot_return exec i p = 0)
    (hmode : (p.sys.scheduled_tasks.get i).order.mode = SCHEDULE_MODE_FIXED_RATE)
    (hrate : (p.sys.scheduled_tasks.get i).order.rate < 4294967296)
    (hclk : TimeInRange (slot_resample clock exec i p : Int)) (next : Int)
    (hcatch : catch_up fuel
      (toInt64 ((p.sys.scheduled_tasks.get i).current_execution_beginning
        + ((p.sys.scheduled_tasks.get i).order.rate : Int)))
      ((p.sys.scheduled_tasks.get i).order.rate : Int)
      (slot_resample clock exec i p : Int) = some next) :
    process_slot clock exec fuel i p = some (note_wake i
      { now := (slot_resample clock exec i p : Int),
        next_wake_sys_time := p.next_wake_sys_time,
        invoked := p.invoked ++ [i],
        sys := { (systime_get clock (slot_call exec i p).2).2 with
          scheduled_tasks := p.sys.scheduled_tasks.set i
            { p.sys.scheduled_tasks.get i with
              next_execution_time := next, current_execution_beginning := next } } }) := by
  obtain ⟨hocc, hd⟩ := hdue
  have hocc2 : (p.sys.scheduled_tasks.get i).order.execute ≠ 0 := hocc
  have hnow := now_of_clock _ hclk
  have hz2 : ((slot_return exec i p : Nat) : Int) = 0 := by rw [hz]; rfl
  have hft := hframe (p.sys.scheduled_tasks.get i).order.execute
    (p.sys.scheduled_tasks.get i).order.context p.sys
  have hms : MS_TO_SYSTICKS ((p.sys.scheduled_tasks.get i).order.rate : Int)
      = ((p.sys.scheduled_tasks.get i).order.rate : Int) :=
    MS_TO_SYSTICKS_of_range _ (by omega) (by omega)
  unfold process_slot
  dsimp only
  rw [if_neg hocc2, if_pos hd, ticks_of_return]
  unfold slot_return slot_resample slot_call at *
  unfold systime_get at *
  dsimp only at *
  rw [if_pos hz2, hnow, hft, if_pos hmode, hms, hcatch]

/-! ## The catch-up loop -/

theorem catch_up_spec (fuel : Nat) (next rate now : Int) (hrate : 0 < rate)
    (hnow : now + rate ≤ 9223372036854775807) (hlo : -9223372036854775808 ≤ next)
    (hfuel : (now - next + 1).toNat < fuel) :
    ∃ m : Nat, catch_up fuel next rate now = some (next + m * rate) ∧
      now < next + m * rate ∧ ∀ m' : Nat, m' < m → next + m' * rate ≤ now := by
  induction fuel generalizing next with
  | zero => omega
  | succ fuel ih =>
    unfold catch_up
    by_cases hle : next ≤ now
    · rw [if_pos hle]
      have hstep : toInt64 (next + rate) = next + rate :=
        toInt64_of_range _ (by omega) (by omega)
      rw [hstep]
      obtain ⟨m, h1, h2, h3⟩ := ih (next + rate) (by omega) (by omega)
      refine ⟨m + 1, ?_, ?_, ?_⟩
      · rw [h1]; congr 1; push_cast; ring
      · have : next + ((m + 1 : Nat) : Int) * rate = next + rate + m * rate := by
          push_cast; ring
        rw [this]; exact h2
      · intro m' hm'
        cases m' with
        | zero => simpa using hle
        | succ m' =>
          have := h3 m' (by omega)
          have e : next + ((m' + 1 : Nat) : Int) * rate = next + rate + m' * rate := by
            push_cast; ring
          rw [e]; exact this
    · rw [if_neg hle]
      refine ⟨0, by simp, by simpa using hle, ?_⟩
      intro m' hm'; omega

/-! ## A dispatch step when the tasks keep the table -/

theorem catch_up_total (fuel : Nat) (ceb : Int) (rate n : Nat)
    (hfuel : 18446744073709551616 < fuel) (hpos : 0 < rate) (hrate : rate < 4294967296)
    (hn : TimeInRange (n : Int)) :
    ∃ m : Nat, catch_up fuel (toInt64 (ceb + (rate : Int))) (rate : Int) (n : Int)
        = some (toInt64 (ceb + (rate : Int)) + m * (rate : Int)) ∧
      (n : Int) < toInt64 (ceb + (rate : Int)) + m * (rate : Int) ∧
      ∀ m' : Nat, m' < m → toInt64 (ceb + (rate : Int)) + m' * (rate : Int) ≤ (n : Int) := by
  have hb := toInt64_bounds (ceb + (rate : Int))
  unfold TimeInRange INT64_MAX at hn
  apply catch_up_spec
  · exact_mod_cast hpos
  · omega
  · exact hb.1
  · omega

theorem process_slot_step {σ : Type} (clock : Nat → Nat) (exec : TaskEnv σ)
    (fuel j : Nat) (p : Pass σ) (hframe : TasksKeepTable exec)
    (hclock : ClockInRange clock) (hfuel : 18446744073709551616 < fuel)
    (hj : j < SCHEDULER_SIZE)
    (hrange : p.sys.scheduled_tasks.occupied j →
      (p.sys.scheduled_tasks.get j).order.rate < 4294967296 ∧
      TimeInRange (p.sys.scheduled_tasks.get j).current_execution_beginning ∧
      TimeInRange (p.sys.scheduled_tasks.get j).next_execution_time)
    (hpos : p.sys.scheduled_tasks.occupied j →
      (p.sys.scheduled_tasks.get j).order.mode = SCHEDULE_MODE_FIXED_RATE →
      0 < (p.sys.scheduled_tasks.get j).order.rate) :
    ∃ q, process_slot clock exec fuel j p = some q ∧
      (∀ i, i ≠ j → q.sys.scheduled_tasks.get i = p.sys.scheduled_tasks.get i) ∧
      (¬ q.sys.scheduled_tasks.occupied j → q.next_wake_sys_time = p.next_wake_sys_time) ∧
      (q.sys.scheduled_tasks.occupied j →
        q.next_wake_sys_time
          = min (q.sys.scheduled_tasks.get j).next_execution_time p.next_wake_sys_time ∧
        0 ≤ (q.sys.scheduled_tasks.get j).next_execution_time ∧
        (q.sys.scheduled_tasks.get j).next_execution_time < INT64_MAX) := by
  by_cases hocc : (p.sys.scheduled_tasks.get j).order.execute = 0
  · refine ⟨p, process_slot_empty clock exec fuel j p hocc, fun _ _ => rfl, fun _ => rfl, ?_⟩
    intro h; exact absurd hocc h
  have hocc2 : p.sys.scheduled_tasks.occupied j := hocc
  obtain ⟨hr, hceb, hnet⟩ := hrange hocc2
  by_cases hd : (p.sys.scheduled_tasks.get j).next_execution_time ≤ p.now
  swap
  · refine ⟨note_wake j p, process_slot_not_due clock exec fuel j p hocc hd, ?_, ?_, ?_⟩
    · intro i _; rw [note_wake_sys]
    · intro h; rw [note_wake_sys] at h; exact absurd hocc2 h
    · intro _
      rw [note_wake_value, note_wake_sys]
      unfold TimeInRange at hnet
      exact ⟨rfl, hnet.1, by omega⟩
  have hdue : slot_due j p := ⟨hocc2, hd⟩
  have hclk : TimeInRange (slot_resample clock exec j p : Int) := hclock _
  by_cases hz : slot_return exec j p = 0
  swap
  · refine ⟨_, process_slot_again clock exec fuel j p hframe hdue hz hclk, ?_, ?_, ?_⟩
    · intro i hi
      rw [note_wake_sys]
      exact Table.get_set_ne _ _ _ _ (Ne.symm hi)
    · intro h
      rw [note_wake_sys] at h
      apply absurd _ h
      show ((p.sys.scheduled_tasks.set j _).get j).order.execute ≠ 0
      rw [Table.get_set_eq _ _ _ hj]
      exact hocc
    · intro _
      rw [note_wake_value, note_wake_sys]
      dsimp only
      rw [Table.get_set_eq _ _ _ hj]
      dsimp only
      have hlt : slot_return exec j p < 4294967296 := toUInt32_lt _
      unfold TimeInRange at hclk
      refine ⟨rfl, by omega, by omega⟩
  by_cases hmode : (p.sys.scheduled_tasks.get j).order.mode = SCHEDULE_MODE_FIXED_RATE
  swap
  · refine ⟨_, process_slot_free clock exec fuel j p hframe hdue hz hmode hclk, ?_, ?_, ?_⟩
    · intro i hi
      exact Table.get_set_ne _ _ _ _ (Ne.symm hi)
    · intro _; rfl
    · intro h
      exfalso
      apply h
      show ((p.sys.scheduled_tasks.set j zero_entry).get j).order.execute = 0
      rw [Table.get_set_eq _ _ _ hj]
      rfl
  obtain ⟨m, hc, hgt, hmin⟩ := catch_up_total fuel
    (p.sys.scheduled_tasks.get j).current_execution_beginning
    (p.sys.scheduled_tasks.get j).order.rate (slot_resample clock exec j p)
    hfuel (hpos hocc2 hmode) hr hclk
  refine ⟨_, process_slot_fixed clock exec fuel j p hframe hdue hz hmode hr hclk _ hc,
    ?_, ?_, ?_⟩
  · intro i hi
    rw [note_wake_sys]
    exact Table.get_set_ne _ _ _ _ (Ne.symm hi)
  · intro h
    rw [note_wake_sys] at h
    apply absurd _ h
    show ((p.sys.scheduled_tasks.set j _).get j).order.execute ≠ 0
    rw [Table.get_set_eq _ _ _ hj]
    exact hocc
  · intro _
    rw [note_wake_value, note_wake_sys]
    dsimp only
    rw [Table.get_set_eq _ _ _ hj]
    dsimp only
    refine ⟨rfl, ?_, ?_⟩
    · unfold TimeInRange at hclk; omega
    · have h0 : toInt64 ((p.sys.scheduled_tasks.get j).current_execution_beginning
          + ((p.sys.scheduled_tasks.get j).order.rate : Int))
          = (p.sys.scheduled_tasks.get j).current_execution_beginning
            + ((p.sys.scheduled_tasks.get j).order.rate : Int) := by
        unfold TimeInRange INT64_MAX at hceb
        exact toInt64_of_range _ (by omega) (by omega)
      cases m with
      | zero =>
        unfold TimeInRange at hceb
        simp only [Nat.cast_zero, zero_mul, add_zero]
        rw [h0]; omega
      | succ m =>
        have := hmin m (by omega)
        have e : toInt64 ((p.sys.scheduled_tasks.get j).current_execution_beginning
              + ((p.sys.scheduled_tasks.get j).order.rate : Int))
              + ((m + 1 : Nat) : Int) * ((p.sys.scheduled_tasks.get j).order.rate : Int)
            = toInt64 ((p.sys.scheduled_tasks.get j).current_execution_beginning
              + ((p.sys.scheduled_tasks.get j).order.rate : Int))
              + (m : Int) * ((p.sys.scheduled_tasks.get j).order.rate : Int)
              + ((p.sys.scheduled_tasks.get j).order.rate : Int) := by
          push_cast; ring
        rw [e]
        unfold TimeInRange at hclk
        omega

theorem process_slot_invoked {σ : Type} (clock : Nat → Nat) (exec : TaskEnv σ)
    (fuel j : Nat) (p q : Pass σ) (h : process_slot clock exec fuel j p = some q) :
    q.invoked = p.invoked ∨ q.invoked = p.invoked ++ [j] := by
  unfold process_slot at h
  dsimp only at h
  split_ifs at h
  · rw [← Option.some.inj h]; exact Or.inl rfl
  · split at h
    · exact absurd h (by simp)
    · rw [← Option.some.inj h]; right; rw [note_wake_invoked]
  · rw [← Option.some.inj h]; right; rfl
  · rw [← Option.some.inj h]; right; rw [note_wake_invoked]
  · rw [← Option.some.inj h]; left; rw [note_wake_invoked]

theorem wake_invariant_step {σ : Type} (j : Nat) (p q : Pass σ)
    (hother : ∀ i, i ≠ j → q.sys.scheduled_tasks.get i = p.sys.scheduled_tasks.get i)
    (hfree : ¬ q.sys.scheduled_tasks.occupied j →
      q.next_wake_sys_time = p.next_wake_sys_time)
    (hkept : q.sys.scheduled_tasks.occupied j →
      q.next_wake_sys_time
        = min (q.sys.scheduled_tasks.get j).next_execution_time p.next_wake_sys_time ∧
      0 ≤ (q.sys.scheduled_tasks.get j).next_execution_time ∧
      (q.sys.scheduled_tasks.get j).next_execution_time < INT64_MAX)
    (hinv : WakeInvariant j p) : WakeInvariant (j + 1) q := by
  obtain ⟨hlow, hwit⟩ := hinv
  have hle : q.next_wake_sys_time ≤ p.next_wake_sys_time := by
    by_cases ho : q.sys.scheduled_tasks.occupied j
    · rw [(hkept ho).1]; exact min_le_right _ _
    · rw [hfree ho]
  constructor
  · intro i hi hocc
    by_cases hij : i = j
    · subst hij
      obtain ⟨h1, h2, h3⟩ := hkept hocc
      exact ⟨by rw [h1]; exact min_le_left _ _, h2, h3⟩
    · have hg := hother i hij
      have hocc2 : p.sys.scheduled_tasks.occupied i := by
        unfold Table.occupied at hocc ⊢; rw [← hg]; exact hocc
      obtain ⟨h1, h2, h3⟩ := hlow i (by omega) hocc2
      rw [hg]
      exact ⟨le_trans hle h1, h2, h3⟩
  · have hold : p.next_wake_sys_time = INT64_MAX ∨
        ∃ i, i < j + 1 ∧ q.sys.scheduled_tasks.occupied i ∧
          (q.sys.scheduled_tasks.get i).next_execution_time = p.next_wake_sys_time := by
      rcases hwit with h | ⟨i, hi, hocc, hv⟩
      · exact Or.inl h
      · right
        have hg := hother i (by omega)
        refine ⟨i, by omega, ?_, by rw [hg]; exact hv⟩
        unfold Table.occupied at hocc ⊢; rw [hg]; exact hocc
    by_cases ho : q.sys.scheduled_tasks.occupied j
    · obtain ⟨h1, _, _⟩ := hkept ho
      rcases le_total (q.sys.scheduled_tasks.get j).next_execution_time
          p.next_wake_sys_time with hc | hc
      · right
        exact ⟨j, by omega, ho, by rw [h1, min_eq_left hc]⟩
      · rw [h1, min_eq_right hc]; exact hold
    · rw [hfree ho]; exact hold

theorem core_loop_add {σ : Type} (clock : Nat → Nat) (exec : TaskEnv σ) (fuel : Nat)
    (a b j : Nat) (p : Pass σ) :
    core_loop clock exec fuel (a + b) j p =
      match core_loop clock exec fuel a j p with
      | none => none
      | some q => core_loop clock exec fuel b (j + a) q := by
  induction a generalizing j p with
  | zero => simp only [Nat.zero_add, core_loop, Nat.add_zero]
  | succ a ih =>
    have e : a + 1 + b = (a + b) + 1 := by omega
    rw [e]
    simp only [core_loop]
    cases process_slot clock exec fuel j p with
    | none => rfl
    | some q =>
      simp only
      rw [ih (j + 1) q]
      have e2 : j + 1 + a = j + (a + 1) := by omega
      rw [e2]

theorem core_loop_invoked {σ : Type} (clock : Nat → Nat) (exec : TaskEnv σ) (fuel : Nat)
    (k j : Nat) (p q : Pass σ) (h : core_loop clock exec fuel k j p = some q) :
    ∃ l, q.invoked = p.invoked ++ l ∧ ∀ x, x ∈ l → j ≤ x ∧ x < j + k := by
  induction k generalizing j p with
  | zero =>
    simp only [core_loop] at h
    cases h
    exact ⟨[], by simp, by simp⟩
  | succ k ih =>
    simp only [core_loop] at h
    cases hs : process_slot clock exec fuel j p with
    | none => rw [hs] at h; cases h
    | some q1 =>
      rw [hs] at h
      simp only at h
      obtain ⟨l, hl, hx⟩ := ih (j + 1) q1 h
      rcases process_slot_invoked clock exec fuel j p q1 hs with h1 | h1
      · refine ⟨l, by rw [hl, h1], ?_⟩
        intro x hxl
        have := hx x hxl
        omega
      · refine ⟨j :: l, by rw [hl, h1]; simp, ?_⟩
        intro x hxl
        rcases List.mem_cons.1 hxl with hxj | hxl
        · omega
        · have := hx x hxl
          omega

theorem core_loop_run {σ : Type} (clock : Nat → Nat) (exec : TaskEnv σ) (fuel : Nat)
    (hframe : TasksKeepTable exec) (hclock : ClockInRange clock)
    (hfuel : 18446744073709551616 < fuel) (k j : Nat) (p : Pass σ)
    (hk : j + k ≤ SCHEDULER_SIZE)
    (hrange : ∀ i, j ≤ i → i < j + k → p.sys.scheduled_tasks.occupied i →
      (p.sys.scheduled_tasks.get i).order.rate < 4294967296 ∧
      TimeInRange (p.sys.scheduled_tasks.get i).current_execution_beginning ∧
      TimeInRange (p.sys.scheduled_tasks.get i).next_execution_time)
    (hpos : ∀ i, j ≤ i → i < j + k → p.sys.scheduled_tasks.occupied i →
      (p.sys.scheduled_tasks.get i).order.mode = SCHEDULE_MODE_FIXED_RATE →
      0 < (p.sys.scheduled_tasks.get i).order.rate) :
    ∃ q, core_loop clock exec fuel k j p = some q ∧
      (∀ i, i < j ∨ j + k ≤ i →
        q.sys.scheduled_tasks.get i = p.sys.scheduled_tasks.get i) ∧
      (WakeInvariant j p → WakeInvariant (j + k) q) := by
  induction k generalizing j p with
  | zero =>
    exact ⟨p, rfl, fun _ _ => rfl, fun h => h⟩
  | succ k ih =>
    obtain ⟨q1, hs, hother, hfree, hkept⟩ := process_slot_step clock exec fuel j p hframe
      hclock hfuel (by omega) (hrange j (le_refl _) (by omega))
      (hpos j (le_refl _) (by omega))
    have hocc : ∀ i, i ≠ j → (q1.sys.scheduled_tasks.occupied i ↔
        p.sys.scheduled_tasks.occupied i) := by
      intro i hi
      unfold Table.occupied
      rw [hother i hi]
    obtain ⟨q, hq, hq_other, hq_inv⟩ := ih (j + 1) q1 (by omega)
      (fun i h1 h2 ho => by
        have hne : i ≠ j := by omega
        rw [hother i hne]
        exact hrange i (by omega) (by omega) ((hocc i hne).1 ho))
      (fun i h1 h2 ho => by
        have hne : i ≠ j := by omega
        rw [hother i hne]
        exact hpos i (by omega) (by omega) ((hocc i hne).1 ho))
    refine ⟨q, ?_, ?_, ?_⟩
    · simp only [core_loop, hs]
      exact hq
    · intro i hi
      rw [hq_other i (by omega), hother i (by omega)]
    · intro hinv
      have := hq_inv (wake_invariant_step j p q1 hother hfree hkept hinv)
      have e : j + 1 + k = j + (k + 1) := by omega
      rw [e] at this
      exact this

/-! ## The value returned by a dispatch pass -/

theorem pass_start_table {σ : Type} (clock : Nat → Nat) (s : Machine σ) :
    (pass_start clock s).sys.scheduled_tasks = s.scheduled_tasks := rfl

theorem wake_invariant_start {σ : Type} (clock : Nat → Nat) (s : Machine σ) :
    WakeInvariant 0 (pass_start clock s) :=
  ⟨fun i hi => absurd hi (Nat.not_lt_zero i), Or.inl rfl⟩

/-- Claim C1, amended.  When no task invoked during the pass changes the slot table,
every fixed-rate period is positive and the timer and the stored timestamps lie in the
supported range, `scheduler_core_process` returns (with enough fuel for its catch-up
loops), and the value returned is the least `next_execution_time` of the slots occupied
after the pass, and is `-1` exactly when no slot is occupied after the pass. -/
theorem C1_returns_least_wake_time {σ : Type} (clock : Nat → Nat) (exec : TaskEnv σ)
    (fuel : Nat) (s : Machine σ) (hframe : TasksKeepTable exec)
    (hclock : ClockInRange clock) (htable : TableInRange s.scheduled_tasks)
    (hper : PeriodsPositive s.scheduled_tasks) (hfuel : 18446744073709551616 < fuel) :
    ∃ r tr s', scheduler_core_process clock exec fuel s = some (r, tr, s') ∧
      ((∃ i, i < SCHEDULER_SIZE ∧ s'.scheduled_tasks.occupied i) →
        s'.scheduled_tasks.least_wake r) ∧
      (r = -1 ↔ ∀ i, i < SCHEDULER_SIZE → ¬ s'.scheduled_tasks.occupied i) := by
  obtain ⟨q, hq, _, hinv⟩ := core_loop_run clock exec fuel hframe hclock hfuel
    SCHEDULER_SIZE 0 (pass_start clock s) (by omega)
    (fun i _ hi ho => htable i (by omega) ho)
    (fun i _ hi ho => hper i (by omega) ho)
  obtain ⟨hlow, hwit⟩ := hinv (wake_invariant_start clock s)
  rw [Nat.zero_add] at hlow hwit
  have hres : scheduler_core_process clock exec fuel s =
      some (if q.next_wake_sys_time = INT64_MAX then -1 else q.next_wake_sys_time,
        q.invoked, q.sys) := by
    simp only [scheduler_core_process, hq]
  refine ⟨_, q.invoked, q.sys, hres, ?_, ?_⟩
  · rintro ⟨i, hi, hocc⟩
    obtain ⟨h1, _, h3⟩ := hlow i hi hocc
    have hne : q.next_wake_sys_time ≠ INT64_MAX := by
      intro h; rw [h] at h1; omega
    rw [if_neg hne]
    rcases hwit with h | ⟨i2, hi2, hocc2, hv⟩
    · exact absurd h hne
    · exact ⟨⟨i2, hi2, hocc2, hv⟩, fun i3 hi3 hocc3 => (hlow i3 hi3 hocc3).1⟩
  · constructor
    · intro hr i hi hocc
      obtain ⟨h1, _, h3⟩ := hlow i hi hocc
      have hne : q.next_wake_sys_time ≠ INT64_MAX := by
        intro h; rw [h] at h1; omega
      rw [if_neg hne] at hr
      rcases hwit with h | ⟨i2, hi2, hocc2, hv⟩
      · exact absurd h hne
      · have := (hlow i2 hi2 hocc2).2.1
        omega
    · intro hnone
      rcases hwit with h | ⟨i2, hi2, hocc2, _⟩
      · rw [if_pos h]
      · exact absurd hocc2 (hnone i2 hi2)

/-! ## The fate of one slot in a pass -/

theorem core_process_of_loop {σ : Type} (clock : Nat → Nat) (exec : TaskEnv σ)
    (fuel : Nat) (s : Machine σ) (q : Pass σ)
    (h : core_loop clock exec fuel SCHEDULER_SIZE 0 (pass_start clock s) = some q) :
    scheduler_core_process clock exec fuel s =
      some (if q.next_wake_sys_time = INT64_MAX then -1 else q.next_wake_sys_time,
        q.invoked, q.sys) := by
  simp only [scheduler_core_process, h]

theorem reach_facts {σ : Type} (clock : Nat → Nat) (exec : TaskEnv σ) (fuel : Nat)
    (s : Machine σ) (hframe : TasksKeepTable exec) (hclock : ClockInRange clock)
    (htable : TableInRange s.scheduled_tasks) (hper : PeriodsPositive s.scheduled_tasks)
    (hfuel : 18446744073709551616 < fuel) (i : Nat) (p : Pass σ)
    (hi : i ≤ SCHEDULER_SIZE)
    (hreach : core_loop clock exec fuel i 0 (pass_start clock s) = some p) :
    (∀ j, i ≤ j → p.sys.scheduled_tasks.get j = s.scheduled_tasks.get j) ∧
    (∀ x, x ∈ p.invoked → x < i) := by
  obtain ⟨q, hq, hother, _⟩ := core_loop_run clock exec fuel hframe hclock hfuel
    i 0 (pass_start clock s) (by omega)
    (fun j _ hj ho => htable j (by omega) ho)
    (fun j _ hj ho => hper j (by omega) ho)
  rw [hreach] at hq
  have hpq : p = q := Option.some.inj hq
  subst hpq
  constructor
  · intro j hj
    rw [hother j (Or.inr (by omega)), pass_start_table]
  · obtain ⟨l, hl, hx⟩ := core_loop_invoked clock exec fuel i 0 _ p hreach
    intro x hxp
    rw [hl] at hxp
    have : x ∈ l := by simpa [pass_start] using hxp
    have := hx x this
    omega

theorem finish_pass {σ : Type} (clock : Nat → Nat) (exec : TaskEnv σ) (fuel : Nat)
    (s : Machine σ) (hframe : TasksKeepTable exec) (hclock : ClockInRange clock)
    (htable : TableInRange s.scheduled_tasks) (hper : PeriodsPositive s.scheduled_tasks)
    (hfuel : 18446744073709551616 < fuel) (i : Nat) (p q1 : Pass σ)
    (hi : i < SCHEDULER_SIZE)
    (hreach : core_loop clock exec fuel i 0 (pass_start clock s) = some p)
    (hstep : process_slot clock exec fuel i p = some q1)
    (hother : ∀ j, j ≠ i → q1.sys.scheduled_tasks.get j = p.sys.scheduled_tasks.get j) :
    ∃ r tr s', scheduler_core_process clock exec fuel s = some (r, tr, s') ∧
      s'.scheduled_tasks.get i = q1.sys.scheduled_tasks.get i ∧
      (∀ j, j < i → s'.scheduled_tasks.get j = p.sys.scheduled_tasks.get j) ∧
      tr.count i = q1.invoked.count i := by
  obtain ⟨hsame, _⟩ := reach_facts clock exec fuel s hframe hclock htable hper hfuel i p
    (by omega) hreach
  have hocc : ∀ j, i < j → (q1.sys.scheduled_tasks.occupied j ↔
      s.scheduled_tasks.occupied j) := by
    intro j hj
    unfold Table.occupied
    rw [hother j (by omega), hsame j (by omega)]
  obtain ⟨q, hq, hq_other, _⟩ := core_loop_run clock exec fuel hframe hclock hfuel
    (SCHEDULER_SIZE - (i + 1)) (i + 1) q1 (by omega)
    (fun j h1 h2 ho => by
      rw [hother j (by omega), hsame j (by omega)]
      exact htable j (by omega) ((hocc j (by omega)).1 ho))
    (fun j h1 h2 ho => by
      rw [hother j (by omega), hsame j (by omega)]
      exact hper j (by omega) ((hocc j (by omega)).1 ho))
  have hsplit : SCHEDULER_SIZE = i + ((SCHEDULER_SIZE - (i + 1)) + 1) := by omega
  have hloop : core_loop clock exec fuel SCHEDULER_SIZE 0 (pass_start clock s) = some q := by
    rw [hsplit, core_loop_add, hreach]
    simp only [core_loop, Nat.zero_add, hstep]
    exact hq
  refine ⟨_, q.invoked, q.sys, core_process_of_loop clock exec fuel s q hloop, ?_, ?_, ?_⟩
  · exact hq_other i (Or.inl (by omega))
  · intro j hj
    rw [hq_other j (Or.inl (by omega)), hother j (by omega)]
  · obtain ⟨l, hl, hx⟩ := core_loop_invoked clock exec fuel _ _ q1 q hq
    rw [hl, List.count_append]
    have : l.count i = 0 := by
      apply List.count_eq_zero_of_not_mem
      intro hmem
      have := hx i hmem
      omega
    omega

/-! ## Facts about the example data -/

theorem idle_exec_keeps_table : TasksKeepTable idle_exec := fun _ _ _ => rfl

theorem busy_exec_keeps_table : TasksKeepTable busy_exec := fun _ _ _ => rfl

theorem demo_clock_in_range : ClockInRange demo_clock := by
  intro k
  unfold TimeInRange INT64_MAX demo_clock
  push_cast
  omega

theorem late_clock_in_range : ClockInRange late_clock := by
  intro k
  unfold TimeInRange INT64_MAX late_clock
  split <;> decide

/-- Claim C1 fails when a task registers a task during the pass.  Slot 0 is empty and
task 2, bound once in slot 1, is due; it does what `wait_ms(5)` expands to.  The new
binding lands in slot 0, behind the cursor: the pass returns `-1` although slot 0 is
occupied after the pass, with wake time 1008. -/
theorem C1_rearming_task_counterexample :
    ∃ tr s', scheduler_core_process demo_clock (calling_exec demo_clock) 100 gap_machine
        = some (-1, tr, s') ∧
      s'.scheduled_tasks.occupied 0 ∧
      (s'.scheduled_tasks.get 0).next_execution_time = 1008 :=
  ⟨_, _, rfl, by decide, by decide⟩

/-- A worked instance of the amended C1: task 7 bound in slots 0 and 1, both due, both
asking to be run again after 4 ticks. -/
theorem C1_returns_least_wake_time_witness :
    TasksKeepTable busy_exec ∧ ClockInRange demo_clock ∧
    TableInRange twice_scheduled.scheduled_tasks ∧
    PeriodsPositive twice_scheduled.scheduled_tasks ∧
    ∃ r tr s', scheduler_core_process demo_clock busy_exec 18446744073709551617
        twice_scheduled = some (r, tr, s') ∧
      ((∃ i, i < SCHEDULER_SIZE ∧ s'.scheduled_tasks.occupied i) →
        s'.scheduled_tasks.least_wake r) ∧
      (r = -1 ↔ ∀ i, i < SCHEDULER_SIZE → ¬ s'.scheduled_tasks.occupied i) :=
  ⟨busy_exec_keeps_table, demo_clock_in_range, by decide, by decide,
   C1_returns_least_wake_time demo_clock busy_exec 18446744073709551617 twice_scheduled
     busy_exec_keeps_table demo_clock_in_range (by decide) (by decide) (by decide)⟩

/-! ## A task that is not finished -/

/-- Claim C7 fails when the task rebinds its own slot.  Task 3, bound once in slot 0
with rate 0 and context 11, is due; it registers itself anew (rate 9, context 42) and
returns 4.  After the pass the order and `current_execution_beginning` of slot 0 are
those of the new registration, not those the slot had before the pass. -/
theorem C7_self_rebinding_task_counterexample :
    slot_due 0 (pass_start demo_clock single_machine) ∧
    slot_return (calling_exec demo_clock) 0 (pass_start demo_clock single_machine) = 4 ∧
    ∃ r tr s', scheduler_core_process demo_clock (calling_exec demo_clock) 100
        single_machine = some (r, tr, s') ∧
      (s'.scheduled_tasks.get 0).order ≠ (single_machine.scheduled_tasks.get 0).order ∧
      (s'.scheduled_tasks.get 0).current_execution_beginning
        ≠ (single_machine.scheduled_tasks.get 0).current_execution_beginning :=
  ⟨by decide, by decide, _, _, _, rfl, by decide, by decide⟩

/-- Claim C7, amended.  When no task invoked during the pass changes the slot table,
every fixed-rate period is positive and the timer and the stored timestamps lie in the
supported range: if the scan reaches slot `i` in state `p`, the slot is due, and its task
returns a nonzero `d`, then the pass returns, and after it slot `i` is still bound with
its order and `current_execution_beginning` unchanged and with
`next_execution_time = n + d`, where `n` is the clock value read after the task
returned. -/
theorem C7_unfinished_task_runs_again {σ : Type} (clock : Nat → Nat) (exec : TaskEnv σ)
    (fuel : Nat) (s : Machine σ) (i : Nat) (p : Pass σ)
    (hframe : TasksKeepTable exec) (hclock : ClockInRange clock)
    (htable : TableInRange s.scheduled_tasks) (hper : PeriodsPositive s.scheduled_tasks)
    (hfuel : 18446744073709551616 < fuel) (hi : i < SCHEDULER_SIZE)
    (hreach : core_loop clock exec fuel i 0 (pass_start clock s) = some p)
    (hdue : slot_due i p) (hd : slot_return exec i p ≠ 0) :
    ∃ r tr s', scheduler_core_process clock exec fuel s = some (r, tr, s') ∧
      s'.scheduled_tasks.occupied i ∧
      (s'.scheduled_tasks.get i).order = (s.scheduled_tasks.get i).order ∧
      (s'.scheduled_tasks.get i).current_execution_beginning
        = (s.scheduled_tasks.get i).current_execution_beginning ∧
      (s'.scheduled_tasks.get i).next_execution_time
        = (slot_resample clock exec i p : Int) + (slot_return exec i p : Int) := by
  obtain ⟨hsame, _⟩ := reach_facts clock exec fuel s hframe hclock htable hper hfuel i p
    (by omega) hreach
  have hstep := process_slot_again clock exec fuel i p hframe hdue hd (hclock _)
  obtain ⟨r, tr, s', hres, hslot, _, _⟩ := finish_pass clock exec fuel s hframe hclock
    htable hper hfuel i p _ hi hreach hstep
    (fun j hj => by rw [note_wake_sys]; exact Table.get_set_ne _ _ _ _ (Ne.symm hj))
  refine ⟨r, tr, s', hres, ?_⟩
  have hocc : (p.sys.scheduled_tasks.get i).order.execute ≠ 0 := hdue.1
  have hval : s'.scheduled_tasks.get i =
      { p.sys.scheduled_tasks.get i with
        next_execution_time :=
          (slot_return exec i p : Int) + (slot_resample clock exec i p : Int) } := by
    rw [hslot, note_wake_sys]
    exact Table.get_set_eq _ _ _ hi
  unfold Table.occupied
  rw [hval, ← hsame i (le_refl _)]
  exact ⟨hocc, rfl, rfl, add_comm _ _⟩

/-- A worked instance of the amended C7: task 3 in slot 0 is due at the start of the
pass and asks to be run again after 4 ticks; the clock reads 1002 when it returns. -/
theorem C7_unfinished_task_runs_again_witness :
    TasksKeepTable busy_exec ∧ ClockInRange demo_clock ∧
    TableInRange single_machine.scheduled_tasks ∧
    PeriodsPositive single_machine.scheduled_tasks ∧
    slot_due 0 (pass_start demo_clock single_machine) ∧
    slot_return busy_exec 0 (pass_start demo_clock single_machine) ≠ 0 ∧
    ∃ r tr s', scheduler_core_process demo_clock busy_exec 18446744073709551617
        single_machine = some (r, tr, s') ∧
      (s'.scheduled_tasks.get 0).next_execution_time = 1006 :=
  ⟨busy_exec_keeps_table, demo_clock_in_range, by decide, by decide, by decide, by decide,
   (C7_unfinished_task_runs_again demo_clock busy_exec 18446744073709551617
      single_machine 0 (pass_start demo_clock single_machine)
      busy_exec_keeps_table demo_clock_in_range (by decide) (by decide) (by decide)
      (by decide) rfl (by decide) (by decide)).imp
    (fun _ h => h.imp (fun _ h => h.imp (fun _ h => ⟨h.1, h.2.2.2.2⟩)))⟩

/-! ## A finished task in a single-execution mode -/

theorem schedule_reuses_slot {σ : Type} (clock : Nat → Nat) (s : Machine σ) (i : Nat)
    (task : Nat) (mode : TaskExecutionModeEnum_t) (rate context : Nat)
    (hi : i < SCHEDULER_SIZE)
    (hfree : (s.scheduled_tasks.get i).order.execute = 0)
    (hlow : ∀ j, j < i → s.scheduled_tasks.occupied j)
    (hnot : mode = SCHEDULE_MODE_MULTI_SCHEDULE ∨
      ∀ j, j < SCHEDULER_SIZE → j ≠ i → ¬ s.scheduled_tasks.bound task j) :
    (schedule clock task mode rate context s).1 = (i : Int) := by
  have hB : find_slot s.scheduled_tasks 0 SCHEDULER_SIZE 0 = some i := by
    rw [find_slot_eq_some_iff]
    exact ⟨Nat.zero_le _, by omega, hfree, fun j _ hj => hlow j hj⟩
  rcases hnot with hm | hnb
  · rw [schedule_fresh clock task mode rate context s i (Or.inl hm) hB]
  · by_cases hm : mode = SCHEDULE_MODE_MULTI_SCHEDULE
    · rw [schedule_fresh clock task mode rate context s i (Or.inl hm) hB]
    · cases hA : find_slot s.scheduled_tasks task SCHEDULER_SIZE 0 with
      | none => rw [schedule_fresh clock task mode rate context s i (Or.inr hA) hB]
      | some j =>
        obtain ⟨_, hj, hbj, _⟩ := (find_slot_eq_some_iff _ _ _ _ _).1 hA
        have hji : j = i := by
          by_contra hne
          exact hnb j (by omega) hne hbj
        rw [schedule_rebind clock task mode rate context s j hm hA, hji]

/-- Claim C6 fails when a later task registers a task during the pass.  Task 5, bound
once in slot 0, is due and returns 0, so slot 0 is freed; task 2, due in slot 1, then
does what `wait_ms(5)` expands to, and its new binding takes slot 0.  After the pass
slot 0 is occupied. -/
theorem C6_slot_taken_again_counterexample :
    slot_due 0 (pass_start demo_clock pair_machine) ∧
    (pair_machine.scheduled_tasks.get 0).order.mode = SCHEDULE_MODE_ONCE ∧
    slot_return (calling_exec demo_clock) 0 (pass_start demo_clock pair_machine) = 0 ∧
    ∃ r tr s', scheduler_core_process demo_clock (calling_exec demo_clock) 100
        pair_machine = some (r, tr, s') ∧
      s'.scheduled_tasks.occupied 0 ∧ s'.scheduled_tasks.get 0 ≠ zero_entry :=
  ⟨by decide, by decide, by decide, _, _, _, rfl, by decide, by decide⟩

/-- Claim C6, amended.  When no task invoked during the pass changes the slot table,
every fixed-rate period is positive and the timer and the stored timestamps lie in the
supported range: if the scan reaches slot `i` in state `p`, the slot is due, its mode is
`SCHEDULE_MODE_ONCE` or `SCHEDULE_MODE_MULTI_SCHEDULE` and its task returns 0, then the
pass returns and leaves slot `i` all zero; and a later `schedule` of a task bound in no
other slot (or in `SCHEDULE_MODE_MULTI_SCHEDULE`) returns `i` whenever every slot below
`i` is occupied. -/
theorem C6_finished_task_frees_slot {σ : Type} (clock : Nat → Nat) (exec : TaskEnv σ)
    (fuel : Nat) (s : Machine σ) (i : Nat) (p : Pass σ)
    (hframe : TasksKeepTable exec) (hclock : ClockInRange clock)
    (htable : TableInRange s.scheduled_tasks) (hper : PeriodsPositive s.scheduled_tasks)
    (hfuel : 18446744073709551616 < fuel) (hi : i < SCHEDULER_SIZE)
    (hreach : core_loop clock exec fuel i 0 (pass_start clock s) = some p)
    (hdue : slot_due i p)
    (hmode : (s.scheduled_tasks.get i).order.mode = SCHEDULE_MODE_ONCE ∨
      (s.scheduled_tasks.get i).order.mode = SCHEDULE_MODE_MULTI_SCHEDULE)
    (hz : slot_return exec i p = 0) :
    ∃ r tr s', scheduler_core_process clock exec fuel s = some (r, tr, s') ∧
      s'.scheduled_tasks.get i = zero_entry ∧
      ∀ (task : Nat) (mode : TaskExecutionModeEnum_t) (rate context : Nat),
        (mode = SCHEDULE_MODE_MULTI_SCHEDULE ∨
          ∀ j, j < SCHEDULER_SIZE → j ≠ i → ¬ s'.scheduled_tasks.bound task j) →
        (∀ j, j < i → s'.scheduled_tasks.occupied j) →
        (schedule clock task mode rate context s').1 = (i : Int) := by
  obtain ⟨hsame, _⟩ := reach_facts clock exec fuel s hframe hclock htable hper hfuel i p
    (by omega) hreach
  have hm : (p.sys.scheduled_tasks.get i).order.mode ≠ SCHEDULE_MODE_FIXED_RATE := by
    rw [hsame i (le_refl _)]
    rcases hmode with h | h <;> rw [h] <;> decide
  have hstep := process_slot_free clock exec fuel i p hframe hdue hz hm (hclock _)
  obtain ⟨r, tr, s', hres, hslot, _, _⟩ := finish_pass clock exec fuel s hframe hclock
    htable hper hfuel i p _ hi hreach hstep
    (fun j hj => Table.get_set_ne _ _ _ _ (Ne.symm hj))
  have hzero : s'.scheduled_tasks.get i = zero_entry := by
    rw [hslot]
    exact Table.get_set_eq _ _ _ hi
  refine ⟨r, tr, s', hres, hzero, ?_⟩
  intro task mode rate context hnot hlow
  exact schedule_reuses_slot clock s' i task mode rate context hi (by rw [hzero]; rfl)
    hlow hnot

/-- A worked instance of the amended C6: task 3, bound once in slot 0, is due and
returns 0; slot 0 is zeroed, and task 8 registered afterwards gets slot 0. -/
theorem C6_finished_task_frees_slot_witness :
    TasksKeepTable idle_exec ∧ ClockInRange demo_clock ∧
    TableInRange single_machine.scheduled_tasks ∧
    PeriodsPositive single_machine.scheduled_tasks ∧
    slot_due 0 (pass_start demo_clock single_machine) ∧
    slot_return idle_exec 0 (pass_start demo_clock single_machine) = 0 ∧
    ∃ r tr s', scheduler_core_process demo_clock idle_exec 18446744073709551617
        single_machine = some (r, tr, s') ∧
      s'.scheduled_tasks.get 0 = zero_entry ∧
      (schedule demo_clock 8 SCHEDULE_MODE_MULTI_SCHEDULE 3 0 s').1 = 0 :=
  ⟨idle_exec_keeps_table, demo_clock_in_range, by decide, by decide, by decide, by decide,
   (C6_finished_task_frees_slot demo_clock idle_exec 18446744073709551617
      single_machine 0 (pass_start demo_clock single_machine)
      idle_exec_keeps_table demo_clock_in_range (by decide) (by decide) (by decide)
      (by decide) rfl (by decide) (Or.inl (by decide)) (by decide)).imp
    (fun _ h => h.imp (fun _ h => h.imp (fun _ h =>
      ⟨h.1, h.2.1,
       h.2.2 8 SCHEDULE_MODE_MULTI_SCHEDULE 3 0 (Or.inl rfl)
         (fun j hj => absurd hj (Nat.not_lt_zero j))⟩)))⟩

/-! ## A finished task at a fixed rate -/

theorem least_multiple_unique (A n : Int) (P k m : Nat)
    (hk1 : 1 ≤ k) (hk : n < A + (k : Int) * (P : Int))
    (hkmin : ∀ k' : Nat, 1 ≤ k' → n < A + (k' : Int) * (P : Int) → k ≤ k')
    (hgt : n < A + (P : Int) + (m : Int) * (P : Int))
    (hmin : ∀ m' : Nat, m' < m → A + (P : Int) + (m' : Int) * (P : Int) ≤ n) :
    A + (P : Int) + (m : Int) * (P : Int) = A + (k : Int) * (P : Int) := by
  have h1 : k ≤ m + 1 := by
    apply hkmin (m + 1) (by omega)
    have e : A + ((m + 1 : Nat) : Int) * (P : Int) = A + (P : Int) + (m : Int) * (P : Int) := by
      push_cast; ring
    rw [e]; exact hgt
  have h2 : m + 1 ≤ k := by
    by_contra hlt
    obtain ⟨k0, rfl⟩ : ∃ k0, k = k0 + 1 := ⟨k - 1, by omega⟩
    have := hmin k0 (by omega)
    have e : A + ((k0 + 1 : Nat) : Int) * (P : Int)
        = A + (P : Int) + (k0 : Int) * (P : Int) := by
      push_cast; ring
    rw [e] at hk
    omega
  have hkm : k = m + 1 := by omega
  rw [hkm]
  push_cast
  ring

/-- Claim C2 fails when the task rebinds its own slot.  Task 4 is registered at time 0
with the fixed period 100 (anchor 100) and dispatched at time 250; it registers itself
anew at the fixed rate 7 and returns 0.  After the pass the order of slot 0 is the new
one and `next_execution_time` is 264, not 300. -/
theorem C2_self_rebinding_task_counterexample :
    slot_due 0 (pass_start late_clock fixed_machine) ∧
    (fixed_machine.scheduled_tasks.get 0).order.mode = SCHEDULE_MODE_FIXED_RATE ∧
    (fixed_machine.scheduled_tasks.get 0).order.rate = 100 ∧
    (fixed_machine.scheduled_tasks.get 0).current_execution_beginning = 100 ∧
    slot_return (calling_exec late_clock) 0 (pass_start late_clock fixed_machine) = 0 ∧
    slot_resample late_clock (calling_exec late_clock) 0
      (pass_start late_clock fixed_machine) = 250 ∧
    ∃ r tr s', scheduler_core_process late_clock (calling_exec late_clock) 100
        fixed_machine = some (r, tr, s') ∧
      (s'.scheduled_tasks.get 0).order ≠ (fixed_machine.scheduled_tasks.get 0).order ∧
      (s'.scheduled_tasks.get 0).next_execution_time = 264 :=
  ⟨by decide, by decide, by decide, by decide, by decide, by decide,
   _, _, _, rfl, by decide, by decide⟩

/-- Claim C2, amended.  When no task invoked during the pass changes the slot table,
every fixed-rate period is positive and the timer and the stored timestamps lie in the
supported range: if the scan reaches slot `i` in state `p`, the slot is due, in
`SCHEDULE_MODE_FIXED_RATE` with period `P > 0` and anchor `A`, its task returns 0 and the
clock read after the task is `n`, then the pass returns, and after it the slot is still
bound with its order unchanged, its task was invoked exactly once in the pass, and both
timestamps equal `A + k * P` for the least `k ≥ 1` with `A + k * P > n`. -/
theorem C2_fixed_rate_skips_missed_periods {σ : Type} (clock : Nat → Nat)
    (exec : TaskEnv σ) (fuel : Nat) (s : Machine σ) (i : Nat) (p : Pass σ)
    (P k : Nat) (A : Int)
    (hframe : TasksKeepTable exec) (hclock : ClockInRange clock)
    (htable : TableInRange s.scheduled_tasks) (hper : PeriodsPositive s.scheduled_tasks)
    (hfuel : 18446744073709551616 < fuel) (hi : i < SCHEDULER_SIZE)
    (hreach : core_loop clock exec fuel i 0 (pass_start clock s) = some p)
    (hdue : slot_due i p)
    (hmode : (s.scheduled_tasks.get i).order.mode = SCHEDULE_MODE_FIXED_RATE)
    (hP : (s.scheduled_tasks.get i).order.rate = P) (hPpos : 0 < P)
    (hA : (s.scheduled_tasks.get i).current_execution_beginning = A)
    (hz : slot_return exec i p = 0)
    (hk1 : 1 ≤ k)
    (hk : (slot_resample clock exec i p : Int) < A + (k : Int) * (P : Int))
    (hkmin : ∀ k' : Nat, 1 ≤ k' →
      (slot_resample clock exec i p : Int) < A + (k' : Int) * (P : Int) → k ≤ k') :
    ∃ r tr s', scheduler_core_process clock exec fuel s = some (r, tr, s') ∧
      s'.scheduled_tasks.occupied i ∧
      (s'.scheduled_tasks.get i).order = (s.scheduled_tasks.get i).order ∧
      tr.count i = 1 ∧
      (s'.scheduled_tasks.get i).next_execution_time = A + (k : Int) * (P : Int) ∧
      (s'.scheduled_tasks.get i).current_execution_beginning
        = A + (k : Int) * (P : Int) := by
  obtain ⟨hsame, hbefore⟩ := reach_facts clock exec fuel s hframe hclock htable hper hfuel
    i p (by omega) hreach
  have hpi := hsame i (le_refl _)
  have hocc : p.sys.scheduled_tasks.occupied i := hdue.1
  have hocc_s : s.scheduled_tasks.occupied i := by
    unfold Table.occupied at hocc ⊢; rw [← hpi]; exact hocc
  obtain ⟨hr, hceb, _⟩ := htable i hi hocc_s
  rw [hP] at hr
  rw [hA] at hceb
  have hstart : toInt64 (A + (P : Int)) = A + (P : Int) := by
    unfold TimeInRange INT64_MAX at hceb
    exact toInt64_of_range _ (by omega) (by omega)
  obtain ⟨m, hc, hgt, hmin⟩ := catch_up_total fuel A P (slot_resample clock exec i p)
    hfuel hPpos hr (hclock _)
  rw [hstart] at hc hgt hmin
  have hval := least_multiple_unique A _ P k m hk1 hk hkmin hgt hmin
  rw [hval] at hc
  have hstep := process_slot_fixed clock exec fuel i p hframe hdue hz
    (by rw [hpi]; exact hmode) (by rw [hpi, hP]; exact hr) (hclock _)
    (A + (k : Int) * (P : Int)) (by rw [hpi, hP, hA, hstart]; exact hc)
  obtain ⟨r, tr, s', hres, hslot, _, hcount⟩ := finish_pass clock exec fuel s hframe hclock
    htable hper hfuel i p _ hi hreach hstep
    (fun j hj => by rw [note_wake_sys]; exact Table.get_set_ne _ _ _ _ (Ne.symm hj))
  refine ⟨r, tr, s', hres, ?_⟩
  have hentry : s'.scheduled_tasks.get i =
      { p.sys.scheduled_tasks.get i with
        next_execution_time := A + (k : Int) * (P : Int),
        current_execution_beginning := A + (k : Int) * (P : Int) } := by
    rw [hslot, note_wake_sys]
    exact Table.get_set_eq _ _ _ hi
  have hzero : p.invoked.count i = 0 := by
    apply List.count_eq_zero_of_not_mem
    intro hmem
    have := hbefore i hmem
    omega
  have hone : tr.count i = 1 := by
    rw [hcount, note_wake_invoked]
    simp only [List.count_append, hzero, List.count_singleton_self]
  unfold Table.occupied
  rw [hentry, ← hpi]
  exact ⟨hocc, rfl, hone, rfl, rfl⟩

/-- A worked instance of the amended C2, the example of the specification: period 100
registered at time 0 (anchor 100), dispatch at time 250; the anchor becomes 300. -/
theorem C2_fixed_rate_skips_missed_periods_witness :
    TasksKeepTable idle_exec ∧ ClockInRange late_clock ∧
    TableInRange fixed_machine.scheduled_tasks ∧
    PeriodsPositive fixed_machine.scheduled_tasks ∧
    slot_due 0 (pass_start late_clock fixed_machine) ∧
    slot_return idle_exec 0 (pass_start late_clock fixed_machine) = 0 ∧
    slot_resample late_clock idle_exec 0 (pass_start late_clock fixed_machine) = 250 ∧
    ∃ r tr s', scheduler_core_process late_clock idle_exec 18446744073709551617
        fixed_machine = some (r, tr, s') ∧
      tr.count 0 = 1 ∧
      (s'.scheduled_tasks.get 0).next_execution_time = 300 ∧
      (s'.scheduled_tasks.get 0).current_execution_beginning = 300 :=
  ⟨idle_exec_keeps_table, late_clock_in_range, by decide, by decide, by decide, by decide,
   by decide,
   (C2_fixed_rate_skips_missed_periods late_clock idle_exec 18446744073709551617
      fixed_machine 0 (pass_start late_clock fixed_machine) 100 2 100
      idle_exec_keeps_table late_clock_in_range (by decide) (by decide) (by decide)
      (by decide) rfl (by decide) (by decide) (by decide) (by decide) (by decide)
      (by decide) (by decide) (by decide)
      (fun k' h1 h2 => by
        have e : slot_resample late_clock idle_exec 0
            (pass_start late_clock fixed_machine) = 250 := by decide
        rw [e] at h2
        push_cast at h2
        omega)).imp
    (fun _ h => h.imp (fun _ h => h.imp (fun _ h =>
      ⟨h.1, h.2.2.2.1, h.2.2.2.2.1, h.2.2.2.2.2⟩)))⟩

/-! ## One iteration of the dispatch loop, whatever the task does -/

theorem return_cast_eq_zero {σ : Type} (exec : TaskEnv σ) (i : Nat) (p : Pass σ) :
    ((slot_return exec i p : Nat) : Int) = 0 ↔ slot_return exec i p = 0 := by
  constructor
  · intro h; exact_mod_cast h
  · intro h; rw [h]; rfl

theorem process_slot_due_eq {σ : Type} (clock : Nat → Nat) (exec : TaskEnv σ)
    (fuel i : Nat) (p : Pass σ) (hdue : slot_due i p) :
    process_slot clock exec fuel i p =
      if slot_return exec i p = 0 then
        if (slot_reread exec i p).order.mode = SCHEDULE_MODE_FIXED_RATE then
          match catch_up fuel
              (toInt64 ((slot_reread exec i p).current_execution_beginning
                + MS_TO_SYSTICKS (slot_reread exec i p).order.rate))
              (MS_TO_SYSTICKS (slot_reread exec i p).order.rate)
              (slot_now clock exec i p) with
          | none => none
          | some next =>
            some (note_wake i
              { now := slot_now clock exec i p,
                next_wake_sys_time := p.next_wake_sys_time,
                invoked := p.invoked ++ [i],
                sys := { slot_after clock exec i p with
                  scheduled_tasks := (slot_after clock exec i p).scheduled_tasks.set i
                    { slot_reread exec i p with
                      next_execution_time := next,
                      current_execution_beginning := next } } })
        else
          some { now := slot_now clock exec i p,
                 next_wake_sys_time := p.next_wake_sys_time,
                 invoked := p.invoked ++ [i],
                 sys := free_task i (slot_after clock exec i p) }
      else
        some (note_wake i
          { now := slot_now clock exec i p,
            next_wake_sys_time := p.next_wake_sys_time,
            invoked := p.invoked ++ [i],
            sys := { slot_after clock exec i p with
              scheduled_tasks := (slot_after clock exec i p).scheduled_tasks.set i
                { slot_reread exec i p with
                  next_execution_time :=
                    toInt64 ((slot_return exec i p : Int) + slot_now clock exec i p) } } }) := by
  obtain ⟨hocc, hd⟩ := hdue
  have hocc2 : (p.sys.scheduled_tasks.get i).order.execute ≠ 0 := hocc
  unfold process_slot
  dsimp only
  rw [if_neg hocc2, if_pos hd, ticks_of_return]
  by_cases hz : slot_return exec i p = 0
  · have hz2 : ((toUInt32 (exec (p.sys.scheduled_tasks.get i).order.execute
        (p.sys.scheduled_tasks.get i).order.context p.sys).1 : Nat) : Int) = 0 :=
      (return_cast_eq_zero exec i p).2 hz
    rw [if_pos hz2, if_pos hz]
    rfl
  · have hz2 : ¬ ((toUInt32 (exec (p.sys.scheduled_tasks.get i).order.execute
        (p.sys.scheduled_tasks.get i).order.context p.sys).1 : Nat) : Int) = 0 :=
      fun h => hz ((return_cast_eq_zero exec i p).1 h)
    rw [if_neg hz2, if_neg hz]
    rfl

theorem process_slot_idle_eq {σ : Type} (clock : Nat → Nat) (exec : TaskEnv σ)
    (fuel i : Nat) (p : Pass σ) (hnot : ¬ slot_due i p) :
    process_slot clock exec fuel i p = some p ∨
    process_slot clock exec fuel i p = some (note_wake i p) := by
  by_cases hocc : (p.sys.scheduled_tasks.get i).order.execute = 0
  · exact Or.inl (process_slot_empty clock exec fuel i p hocc)
  · right
    apply process_slot_not_due clock exec fuel i p hocc
    intro hd
    exact hnot ⟨hocc, hd⟩

/-- What an iteration that returns has done: nothing but the wake-time update when the
slot is not due; otherwise the call, a clock reading and one write to the slot. -/
theorem process_slot_facts {σ : Type} (clock : Nat → Nat) (exec : TaskEnv σ)
    (fuel i : Nat) (p q : Pass σ) (h : process_slot clock exec fuel i p = some q) :
    (¬ slot_due i p ∧ q.sys = p.sys ∧ q.now = p.now ∧ q.invoked = p.invoked) ∨
    (slot_due i p ∧ q.now = slot_now clock exec i p ∧ q.invoked = p.invoked ++ [i] ∧
      q.sys.mem = (slot_call exec i p).2.mem ∧
      q.sys.notify_calls = (slot_call exec i p).2.notify_calls ∧
      q.sys.clock_reads = (slot_call exec i p).2.clock_reads + 1 ∧
      ∃ e, q.sys.scheduled_tasks = (slot_call exec i p).2.scheduled_tasks.set i e ∧
        ((slot_return exec i p ≠ 0 ∧
            e = { slot_reread exec i p with
                  next_execution_time :=
                    toInt64 ((slot_return exec i p : Int) + slot_now clock exec i p) }) ∨
         (slot_return exec i p = 0 ∧
            (slot_reread exec i p).order.mode = SCHEDULE_MODE_FIXED_RATE ∧
            ∃ next, catch_up fuel
                (toInt64 ((slot_reread exec i p).current_execution_beginning
                  + MS_TO_SYSTICKS (slot_reread exec i p).order.rate))
                (MS_TO_SYSTICKS (slot_reread exec i p).order.rate)
                (slot_now clock exec i p) = some next ∧
              e = { slot_reread exec i p with
                    next_execution_time := next, current_execution_beginning := next }) ∨
         (slot_return exec i p = 0 ∧
            (slot_reread exec i p).order.mode ≠ SCHEDULE_MODE_FIXED_RATE ∧
            e = zero_entry))) := by
  by_cases hdue : slot_due i p
  swap
  · left
    rcases process_slot_idle_eq clock exec fuel i p hdue with h1 | h1
    · rw [h1] at h
      rw [← Option.some.inj h]
      exact ⟨hdue, rfl, rfl, rfl⟩
    · rw [h1] at h
      rw [← Option.some.inj h]
      exact ⟨hdue, note_wake_sys i p, note_wake_now i p, note_wake_invoked i p⟩
  · right
    rw [process_slot_due_eq clock exec fuel i p hdue] at h
    refine ⟨hdue, ?_⟩
    by_cases hz : slot_return exec i p = 0
    · rw [if_pos hz] at h
      by_cases hm : (slot_reread exec i p).order.mode = SCHEDULE_MODE_FIXED_RATE
      · rw [if_pos hm] at h
        cases hc : catch_up fuel
            (toInt64 ((slot_reread exec i p).current_execution_beginning
              + MS_TO_SYSTICKS (slot_reread exec i p).order.rate))
            (MS_TO_SYSTICKS (slot_reread exec i p).order.rate)
            (slot_now clock exec i p) with
        | none => rw [hc] at h; exact absurd h (by simp)
        | some next =>
          rw [hc] at h
          rw [← Option.some.inj h]
          refine ⟨note_wake_now _ _, note_wake_invoked _ _, ?_, ?_, ?_, ?_⟩
          · rw [note_wake_sys]; rfl
          · rw [note_wake_sys]; rfl
          · rw [note_wake_sys]; rfl
          · refine ⟨_, by rw [note_wake_sys]; rfl, Or.inr (Or.inl ⟨hz, hm, next, rfl, rfl⟩)⟩
      · rw [if_neg hm] at h
        rw [← Option.some.inj h]
        exact ⟨rfl, rfl, rfl, rfl, rfl, zero_entry, rfl, Or.inr (Or.inr ⟨hz, hm, rfl⟩)⟩
    · rw [if_neg hz] at h
      rw [← Option.some.inj h]
      refine ⟨note_wake_now _ _, note_wake_invoked _ _, ?_, ?_, ?_, ?_⟩
      · rw [note_wake_sys]; rfl
      · rw [note_wake_sys]; rfl
      · rw [note_wake_sys]; rfl
      · exact ⟨_, by rw [note_wake_sys]; rfl, Or.inl ⟨hz, rfl⟩⟩

theorem catch_up_some_gt (fuel : Nat) (next rate now v : Int)
    (h : catch_up fuel next rate now = some v) : now < v := by
  induction fuel generalizing next with
  | zero => simp [catch_up] at h
  | succ fuel ih =>
    unfold catch_up at h
    by_cases hle : next ≤ now
    · rw [if_pos hle] at h
      exact ih _ h
    · rw [if_neg hle] at h
      have : next = v := Option.some.inj h
      omega

/-! ## Induction along the dispatch loop -/

theorem core_loop_induct {σ : Type} (clock : Nat → Nat) (exec : TaskEnv σ) (fuel : Nat)
    (Inv : Nat → Pass σ → Prop) (k a : Nat) (p q : Pass σ)
    (h : core_loop clock exec fuel k a p = some q) (h0 : Inv a p)
    (hstep : ∀ j p1 q1, a ≤ j → j < a + k → Inv j p1 →
      process_slot clock exec fuel j p1 = some q1 → Inv (j + 1) q1) :
    Inv (a + k) q := by
  induction k generalizing a p with
  | zero =>
    simp only [core_loop] at h
    rw [← Option.some.inj h]
    exact h0
  | succ k ih =>
    simp only [core_loop] at h
    cases hs : process_slot clock exec fuel a p with
    | none => rw [hs] at h; exact absurd h (by simp)
    | some q1 =>
      rw [hs] at h
      simp only at h
      have h1 := hstep a p q1 (le_refl _) (by omega) h0 hs
      have := ih (a + 1) q1 h h1
        (fun j p2 q2 hj1 hj2 => hstep j p2 q2 (by omega) (by omega))
      have e : a + 1 + k = a + (k + 1) := by omega
      rw [e] at this
      exact this

theorem core_loop_total {σ : Type} (clock : Nat → Nat) (exec : TaskEnv σ) (fuel : Nat)
    (Inv : Nat → Pass σ → Prop) (k a : Nat) (p : Pass σ) (h0 : Inv a p)
    (hstep : ∀ j p1, a ≤ j → j < a + k → Inv j p1 →
      ∃ q1, process_slot clock exec fuel j p1 = some q1 ∧ Inv (j + 1) q1) :
    ∃ q, core_loop clock exec fuel k a p = some q ∧ Inv (a + k) q := by
  induction k generalizing a p with
  | zero => exact ⟨p, rfl, h0⟩
  | succ k ih =>
    obtain ⟨q1, hs, h1⟩ := hstep a p (le_refl _) (by omega) h0
    obtain ⟨q, hq, hinv⟩ := ih (a + 1) q1 h1
      (fun j p2 hj1 hj2 => hstep j p2 (by omega) (by omega))
    refine ⟨q, ?_, ?_⟩
    · simp only [core_loop, hs]
      exact hq
    · have e : a + 1 + k = a + (k + 1) := by omega
      rw [e] at hinv
      exact hinv

theorem core_loop_reach {σ : Type} (clock : Nat → Nat) (exec : TaskEnv σ) (fuel : Nat)
    (a b j : Nat) (p q : Pass σ) (h : core_loop clock exec fuel (a + b) j p = some q) :
    ∃ p1, core_loop clock exec fuel a j p = some p1 ∧
      core_loop clock exec fuel b (j + a) p1 = some q := by
  rw [core_loop_add] at h
  cases hp : core_loop clock exec fuel a j p with
  | none => rw [hp] at h; exact absurd h (by simp)
  | some p1 => rw [hp] at h; exact ⟨p1, rfl, h⟩

/-! ## A pass that finds nothing due -/

theorem early_pass {σ : Type} (clock : Nat → Nat) (exec : TaskEnv σ) (fuel : Nat)
    (s : Machine σ)
    (hnot : ∀ i, i < SCHEDULER_SIZE → s.scheduled_tasks.occupied i →
      (pass_start clock s).now < (s.scheduled_tasks.get i).next_execution_time)
    (hmax : ∀ i, i < SCHEDULER_SIZE → s.scheduled_tasks.occupied i →
      (s.scheduled_tasks.get i).next_execution_time < INT64_MAX) :
    ∃ r, scheduler_core_process clock exec fuel s
        = some (r, [], { s with clock_reads := s.clock_reads + 1 }) ∧
      ((∃ i, i < SCHEDULER_SIZE ∧ s.scheduled_tasks.occupied i) →
        s.scheduled_tasks.least_wake r) ∧
      ((∀ i, i < SCHEDULER_SIZE → ¬ s.scheduled_tasks.occupied i) → r = -1) := by
  obtain ⟨q, hq, hsys, hinvoked, hlow, hwit⟩ := core_loop_total clock exec fuel
    (fun j p => p.sys = (pass_start clock s).sys ∧ p.invoked = [] ∧
      (∀ i, i < j → s.scheduled_tasks.occupied i →
        p.next_wake_sys_time ≤ (s.scheduled_tasks.get i).next_execution_time) ∧
      (p.next_wake_sys_time = INT64_MAX ∨
        ∃ i, i < j ∧ s.scheduled_tasks.occupied i ∧
          (s.scheduled_tasks.get i).next_execution_time = p.next_wake_sys_time) ∧
      p.now = (pass_start clock s).now)
    SCHEDULER_SIZE 0 (pass_start clock s)
    ⟨rfl, rfl, fun i hi => absurd hi (Nat.not_lt_zero i), Or.inl rfl, rfl⟩
    (by
      intro j p hj1 hj2 ⟨hsys, hinv, hlow, hwit, hnow⟩
      have htab : p.sys.scheduled_tasks = s.scheduled_tasks := by rw [hsys]; rfl
      by_cases hocc : (p.sys.scheduled_tasks.get j).order.execute = 0
      · refine ⟨p, process_slot_empty clock exec fuel j p hocc, hsys, hinv, ?_, ?_, hnow⟩
        · intro i hi ho
          by_cases hij : i = j
          · rw [hij] at ho
            rw [htab] at hocc
            exact absurd hocc ho
          · exact hlow i (by omega) ho
        · rcases hwit with h | ⟨i, hi, ho, hv⟩
          · exact Or.inl h
          · exact Or.inr ⟨i, by omega, ho, hv⟩
      · have hocc_s : s.scheduled_tasks.occupied j := by
          rw [htab] at hocc; exact hocc
        have hlt := hnot j (by omega) hocc_s
        have hnd : ¬ (p.sys.scheduled_tasks.get j).next_execution_time ≤ p.now := by
          rw [htab, hnow]; omega
        refine ⟨note_wake j p, process_slot_not_due clock exec fuel j p hocc hnd,
          by rw [note_wake_sys]; exact hsys, by rw [note_wake_invoked]; exact hinv,
          ?_, ?_, by rw [note_wake_now]; exact hnow⟩
        · intro i hi ho
          rw [note_wake_value, htab]
          by_cases hij : i = j
          · rw [hij]; exact min_le_left _ _
          · exact le_trans (min_le_right _ _) (hlow i (by omega) ho)
        · rw [note_wake_value, htab]
          rcases le_total (s.scheduled_tasks.get j).next_execution_time
              p.next_wake_sys_time with hc | hc
          · right
            exact ⟨j, by omega, hocc_s, by rw [min_eq_left hc]⟩
          · rw [min_eq_right hc]
            rcases hwit with h | ⟨i, hi, ho, hv⟩
            · exact Or.inl h
            · exact Or.inr ⟨i, by omega, ho, hv⟩)
  rw [Nat.zero_add] at hlow hwit
  obtain ⟨hwit, _⟩ := hwit
  have hres := core_process_of_loop clock exec fuel s q hq
  rw [hsys, hinvoked] at hres
  refine ⟨if q.next_wake_sys_time = INT64_MAX then -1 else q.next_wake_sys_time,
    hres, ?_, ?_⟩
  · rintro ⟨i, hi, ho⟩
    have h1 := hlow i hi ho
    have h2 := hmax i hi ho
    have hne : q.next_wake_sys_time ≠ INT64_MAX := by
      intro h; rw [h] at h1; omega
    rw [if_neg hne]
    rcases hwit with h | ⟨i2, hi2, ho2, hv⟩
    · exact absurd h hne
    · exact ⟨⟨i2, hi2, ho2, hv⟩, fun i3 hi3 ho3 => hlow i3 hi3 ho3⟩
  · intro hnone
    rcases hwit with h | ⟨i2, hi2, ho2, _⟩
    · rw [if_pos h]
    · exact absurd ho2 (hnone i2 hi2)

theorem least_wake_unique (t : Table) (a b : Int) (ha : t.least_wake a)
    (hb : t.least_wake b) : a = b := by
  obtain ⟨⟨i, hi, hoi, hvi⟩, hla⟩ := ha
  obtain ⟨⟨j, hj, hoj, hvj⟩, hlb⟩ := hb
  have h1 := hla j hj hoj
  have h2 := hlb i hi hoi
  omega

/-- Claim C12.  When every occupied slot has `next_execution_time` greater than the clock
value `now` read at the start of the pass (and below the sentinel `INT64_MAX`),
`scheduler_core_process` returns for any fuel, invokes no task, leaves the machine as it
was but for the clock reading, and returns the least `next_execution_time` of the
occupied slots, or `-1` when there is none; a second call under the same condition
returns the same value and again changes nothing. -/
theorem C12_pass_before_time_is_idle {σ : Type} (clock : Nat → Nat) (exec : TaskEnv σ)
    (fuel : Nat) (s : Machine σ)
    (hnot : ∀ i, i < SCHEDULER_SIZE → s.scheduled_tasks.occupied i →
      (pass_start clock s).now < (s.scheduled_tasks.get i).next_execution_time)
    (hmax : ∀ i, i < SCHEDULER_SIZE → s.scheduled_tasks.occupied i →
      (s.scheduled_tasks.get i).next_execution_time < INT64_MAX) :
    ∃ r, scheduler_core_process clock exec fuel s
        = some (r, [], { s with clock_reads := s.clock_reads + 1 }) ∧
      ((∃ i, i < SCHEDULER_SIZE ∧ s.scheduled_tasks.occupied i) →
        s.scheduled_tasks.least_wake r) ∧
      ((∀ i, i < SCHEDULER_SIZE → ¬ s.scheduled_tasks.occupied i) → r = -1) ∧
      ((∀ i, i < SCHEDULER_SIZE → s.scheduled_tasks.occupied i →
          (pass_start clock { s with clock_reads := s.clock_reads + 1 }).now
            < (s.scheduled_tasks.get i).next_execution_time) →
        scheduler_core_process clock exec fuel { s with clock_reads := s.clock_reads + 1 }
          = some (r, [], { s with clock_reads := s.clock_reads + 1 + 1 })) := by
  obtain ⟨r, hres, hleast, hnone⟩ := early_pass clock exec fuel s hnot hmax
  refine ⟨r, hres, hleast, hnone, ?_⟩
  intro hagain
  obtain ⟨r2, hres2, hleast2, hnone2⟩ := early_pass clock exec fuel
    { s with clock_reads := s.clock_reads + 1 } hagain hmax
  have hr : r2 = r := by
    by_cases hex : ∃ i, i < SCHEDULER_SIZE ∧ s.scheduled_tasks.occupied i
    · exact least_wake_unique _ _ _ (hleast2 hex) (hleast hex)
    · have hno : ∀ i, i < SCHEDULER_SIZE → ¬ s.scheduled_tasks.occupied i :=
        fun i hi ho => hex ⟨i, hi, ho⟩
      rw [hnone hno, hnone2 hno]
  rw [hr] at hres2
  exact hres2

/-- A worked instance of C12: task 3 is not due before time 1050; passes at times 1001
and 1002 return 1050 and run nothing. -/
theorem C12_pass_before_time_is_idle_witness :
    (∀ i, i < SCHEDULER_SIZE → waiting_machine.scheduled_tasks.occupied i →
      (pass_start demo_clock waiting_machine).now
        < (waiting_machine.scheduled_tasks.get i).next_execution_time) ∧
    (∀ i, i < SCHEDULER_SIZE → waiting_machine.scheduled_tasks.occupied i →
      (waiting_machine.scheduled_tasks.get i).next_execution_time < INT64_MAX) ∧
    ∃ r, scheduler_core_process demo_clock idle_exec 0 waiting_machine
        = some (r, [], { waiting_machine with
                         clock_reads := waiting_machine.clock_reads + 1 }) ∧
      waiting_machine.scheduled_tasks.least_wake r :=
  ⟨by decide, by decide,
   (C12_pass_before_time_is_idle demo_clock idle_exec 0 waiting_machine (by decide)
      (by decide)).imp (fun _ h => ⟨h.1, h.2.1 ⟨0, by decide, by decide⟩⟩)⟩

/-! ## Passes in which the invoked tasks keep the table -/

theorem slot_now_eq {σ : Type} (clock : Nat → Nat) (exec : TaskEnv σ) (i : Nat)
    (p : Pass σ) (hclock : ClockInRange clock) :
    slot_now clock exec i p = (slot_resample clock exec i p : Int) :=
  now_of_clock _ (hclock _)

theorem process_slot_returns {σ : Type} (clock : Nat → Nat) (exec : TaskEnv σ)
    (fuel i : Nat) (p : Pass σ) (hclock : ClockInRange clock)
    (hfuel : 18446744073709551616 < fuel)
    (hper : slot_due i p → slot_return exec i p = 0 →
      (slot_reread exec i p).order.mode = SCHEDULE_MODE_FIXED_RATE →
      0 < (slot_reread exec i p).order.rate ∧
      (slot_reread exec i p).order.rate < 4294967296) :
    ∃ q, process_slot clock exec fuel i p = some q := by
  by_cases hdue : slot_due i p
  swap
  · rcases process_slot_idle_eq clock exec fuel i p hdue with h | h
    · exact ⟨_, h⟩
    · exact ⟨_, h⟩
  rw [process_slot_due_eq clock exec fuel i p hdue]
  by_cases hz : slot_return exec i p = 0
  · rw [if_pos hz]
    by_cases hm : (slot_reread exec i p).order.mode = SCHEDULE_MODE_FIXED_RATE
    · rw [if_pos hm]
      obtain ⟨hpos, hlt⟩ := hper hdue hz hm
      obtain ⟨m, hc, _, _⟩ := catch_up_total fuel
        (slot_reread exec i p).current_execution_beginning
        (slot_reread exec i p).order.rate (slot_resample clock exec i p)
        hfuel hpos hlt (hclock _)
      have hms : MS_TO_SYSTICKS ((slot_reread exec i p).order.rate : Int)
          = ((slot_reread exec i p).order.rate : Int) :=
        MS_TO_SYSTICKS_of_range _ (by omega) (by omega)
      rw [hms, slot_now_eq clock exec i p hclock, hc]
      exact ⟨_, rfl⟩
    · rw [if_neg hm]
      exact ⟨_, rfl⟩
  · rw [if_neg hz]
    exact ⟨_, rfl⟩

/-- When the call made for slot `i` keeps the table, an iteration touches slot `i` only,
and there it keeps the order or zeroes the slot. -/
theorem process_slot_table {σ : Type} (clock : Nat → Nat) (exec : TaskEnv σ)
    (fuel i : Nat) (p q : Pass σ) (hi : i < SCHEDULER_SIZE)
    (hft : slot_due i p →
      (slot_call exec i p).2.scheduled_tasks = p.sys.scheduled_tasks)
    (h : process_slot clock exec fuel i p = some q) :
    (∀ l, l ≠ i → q.sys.scheduled_tasks.get l = p.sys.scheduled_tasks.get l) ∧
    ((q.sys.scheduled_tasks.get i).order = (p.sys.scheduled_tasks.get i).order ∨
      q.sys.scheduled_tasks.get i = zero_entry) := by
  rcases process_slot_facts clock exec fuel i p q h with
    ⟨_, hsys, _, _⟩ | ⟨hdue, _, _, _, _, _, e, htab, hcases⟩
  · rw [hsys]
    exact ⟨fun _ _ => rfl, Or.inl rfl⟩
  · have hre : slot_reread exec i p = p.sys.scheduled_tasks.get i := by
      unfold slot_reread; rw [hft hdue]
    rw [htab, hft hdue]
    refine ⟨fun l hl => Table.get_set_ne _ _ _ _ (Ne.symm hl), ?_⟩
    rw [Table.get_set_eq _ _ _ hi]
    rcases hcases with ⟨_, he⟩ | ⟨_, _, next, _, he⟩ | ⟨_, _, he⟩
    · left; rw [he, hre]
    · left; rw [he, hre]
    · right; exact he

/-- The dispatch loop over slots whose tasks keep the table: it returns, leaves the
slots outside its range alone, keeps the order of every slot or zeroes it, and carries
along any property `J` that each of its iterations preserves. -/
theorem core_loop_kept {σ : Type} (clock : Nat → Nat) (exec : TaskEnv σ) (fuel : Nat)
    (hclock : ClockInRange clock) (hfuel : 18446744073709551616 < fuel)
    (Good : Nat → Prop)
    (hgood : ∀ task, Good task → ∀ context s,
      (exec task context s).2.scheduled_tasks = s.scheduled_tasks)
    (J : Pass σ → Prop)
    (hJ : ∀ j p1 q1, J p1 → process_slot clock exec fuel j p1 = some q1 →
      (slot_due j p1 → Good (p1.sys.scheduled_tasks.get j).order.execute) → J q1)
    (k a : Nat) (p : Pass σ) (hk : a + k ≤ SCHEDULER_SIZE)
    (hslots : ∀ l, a ≤ l → l < a + k → p.sys.scheduled_tasks.occupied l →
      Good (p.sys.scheduled_tasks.get l).order.execute ∧
      (p.sys.scheduled_tasks.get l).order.rate < 4294967296 ∧
      ((p.sys.scheduled_tasks.get l).order.mode = SCHEDULE_MODE_FIXED_RATE →
        0 < (p.sys.scheduled_tasks.get l).order.rate))
    (h0 : J p) :
    ∃ q, core_loop clock exec fuel k a p = some q ∧
      (∀ l, l < a ∨ a + k ≤ l →
        q.sys.scheduled_tasks.get l = p.sys.scheduled_tasks.get l) ∧
      (∀ l, (q.sys.scheduled_tasks.get l).order = (p.sys.scheduled_tasks.get l).order ∨
        q.sys.scheduled_tasks.get l = zero_entry) ∧
      J q := by
  obtain ⟨q, hq, h1, h2, h3⟩ := core_loop_total clock exec fuel
    (fun j p1 =>
      (∀ l, l < a ∨ j ≤ l →
        p1.sys.scheduled_tasks.get l = p.sys.scheduled_tasks.get l) ∧
      (∀ l, (p1.sys.scheduled_tasks.get l).order = (p.sys.scheduled_tasks.get l).order ∨
        p1.sys.scheduled_tasks.get l = zero_entry) ∧
      J p1)
    k a p ⟨fun _ _ => rfl, fun _ => Or.inl rfl, h0⟩
    (by
      intro j p1 hj1 hj2 ⟨hsame, hord, hJ1⟩
      have hj16 : j < SCHEDULER_SIZE := by omega
      have hpj := hsame j (Or.inr (le_refl _))
      have hgoodj : slot_due j p1 → Good (p1.sys.scheduled_tasks.get j).order.execute ∧
          (p1.sys.scheduled_tasks.get j).order.rate < 4294967296 ∧
          ((p1.sys.scheduled_tasks.get j).order.mode = SCHEDULE_MODE_FIXED_RATE →
            0 < (p1.sys.scheduled_tasks.get j).order.rate) := by
        intro hdue
        rw [hpj]
        apply hslots j hj1 hj2
        have := hdue.1
        unfold Table.occupied at this ⊢
        rw [← hpj]; exact this
      have hft : slot_due j p1 →
          (slot_call exec j p1).2.scheduled_tasks = p1.sys.scheduled_tasks :=
        fun hdue => hgood _ (hgoodj hdue).1 _ _
      obtain ⟨q1, hs⟩ := process_slot_returns clock exec fuel j p1 hclock hfuel
        (by
          intro hdue _ hm
          have hre : slot_reread exec j p1 = p1.sys.scheduled_tasks.get j := by
            unfold slot_reread; rw [hft hdue]
          rw [hre] at hm ⊢
          exact ⟨(hgoodj hdue).2.2 hm, (hgoodj hdue).2.1⟩)
      obtain ⟨hoth, hown⟩ := process_slot_table clock exec fuel j p1 q1 hj16 hft hs
      refine ⟨q1, hs, ?_, ?_, hJ j p1 q1 hJ1 hs (fun hdue => (hgoodj hdue).1)⟩
      · intro l hl
        rw [hoth l (by omega)]
        exact hsame l (by omega)
      · intro l
        by_cases hlj : l = j
        · subst hlj
          rcases hown with h | h
          · rcases hord l with h' | h'
            · left; rw [h, h']
            · left; rw [h, hpj]
          · right; exact h
        · rw [hoth l hlj]
          exact hord l)
  exact ⟨q, hq, fun l hl => h1 l (by omega), h2, h3⟩

/-! ## What a registration returns -/

theorem schedule_cases {σ : Type} (clock : Nat → Nat) (task : Nat)
    (mode : TaskExecutionModeEnum_t) (rate context : Nat) (s : Machine σ) :
    (∃ i, i < SCHEDULER_SIZE ∧
      schedule clock task mode rate context s =
        ((i : Int), (bind_task clock i
          { execute := task, rate := rate, mode := mode, context := context } s).2)) ∨
    schedule clock task mode rate context s = (-1, s) := by
  by_cases hm : mode = SCHEDULE_MODE_MULTI_SCHEDULE
  · cases hB : find_slot s.scheduled_tasks 0 SCHEDULER_SIZE 0 with
    | none => exact Or.inr (schedule_full clock task mode rate context s (Or.inl hm) hB)
    | some i =>
      obtain ⟨_, hi, _, _⟩ := (find_slot_eq_some_iff _ _ _ _ _).1 hB
      exact Or.inl ⟨i, by omega,
        schedule_fresh clock task mode rate context s i (Or.inl hm) hB⟩
  · cases hA : find_slot s.scheduled_tasks task SCHEDULER_SIZE 0 with
    | some i =>
      obtain ⟨_, hi, _, _⟩ := (find_slot_eq_some_iff _ _ _ _ _).1 hA
      exact Or.inl ⟨i, by omega, schedule_rebind clock task mode rate context s i hm hA⟩
    | none =>
      cases hB : find_slot s.scheduled_tasks 0 SCHEDULER_SIZE 0 with
      | none => exact Or.inr (schedule_full clock task mode rate context s (Or.inr hA) hB)
      | some i =>
        obtain ⟨_, hi, _, _⟩ := (find_slot_eq_some_iff _ _ _ _ _).1 hB
        exact Or.inl ⟨i, by omega,
          schedule_fresh clock task mode rate context s i (Or.inr hA) hB⟩

theorem schedule_of_index {σ : Type} (clock : Nat → Nat) (task : Nat)
    (mode : TaskExecutionModeEnum_t) (rate context : Nat) (s : Machine σ) (i : Nat)
    (h : (schedule clock task mode rate context s).1 = (i : Int)) :
    i < SCHEDULER_SIZE ∧
    (schedule clock task mode rate context s).2 =
      (bind_task clock i
        { execute := task, rate := rate, mode := mode, context := context } s).2 := by
  rcases schedule_cases clock task mode rate context s with ⟨j, hj, he⟩ | he
  · rw [he] at h ⊢
    have h' : (j : Int) = (i : Int) := h
    have : j = i := by exact_mod_cast h'
    subst this
    exact ⟨hj, rfl⟩
  · rw [he] at h
    simp only at h
    omega

/-! ## Termination of a pass -/

theorem catch_up_stuck (fuel : Nat) (next now : Int) (hle : next ≤ now)
    (hlo : -9223372036854775808 ≤ next) (hhi : next ≤ 9223372036854775807) :
    catch_up fuel next 0 now = none := by
  induction fuel with
  | zero => rfl
  | succ fuel ih =>
    unfold catch_up
    rw [if_pos hle, add_zero, toInt64_of_range next hlo hhi]
    exact ih

theorem pass_returns {σ : Type} (clock : Nat → Nat) (exec : TaskEnv σ) (fuel : Nat)
    (s : Machine σ) (hframe : TasksKeepTable exec) (hclock : ClockInRange clock)
    (htyped : RatesTyped s.scheduled_tasks) (hper : PeriodsPositive s.scheduled_tasks)
    (hfuel : 18446744073709551616 < fuel) :
    ∃ r tr s', scheduler_core_process clock exec fuel s = some (r, tr, s') := by
  obtain ⟨q, hq, _⟩ := core_loop_kept clock exec fuel hclock hfuel (fun _ => True)
    (fun task _ context s => hframe task context s) (fun _ => True)
    (fun _ _ _ _ _ _ => trivial) SCHEDULER_SIZE 0 (pass_start clock s) (by omega)
    (fun l _ hl ho => ⟨trivial, htyped l (by omega) ho, hper l (by omega) ho⟩) trivial
  exact ⟨_, _, _, core_process_of_loop clock exec fuel s q hq⟩

theorem pass_stuck {σ : Type} (clock : Nat → Nat) (exec : TaskEnv σ) (fuel : Nat)
    (s : Machine σ) (i : Nat) (p : Pass σ) (hi : i < SCHEDULER_SIZE)
    (hreach : core_loop clock exec fuel i 0 (pass_start clock s) = some p)
    (hstep : process_slot clock exec fuel i p = none) :
    scheduler_core_process clock exec fuel s = none := by
  have hsplit : SCHEDULER_SIZE = i + ((SCHEDULER_SIZE - (i + 1)) + 1) := by omega
  have hloop : core_loop clock exec fuel SCHEDULER_SIZE 0 (pass_start clock s) = none := by
    rw [hsplit, core_loop_add, hreach]
    simp only [core_loop, Nat.zero_add, hstep]
  simp only [scheduler_core_process, hloop]

/-- Claim C18.  With tasks that keep the table, a timer in the supported range and
`uint32_t` rates: when every fixed-rate slot has a positive rate, the pass returns (for
any fuel above `2^64`); but when the scan reaches a due fixed-rate slot with rate 0 whose
task returns 0 and whose `current_execution_beginning` is not later than the clock value
read after the task, the pass returns for no amount of fuel: the catch-up loop adds 0
for ever.  A slot bound by `schedule` with rate 0 has the clock value read by that call
as its `current_execution_beginning`. -/
theorem C18_pass_ends_unless_period_is_zero {σ : Type} (clock : Nat → Nat)
    (exec : TaskEnv σ) (s : Machine σ) (hframe : TasksKeepTable exec)
    (hclock : ClockInRange clock) (htyped : RatesTyped s.scheduled_tasks) :
    (PeriodsPositive s.scheduled_tasks → ∀ fuel, 18446744073709551616 < fuel →
      ∃ r tr s', scheduler_core_process clock exec fuel s = some (r, tr, s')) ∧
    (∀ fuel i p, i < SCHEDULER_SIZE →
      core_loop clock exec fuel i 0 (pass_start clock s) = some p →
      slot_due i p →
      (p.sys.scheduled_tasks.get i).order.mode = SCHEDULE_MODE_FIXED_RATE →
      (p.sys.scheduled_tasks.get i).order.rate = 0 →
      slot_return exec i p = 0 →
      -9223372036854775808 ≤ (p.sys.scheduled_tasks.get i).current_execution_beginning →
      (p.sys.scheduled_tasks.get i).current_execution_beginning
        ≤ (slot_resample clock exec i p : Int) →
      scheduler_core_process clock exec fuel s = none) ∧
    (∀ (task : Nat) (mode : TaskExecutionModeEnum_t) (context i : Nat),
      (schedule clock task mode 0 context s).1 = (i : Int) →
      ((schedule clock task mode 0 context s).2.scheduled_tasks.get
          i).current_execution_beginning = (clock s.clock_reads : Int)) := by
  refine ⟨?_, ?_, ?_⟩
  · intro hper fuel hfuel
    exact pass_returns clock exec fuel s hframe hclock htyped hper hfuel
  swap
  · intro task mode context i hret
    obtain ⟨hi, he⟩ := schedule_of_index clock task mode 0 context s i hret
    have hc := hclock s.clock_reads
    rw [he, bind_task_table, Table.get_set_eq _ _ _ hi]
    dsimp only
    have := bind_time_of_range (clock s.clock_reads) 0 (by
      unfold TimeInRange at hc; push_cast; omega)
    rw [this]
    push_cast
    omega
  · intro fuel i p hi hreach hdue hmode hrate hz hlo hceb
    apply pass_stuck clock exec fuel s i p hi hreach
    have hre : slot_reread exec i p = p.sys.scheduled_tasks.get i := by
      unfold slot_reread slot_call; rw [hframe]
    have hms : MS_TO_SYSTICKS ((0 : Nat) : Int) = 0 := by decide
    have hclk := hclock (slot_call exec i p).2.clock_reads
    have hn : (slot_resample clock exec i p : Int) ≤ 9223372036854775807 := by
      unfold TimeInRange INT64_MAX at hclk
      unfold slot_resample
      omega
    rw [process_slot_due_eq clock exec fuel i p hdue, if_pos hz, hre, if_pos hmode, hrate,
      hms, add_zero, slot_now_eq clock exec i p hclock,
      toInt64_of_range _ hlo (by omega),
      catch_up_stuck fuel _ _ hceb hlo (by omega)]

/-- A worked instance of C18: the fixed period 100 lets the pass return; task 6,
registered at the fixed rate 0, is due at the next pass, returns 0, and the pass does
not return. -/
theorem C18_pass_ends_unless_period_is_zero_witness :
    TasksKeepTable idle_exec ∧ ClockInRange demo_clock ∧ ClockInRange late_clock ∧
    RatesTyped fixed_machine.scheduled_tasks ∧
    PeriodsPositive fixed_machine.scheduled_tasks ∧
    RatesTyped stuck_machine.scheduled_tasks ∧
    (∃ r tr s', scheduler_core_process late_clock idle_exec 18446744073709551617
      fixed_machine = some (r, tr, s')) ∧
    scheduler_core_process demo_clock idle_exec 18446744073709551617 stuck_machine
      = none :=
  ⟨idle_exec_keeps_table, demo_clock_in_range, late_clock_in_range, by decide, by decide,
   by decide,
   (C18_pass_ends_unless_period_is_zero late_clock idle_exec fixed_machine
      idle_exec_keeps_table late_clock_in_range (by decide)).1 (by decide)
      18446744073709551617 (by decide),
   (C18_pass_ends_unless_period_is_zero demo_clock idle_exec stuck_machine
      idle_exec_keeps_table demo_clock_in_range (by decide)).2.1
      18446744073709551617 0 (pass_start demo_clock stuck_machine) (by decide) rfl
      (by decide) (by decide) (by decide) (by decide) (by decide) (by decide)⟩

/-! ## The wake-source notification -/

theorem core_process_some {σ : Type} (clock : Nat → Nat) (exec : TaskEnv σ) (fuel : Nat)
    (s s' : Machine σ) (r : Int) (tr : List Nat)
    (h : scheduler_core_process clock exec fuel s = some (r, tr, s')) :
    ∃ q, core_loop clock exec fuel SCHEDULER_SIZE 0 (pass_start clock s) = some q ∧
      r = (if q.next_wake_sys_time = INT64_MAX then -1 else q.next_wake_sys_time) ∧
      tr = q.invoked ∧ s' = q.sys := by
  cases hq : core_loop clock exec fuel SCHEDULER_SIZE 0 (pass_start clock s) with
  | none =>
    simp only [scheduler_core_process, hq] at h
    exact absurd h (by simp)
  | some q =>
    rw [core_process_of_loop clock exec fuel s q hq] at h
    have h1 := Option.some.inj h
    have h2 := Prod.mk.inj h1
    have h3 := Prod.mk.inj h2.2
    exact ⟨q, rfl, h2.1.symm, h3.1.symm, h3.2.symm⟩

theorem pass_keeps_notify {σ : Type} (clock : Nat → Nat) (exec : TaskEnv σ) (fuel : Nat)
    (s s' : Machine σ) (r : Int) (tr : List Nat) (hkeep : TasksKeepNotify exec)
    (h : scheduler_core_process clock exec fuel s = some (r, tr, s')) :
    s'.notify_calls = s.notify_calls := by
  obtain ⟨q, hq, _, _, hs'⟩ := core_process_some clock exec fuel s s' r tr h
  rw [hs']
  have := core_loop_induct clock exec fuel
    (fun _ p => p.sys.notify_calls = s.notify_calls) SCHEDULER_SIZE 0
    (pass_start clock s) q hq rfl
    (by
      intro j p1 q1 _ _ hinv hs
      rcases process_slot_facts clock exec fuel j p1 q1 hs with
        ⟨_, hsys, _, _⟩ | ⟨_, _, _, _, hn, _⟩
      · rw [hsys]; exact hinv
      · rw [hn]
        unfold slot_call
        rw [hkeep]
        exact hinv)
  exact this

/-- Claim C15.  With the notification counted in the machine and tasks that leave the
count alone (they call neither `schedule` nor the notification): a `schedule` that
returns a slot index raises the count by exactly one; a `schedule` that returns `-1`, a
`cancel_schedule` and a pass leave it unchanged; and the pass does return when the tasks
keep the table, the periods are positive and the timer is in range. -/
theorem C15_notification_counts_bindings {σ : Type} (clock : Nat → Nat)
    (exec : TaskEnv σ) (fuel : Nat) (s : Machine σ) (task : Nat)
    (mode : TaskExecutionModeEnum_t) (rate context : Nat)
    (hkeep : TasksKeepNotify exec) :
    (0 ≤ (schedule clock task mode rate context s).1 →
      (schedule clock task mode rate context s).2.notify_calls = s.notify_calls + 1) ∧
    ((schedule clock task mode rate context s).1 = -1 →
      (schedule clock task mode rate context s).2.notify_calls = s.notify_calls) ∧
    (0 ≤ (schedule clock task mode rate context s).1 ∨
      (schedule clock task mode rate context s).1 = -1) ∧
    (cancel_schedule task s).2.notify_calls = s.notify_calls ∧
    (∀ r tr s', scheduler_core_process clock exec fuel s = some (r, tr, s') →
      s'.notify_calls = s.notify_calls) ∧
    (TasksKeepTable exec → ClockInRange clock → RatesTyped s.scheduled_tasks →
      PeriodsPositive s.scheduled_tasks → 18446744073709551616 < fuel →
      ∃ r tr s', scheduler_core_process clock exec fuel s = some (r, tr, s') ∧
        s'.notify_calls = s.notify_calls) := by
  refine ⟨?_, ?_, ?_, ?_, ?_, ?_⟩
  · intro h
    rcases schedule_cases clock task mode rate context s with ⟨i, _, he⟩ | he
    · rw [he]; rfl
    · rw [he] at h; simp only at h; omega
  · intro h
    rcases schedule_cases clock task mode rate context s with ⟨i, _, he⟩ | he
    · rw [he] at h; simp only at h; omega
    · rw [he]
  · rcases schedule_cases clock task mode rate context s with ⟨i, _, he⟩ | he
    · left; rw [he]; simp only; omega
    · right; rw [he]
  · cases hA : find_slot s.scheduled_tasks task SCHEDULER_SIZE 0 with
    | none => rw [cancel_missing task s hA]
    | some i => rw [cancel_found task s i hA]; rfl
  · intro r tr s' h
    exact pass_keeps_notify clock exec fuel s s' r tr hkeep h
  · intro hframe hclock htyped hper hfuel
    obtain ⟨r, tr, s', h⟩ := pass_returns clock exec fuel s hframe hclock htyped hper hfuel
    exact ⟨r, tr, s', h, pass_keeps_notify clock exec fuel s s' r tr hkeep h⟩

theorem idle_exec_keeps_notify : TasksKeepNotify idle_exec := fun _ _ _ => rfl

/-- A worked instance of C15: a third registration of task 7 notifies once, a
registration turned away by a full table, a cancellation and a pass do not. -/
theorem C15_notification_counts_bindings_witness :
    TasksKeepNotify idle_exec ∧
    (schedule demo_clock 7 SCHEDULE_MODE_MULTI_SCHEDULE 5 3 twice_scheduled).2.notify_calls
      = twice_scheduled.notify_calls + 1 ∧
    (cancel_schedule 7 twice_scheduled).2.notify_calls = twice_scheduled.notify_calls ∧
    ∃ r tr s', scheduler_core_process demo_clock idle_exec 18446744073709551617
        twice_scheduled = some (r, tr, s') ∧
      s'.notify_calls = twice_scheduled.notify_calls :=
  ⟨idle_exec_keeps_notify,
   (C15_notification_counts_bindings demo_clock idle_exec 18446744073709551617
      twice_scheduled 7 SCHEDULE_MODE_MULTI_SCHEDULE 5 3 idle_exec_keeps_notify).1
      (by decide),
   (C15_notification_counts_bindings demo_clock idle_exec 18446744073709551617
      twice_scheduled 7 SCHEDULE_MODE_MULTI_SCHEDULE 5 3 idle_exec_keeps_notify).2.2.2.1,
   (C15_notification_counts_bindings demo_clock idle_exec 18446744073709551617
      twice_scheduled 7 SCHEDULE_MODE_MULTI_SCHEDULE 5 3 idle_exec_keeps_notify).2.2.2.2.2
      idle_exec_keeps_table demo_clock_in_range (by decide) (by decide) (by decide)⟩

/-! ## One slot per task -/

theorem Table.get_zero (i : Nat) : Table.zero.get i = zero_entry := by
  by_cases h : i < SCHEDULER_SIZE
  · simp [Table.get, Table.zero, List.getD_eq_getElem?_getD, List.getElem?_replicate, h]
  · exact Table.get_of_le _ _ (by omega)

/-- Claim C11 fails when a task is registered in both kinds of mode.  After
`scheduler_init`, `schedule(1, ONCE)`, `schedule(7, ONCE)`, `cancel_schedule(1)`,
`schedule(7, MULTI_SCHEDULE)` and `schedule(7, ONCE)`, task 7 is bound once-only in
slot 0 and in slot 1: the last call rebinds the slot that the call before had bound
in `SCHEDULE_MODE_MULTI_SCHEDULE`. -/
theorem C11_mixed_modes_counterexample :
    Reachable demo_clock idle_exec (fun _ _ => True) doubled_machine ∧
    doubled_machine.scheduled_tasks.bound 7 0 ∧
    doubled_machine.scheduled_tasks.bound 7 1 ∧
    (doubled_machine.scheduled_tasks.get 0).order.mode = SCHEDULE_MODE_ONCE ∧
    (doubled_machine.scheduled_tasks.get 1).order.mode = SCHEDULE_MODE_ONCE ∧
    ¬ doubled_machine.scheduled_tasks.no_duplicates :=
  ⟨Reachable.schedule _ 7 SCHEDULE_MODE_ONCE 0 0
     (Reachable.schedule _ 7 SCHEDULE_MODE_MULTI_SCHEDULE 0 0
       (Reachable.cancel _ 1
         (Reachable.schedule _ 7 SCHEDULE_MODE_ONCE 0 0
           (Reachable.schedule _ 1 SCHEDULE_MODE_ONCE 0 0
             (Reachable.init Machine.boot) trivial) trivial)) trivial) trivial,
   by decide, by decide, by decide, by decide,
   fun h => absurd (h 0 (by decide) 1 (by decide) (by decide) (by decide) (by decide)
     (by decide)) (by decide)⟩

theorem disciplined_of_orders_kept (multi : Nat → Prop) (t u : Table)
    (hkept : ∀ l, l < SCHEDULER_SIZE →
      (u.get l).order = (t.get l).order ∨ u.get l = zero_entry)
    (h : t.disciplined multi) : u.disciplined multi := by
  obtain ⟨h1, h2⟩ := h
  have hold : ∀ l, l < SCHEDULER_SIZE → u.occupied l →
      (u.get l).order = (t.get l).order := by
    intro l hl ho
    rcases hkept l hl with hk | hk
    · exact hk
    · exfalso; apply ho; rw [hk]; rfl
  constructor
  · intro i hi ho hm
    have hk := hold i hi ho
    have ho' : t.occupied i := by
      unfold Table.occupied at ho ⊢; rw [← hk]; exact ho
    rw [hk] at hm ⊢
    exact h1 i hi ho' hm
  · intro i j hi hj ho he hm
    have hk := hold i hi ho
    have ho' : t.occupied i := by
      unfold Table.occupied at ho ⊢; rw [← hk]; exact ho
    have hoj : u.occupied j := by
      unfold Table.occupied at ho ⊢; rw [← he]; exact ho
    have hkj := hold j hj hoj
    rw [hk, hkj] at he
    rw [hk] at hm
    exact h2 i j hi hj ho' he hm

theorem pass_orders_kept {σ : Type} (clock : Nat → Nat) (exec : TaskEnv σ) (fuel : Nat)
    (s s' : Machine σ) (r : Int) (tr : List Nat) (hframe : TasksKeepTable exec)
    (h : scheduler_core_process clock exec fuel s = some (r, tr, s')) :
    ∀ l, (s'.scheduled_tasks.get l).order = (s.scheduled_tasks.get l).order ∨
      s'.scheduled_tasks.get l = zero_entry := by
  obtain ⟨q, hq, _, _, hs'⟩ := core_process_some clock exec fuel s s' r tr h
  rw [hs']
  exact (core_loop_induct clock exec fuel
    (fun j p =>
      (∀ l, j ≤ l → p.sys.scheduled_tasks.get l = s.scheduled_tasks.get l) ∧
      ∀ l, (p.sys.scheduled_tasks.get l).order = (s.scheduled_tasks.get l).order ∨
        p.sys.scheduled_tasks.get l = zero_entry) SCHEDULER_SIZE 0
    (pass_start clock s) q hq ⟨fun _ _ => rfl, fun _ => Or.inl rfl⟩
    (by
      intro j p1 q1 _ hj ⟨hahead, hinv⟩ hs
      obtain ⟨hoth, hown⟩ := process_slot_table clock exec fuel j p1 q1 (by omega)
        (fun _ => hframe _ _ _) hs
      refine ⟨fun l hl => by rw [hoth l (by omega)]; exact hahead l (by omega), ?_⟩
      intro l
      by_cases hlj : l = j
      · subst hlj
        rcases hown with hk | hk
        · left; rw [hk, hahead l (le_refl _)]
        · right; exact hk
      · rw [hoth l hlj]
        exact hinv l)).2

theorem disciplined_schedule {σ : Type} (clock : Nat → Nat) (multi : Nat → Prop)
    (task : Nat) (mode : TaskExecutionModeEnum_t) (rate context : Nat) (s : Machine σ)
    (hallowed : mode = SCHEDULE_MODE_MULTI_SCHEDULE ↔ multi task)
    (h : s.scheduled_tasks.disciplined multi) :
    (schedule clock task mode rate context s).2.scheduled_tasks.disciplined multi := by
  obtain ⟨h1, h2⟩ := h
  -- a rebind of slot `i`, already bound to `task`, by a task outside `multi`
  have rebind : ∀ i, i < SCHEDULER_SIZE → ¬ multi task →
      (s.scheduled_tasks.get i).order.execute = task →
      ∀ e : SchedulerEntry_t, e.order.execute = task →
      (s.scheduled_tasks.set i e).disciplined multi := by
    intro i hi hnm hbi e he
    have hex : ∀ l, ((s.scheduled_tasks.set i e).get l).order.execute
        = (s.scheduled_tasks.get l).order.execute := by
      intro l
      by_cases hl : i = l
      · subst hl; rw [Table.get_set_eq _ _ _ hi, he, hbi]
      · rw [Table.get_set_ne _ _ _ _ hl]
    constructor
    · intro l hl ho hm
      by_cases hli : i = l
      · subst hli
        rw [Table.get_set_eq _ _ _ hi, he] at hm
        exact absurd hm hnm
      · rw [Table.get_set_ne _ _ _ _ hli] at hm ⊢
        apply h1 l hl _ hm
        unfold Table.occupied at ho ⊢
        rw [← hex l]; exact ho
    · intro l m hl hm ho heq hnot
      rw [hex l, hex m] at heq
      rw [hex l] at hnot
      apply h2 l m hl hm _ heq hnot
      unfold Table.occupied at ho ⊢
      rw [← hex l]; exact ho
  -- a fresh binding in the empty slot `i`
  have fresh : ∀ i, i < SCHEDULER_SIZE →
      (mode = SCHEDULE_MODE_MULTI_SCHEDULE ∨
        ∀ l, l < SCHEDULER_SIZE → (s.scheduled_tasks.get l).order.execute ≠ task) →
      ∀ e : SchedulerEntry_t, e.order.execute = task → e.order.mode = mode →
      (s.scheduled_tasks.set i e).disciplined multi := by
    intro i hi hwhy e he hmode
    have hnone : ¬ multi task → ∀ l, l < SCHEDULER_SIZE →
        (s.scheduled_tasks.get l).order.execute ≠ task := by
      intro hnm
      rcases hwhy with hw | hw
      · exact absurd (hallowed.1 hw) hnm
      · exact hw
    constructor
    · intro l hl ho hm
      by_cases hli : i = l
      · subst hli
        rw [Table.get_set_eq _ _ _ hi] at hm ⊢
        rw [he] at hm
        rw [hmode]
        exact hallowed.2 hm
      · rw [Table.get_set_ne _ _ _ _ hli] at hm ⊢
        apply h1 l hl _ hm
        unfold Table.occupied at ho ⊢
        rw [Table.get_set_ne _ _ _ _ hli] at ho
        exact ho
    · intro l m hl hm ho heq hnot
      by_cases hli : i = l
      · by_cases hmi : i = m
        · rw [← hli, ← hmi]
        · exfalso
          rw [← hli, Table.get_set_eq _ _ _ hi, he] at heq hnot
          rw [Table.get_set_ne _ _ _ _ hmi] at heq
          exact hnone hnot m hm heq.symm
      · by_cases hmi : i = m
        · exfalso
          rw [Table.get_set_ne _ _ _ _ hli] at heq hnot
          rw [← hmi, Table.get_set_eq _ _ _ hi, he] at heq
          rw [heq] at hnot
          exact hnone hnot l hl heq
        · rw [Table.get_set_ne _ _ _ _ hli] at heq hnot
          rw [Table.get_set_ne _ _ _ _ hmi] at heq
          apply h2 l m hl hm _ heq hnot
          unfold Table.occupied at ho ⊢
          rw [Table.get_set_ne _ _ _ _ hli] at ho
          exact ho
  by_cases hm : mode = SCHEDULE_MODE_MULTI_SCHEDULE
  · cases hB : find_slot s.scheduled_tasks 0 SCHEDULER_SIZE 0 with
    | none =>
      rw [schedule_full clock task mode rate context s (Or.inl hm) hB]
      exact ⟨h1, h2⟩
    | some i =>
      obtain ⟨_, hi, _, _⟩ := (find_slot_eq_some_iff _ _ _ _ _).1 hB
      rw [schedule_fresh clock task mode rate context s i (Or.inl hm) hB, bind_task_table]
      exact fresh i (by omega) (Or.inl hm) _ rfl rfl
  · have hnm : ¬ multi task := fun h => hm (hallowed.2 h)
    cases hA : find_slot s.scheduled_tasks task SCHEDULER_SIZE 0 with
    | some i =>
      obtain ⟨_, hi, hbi, _⟩ := (find_slot_eq_some_iff _ _ _ _ _).1 hA
      rw [schedule_rebind clock task mode rate context s i hm hA, bind_task_table]
      exact rebind i (by omega) hnm hbi _ rfl
    | none =>
      have hno := (find_slot_eq_none_iff _ _ _ _).1 hA
      cases hB : find_slot s.scheduled_tasks 0 SCHEDULER_SIZE 0 with
      | none =>
        rw [schedule_full clock task mode rate context s (Or.inr hA) hB]
        exact ⟨h1, h2⟩
      | some i =>
        obtain ⟨_, hi, _, _⟩ := (find_slot_eq_some_iff _ _ _ _ _).1 hB
        rw [schedule_fresh clock task mode rate context s i (Or.inr hA) hB,
          bind_task_table]
        exact fresh i (by omega)
          (Or.inr (fun l hl => hno l (Nat.zero_le _) (by omega))) _ rfl rfl

theorem disciplined_cancel {σ : Type} (multi : Nat → Prop) (task : Nat) (s : Machine σ)
    (h : s.scheduled_tasks.disciplined multi) :
    (cancel_schedule task s).2.scheduled_tasks.disciplined multi := by
  cases hA : find_slot s.scheduled_tasks task SCHEDULER_SIZE 0 with
  | none => rw [cancel_missing task s hA]; exact h
  | some i =>
    obtain ⟨_, hi, _, _⟩ := (find_slot_eq_some_iff _ _ _ _ _).1 hA
    rw [cancel_found task s i hA]
    apply disciplined_of_orders_kept multi s.scheduled_tasks _ _ h
    intro l _
    show ((s.scheduled_tasks.set i zero_entry).get l).order = _ ∨
      (s.scheduled_tasks.set i zero_entry).get l = zero_entry
    by_cases hl : i = l
    · subst hl; right; exact Table.get_set_eq _ _ _ (by omega)
    · left; rw [Table.get_set_ne _ _ _ _ hl]

theorem no_duplicates_of_disciplined (multi : Nat → Prop) (t : Table)
    (h : t.disciplined multi) : t.no_duplicates := by
  obtain ⟨h1, h2⟩ := h
  intro i hi j hj ho heq hmi _
  by_cases hm : multi (t.get i).order.execute
  · exact absurd (h1 i hi ho hm) hmi
  · exact h2 i j hi hj ho heq hm

theorem disciplined_effect {σ : Type} (clock : Nat → Nat) (multi : Nat → Prop)
    (s s' : Machine σ)
    (h : TaskEffect clock
      (fun task mode => mode = SCHEDULE_MODE_MULTI_SCHEDULE ↔ multi task) s s')
    (hd : s.scheduled_tasks.disciplined multi) : s'.scheduled_tasks.disciplined multi := by
  induction h with
  | keep s2 he => rw [he]; exact hd
  | schedule s2 s3 task mode rate context _ hallowed he ih =>
    rw [he]
    exact disciplined_schedule clock multi task mode rate context s2 hallowed ih
  | cancel s2 s3 task _ he ih =>
    rw [he]
    exact disciplined_cancel multi task s2 ih

/-- A pass keeps the discipline of the table when every task invoked in it does: the
pass itself only rewrites the timestamps of the slot it has served, or zeroes it. -/
theorem pass_disciplined {σ : Type} (clock : Nat → Nat) (exec : TaskEnv σ) (fuel : Nat)
    (multi : Nat → Prop) (s s' : Machine σ) (r : Int) (tr : List Nat)
    (htasks : ∀ task c s1, s1.scheduled_tasks.disciplined multi →
      (exec task c s1).2.scheduled_tasks.disciplined multi)
    (h : scheduler_core_process clock exec fuel s = some (r, tr, s'))
    (hd : s.scheduled_tasks.disciplined multi) : s'.scheduled_tasks.disciplined multi := by
  obtain ⟨q, hq, _, _, hs'⟩ := core_process_some clock exec fuel s s' r tr h
  rw [hs']
  have := core_loop_induct clock exec fuel
    (fun _ p => p.sys.scheduled_tasks.disciplined multi) SCHEDULER_SIZE 0
    (pass_start clock s) q hq hd
    (by
      intro j p1 q1 _ hj hinv hs
      rcases process_slot_facts clock exec fuel j p1 q1 hs with
        ⟨_, hsys, _⟩ | ⟨_, _, _, _, _, _, e, htab, hcases⟩
      · rw [hsys]; exact hinv
      · have hcalled : (slot_call exec j p1).2.scheduled_tasks.disciplined multi :=
          htasks _ _ _ hinv
        apply disciplined_of_orders_kept multi _ _ _ hcalled
        intro l _
        rw [htab]
        by_cases hl : j = l
        · subst hl
          rw [Table.get_set_eq _ _ _ (by omega)]
          rcases hcases with ⟨_, he⟩ | ⟨_, _, next, _, he⟩ | ⟨_, _, he⟩
          · left; rw [he]; rfl
          · left; rw [he]; rfl
          · right; exact he
        · left; rw [Table.get_set_ne _ _ _ _ hl])
  exact this

/-- Claim C11, amended.  When no task is registered both in
`SCHEDULE_MODE_MULTI_SCHEDULE` and in another mode (the tasks `multi` always in that
mode, the others never), neither by the callers nor by a task that calls `schedule`
while it runs, then in every state reachable from `scheduler_init` by calls of
`schedule`, `cancel_schedule` and `scheduler_core_process`, no task is bound in more
than one slot whose mode is not `SCHEDULE_MODE_MULTI_SCHEDULE`. -/
theorem C11_one_slot_per_task {σ : Type} (clock : Nat → Nat) (exec : TaskEnv σ)
    (multi : Nat → Prop) (s : Machine σ)
    (htasks : ∀ task c s1, TaskEffect clock
      (fun task mode => mode = SCHEDULE_MODE_MULTI_SCHEDULE ↔ multi task)
      s1 (exec task c s1).2)
    (hreach : Reachable clock exec
      (fun task mode => mode = SCHEDULE_MODE_MULTI_SCHEDULE ↔ multi task) s) :
    s.scheduled_tasks.no_duplicates := by
  apply no_duplicates_of_disciplined multi
  induction hreach with
  | init s0 =>
    constructor
    · intro i _ ho
      exfalso; apply ho
      show (Table.zero.get i).order.execute = 0
      rw [Table.get_zero]; rfl
    · intro i j _ _ ho
      exfalso; apply ho
      show (Table.zero.get i).order.execute = 0
      rw [Table.get_zero]; rfl
  | schedule s0 task mode rate context _ hallowed ih =>
    exact disciplined_schedule clock multi task mode rate context s0 hallowed ih
  | cancel s0 task _ ih =>
    exact disciplined_cancel multi task s0 ih
  | process s0 s1 fuel r tr _ hpass ih =>
    exact pass_disciplined clock exec fuel multi s0 s1 r tr
      (fun task c s2 hd => disciplined_effect clock multi s2 _ (htasks task c s2) hd)
      hpass ih

theorem calling_exec_effect (task c : Nat) (s : Machine Unit) :
    TaskEffect demo_clock
      (fun task mode => mode = SCHEDULE_MODE_MULTI_SCHEDULE ↔ task = 2)
      s (calling_exec demo_clock task c s).2 := by
  unfold calling_exec
  by_cases h2 : task = 2
  · rw [if_pos h2]
    exact TaskEffect.schedule s s _ 2 SCHEDULE_MODE_MULTI_SCHEDULE 5 0
      (TaskEffect.keep s s rfl) (by simp) rfl
  · rw [if_neg h2]
    by_cases h3 : task = 3
    · rw [if_pos h3]
      exact TaskEffect.schedule s s _ 3 SCHEDULE_MODE_ONCE 9 42
        (TaskEffect.keep s s rfl) (by simp) rfl
    · rw [if_neg h3]
      by_cases h4 : task = 4
      · rw [if_pos h4]
        exact TaskEffect.schedule s s _ 4 SCHEDULE_MODE_FIXED_RATE 7 0
          (TaskEffect.keep s s rfl) (by simp) rfl
      · rw [if_neg h4]
        exact TaskEffect.keep s s rfl

/-- A worked instance of the amended C11, with task 2 always registered in
`SCHEDULE_MODE_MULTI_SCHEDULE` and task 3 never.  Task 3 is registered once-only twice
(the second call rebinds slot 0) and registers itself once more while it runs in the
pass; task 2 registers itself anew while it runs.  After the pass task 3 is bound in
slot 0, once-only, and in no other slot. -/
theorem C11_one_slot_per_task_witness :
    (∀ task c s1, TaskEffect demo_clock
      (fun task mode => mode = SCHEDULE_MODE_MULTI_SCHEDULE ↔ task = 2)
      s1 (calling_exec demo_clock task c s1).2) ∧
    (∃ r tr s', scheduler_core_process demo_clock (calling_exec demo_clock)
        18446744073709551617 rebound_machine = some (r, tr, s') ∧
      tr = [0, 1] ∧
      Reachable demo_clock (calling_exec demo_clock)
        (fun task mode => mode = SCHEDULE_MODE_MULTI_SCHEDULE ↔ task = 2) s' ∧
      (s'.scheduled_tasks.get 0).order
        = { execute := 3, rate := 9, mode := SCHEDULE_MODE_ONCE, context := 42 } ∧
      (∀ l, l < SCHEDULER_SIZE → s'.scheduled_tasks.bound 3 l → l = 0) ∧
      s'.scheduled_tasks.bound 2 2 ∧
      s'.scheduled_tasks.no_duplicates) :=
  ⟨calling_exec_effect, _, _, _, rfl, rfl,
   Reachable.process rebound_machine _ 18446744073709551617 _ _
     (Reachable.schedule _ 3 SCHEDULE_MODE_ONCE 0 11
       (Reachable.schedule _ 2 SCHEDULE_MODE_MULTI_SCHEDULE 0 0
         (Reachable.schedule _ 3 SCHEDULE_MODE_ONCE 0 11
           (Reachable.init Machine.boot) (by simp)) (by simp)) (by simp)) rfl,
   by decide, by decide, by decide,
   C11_one_slot_per_task demo_clock (calling_exec demo_clock) (fun task => task = 2) _
     calling_exec_effect
     (Reachable.process rebound_machine _ 18446744073709551617 _ _
       (Reachable.schedule _ 3 SCHEDULE_MODE_ONCE 0 11
         (Reachable.schedule _ 2 SCHEDULE_MODE_MULTI_SCHEDULE 0 0
           (Reachable.schedule _ 3 SCHEDULE_MODE_ONCE 0 11
             (Reachable.init Machine.boot) (by simp)) (by simp)) (by simp)) rfl)⟩

/-! ## Where a pass stands when it reaches a slot -/

/-- A pass that returns has reached every slot, processed it and gone on. -/
theorem pass_visits {σ : Type} (clock : Nat → Nat) (exec : TaskEnv σ) (fuel : Nat)
    (p0 q : Pass σ) (h : core_loop clock exec fuel SCHEDULER_SIZE 0 p0 = some q)
    (i : Nat) (hi : i < SCHEDULER_SIZE) :
    ∃ p1 q1, core_loop clock exec fuel i 0 p0 = some p1 ∧
      process_slot clock exec fuel i p1 = some q1 ∧
      core_loop clock exec fuel (SCHEDULER_SIZE - (i + 1)) (i + 1) q1 = some q := by
  have hsplit : SCHEDULER_SIZE = i + ((SCHEDULER_SIZE - (i + 1)) + 1) := by omega
  rw [hsplit] at h
  obtain ⟨p1, hp1, hrest⟩ := core_loop_reach clock exec fuel _ _ 0 p0 q h
  rw [Nat.zero_add] at hrest
  simp only [core_loop] at hrest
  cases hs : process_slot clock exec fuel i p1 with
  | none => rw [hs] at hrest; exact absurd hrest (by simp)
  | some q1 =>
    rw [hs] at hrest
    exact ⟨p1, q1, hp1, hs, hrest⟩

theorem invoked_iff_due {σ : Type} (clock : Nat → Nat) (exec : TaskEnv σ) (fuel : Nat)
    (p0 p1 q1 q : Pass σ) (i : Nat) (h0 : p0.invoked = [])
    (hreach : core_loop clock exec fuel i 0 p0 = some p1)
    (hstep : process_slot clock exec fuel i p1 = some q1)
    (hrest : core_loop clock exec fuel (SCHEDULER_SIZE - (i + 1)) (i + 1) q1 = some q) :
    (i ∈ q.invoked ↔ slot_due i p1) ∧ (slot_due i p1 → q.invoked.count i = 1) := by
  obtain ⟨l1, hl1, hx1⟩ := core_loop_invoked clock exec fuel i 0 p0 p1 hreach
  obtain ⟨l2, hl2, hx2⟩ := core_loop_invoked clock exec fuel _ _ q1 q hrest
  rw [h0, List.nil_append] at hl1
  have hn1 : i ∉ l1 := fun hm => by have := hx1 i hm; omega
  have hn2 : i ∉ l2 := fun hm => by have := hx2 i hm; omega
  rcases process_slot_facts clock exec fuel i p1 q1 hstep with
    ⟨hnd, _, _, hinv⟩ | ⟨hdue, _, hinv, _⟩
  · constructor
    · constructor
      · intro hm
        rw [hl2, hinv, hl1] at hm
        rcases List.mem_append.1 hm with h | h
        · exact absurd h hn1
        · exact absurd h hn2
      · intro hd; exact absurd hd hnd
    · intro hd; exact absurd hd hnd
  · constructor
    · constructor
      · intro _; exact hdue
      · intro _
        rw [hl2, hinv]
        simp
    · intro _
      rw [hl2, hinv, hl1]
      simp only [List.count_append, List.count_singleton_self,
        List.count_eq_zero_of_not_mem hn1, List.count_eq_zero_of_not_mem hn2]

theorem core_loop_untouched {σ : Type} (clock : Nat → Nat) (exec : TaskEnv σ) (fuel : Nat)
    (hframe : TasksKeepTable exec) (k a : Nat) (p q : Pass σ)
    (hk : a + k ≤ SCHEDULER_SIZE)
    (h : core_loop clock exec fuel k a p = some q) :
    ∀ l, l < a ∨ a + k ≤ l →
      q.sys.scheduled_tasks.get l = p.sys.scheduled_tasks.get l :=
  core_loop_induct clock exec fuel
    (fun _ p1 => ∀ l, l < a ∨ a + k ≤ l →
      p1.sys.scheduled_tasks.get l = p.sys.scheduled_tasks.get l)
    k a p q h (fun _ _ => rfl)
    (by
      intro j p1 q1 hj1 hj2 hinv hs l hl
      obtain ⟨hoth, _⟩ := process_slot_table clock exec fuel j p1 q1 (by omega)
        (fun _ => hframe _ _ _) hs
      rw [hoth l (by omega)]
      exact hinv l hl)

/-- The value of `now` is the latest clock reading made. -/
theorem core_loop_now {σ : Type} (clock : Nat → Nat) (exec : TaskEnv σ) (fuel : Nat)
    (hclock : ClockInRange clock) (k a : Nat) (p q : Pass σ)
    (h : core_loop clock exec fuel k a p = some q)
    (h0 : ∃ n, n < p.sys.clock_reads ∧ p.now = (clock n : Int)) :
    ∃ n, n < q.sys.clock_reads ∧ q.now = (clock n : Int) := by
  have := core_loop_induct clock exec fuel
    (fun _ p1 => ∃ n, n < p1.sys.clock_reads ∧ p1.now = (clock n : Int))
    k a p q h h0
    (by
      intro j p1 q1 _ _ hinv hs
      rcases process_slot_facts clock exec fuel j p1 q1 hs with
        ⟨_, hsys, hnow, _⟩ | ⟨_, hnow, _, _, _, hreads, _⟩
      · rw [hsys, hnow]; exact hinv
      · refine ⟨(slot_call exec j p1).2.clock_reads, by rw [hreads]; omega, ?_⟩
        rw [hnow, slot_now_eq clock exec j p1 hclock]
        rfl)
  exact this

theorem pass_start_now {σ : Type} (clock : Nat → Nat) (s : Machine σ)
    (hclock : ClockInRange clock) :
    ∃ n, n < (pass_start clock s).sys.clock_reads ∧
      (pass_start clock s).now = (clock n : Int) :=
  ⟨s.clock_reads, Nat.lt_succ_self _, now_of_clock _ (hclock _)⟩

/-! ## No slot is rescheduled into the past -/

theorem busy_exec_advances_reads : TasksAdvanceReads busy_exec := fun _ _ _ => le_refl _

theorem demo_clock_monotone : Monotone demo_clock := by
  intro a b hab
  unfold demo_clock
  simp only [add_le_add_iff_left]
  exact min_le_min hab (le_refl _)

/-- Claim C16.  Under a non-decreasing clock in the supported range, with tasks that
keep the slot table (and cannot turn back the clock readings), `uint32_t` rates and
positive fixed-rate periods, the pass returns, and every slot whose task was invoked in
the pass and which is occupied after it ends with a `next_execution_time` greater than
the clock value read right after its task returned, hence not less than the
`next_execution_time` it had before the pass. -/
theorem C16_never_rescheduled_into_the_past {σ : Type} (clock : Nat → Nat)
    (exec : TaskEnv σ) (fuel : Nat) (s : Machine σ) (hframe : TasksKeepTable exec)
    (hreads : TasksAdvanceReads exec) (hmono : Monotone clock)
    (hclock : ClockInRange clock) (htyped : RatesTyped s.scheduled_tasks)
    (hper : PeriodsPositive s.scheduled_tasks) (hfuel : 18446744073709551616 < fuel) :
    ∃ r tr s', scheduler_core_process clock exec fuel s = some (r, tr, s') ∧
      ∀ i, i ∈ tr → s'.scheduled_tasks.occupied i →
        ∃ p, core_loop clock exec fuel i 0 (pass_start clock s) = some p ∧
          slot_due i p ∧
          (slot_resample clock exec i p : Int)
            < (s'.scheduled_tasks.get i).next_execution_time ∧
          (s.scheduled_tasks.get i).next_execution_time
            ≤ (s'.scheduled_tasks.get i).next_execution_time := by
  obtain ⟨r, tr, s', hres⟩ := pass_returns clock exec fuel s hframe hclock htyped hper hfuel
  refine ⟨r, tr, s', hres, ?_⟩
  obtain ⟨q, hq, _, htr, hs'⟩ := core_process_some clock exec fuel s s' r tr hres
  intro i hmem hocc
  rw [htr] at hmem
  rw [hs'] at hocc ⊢
  have hi : i < SCHEDULER_SIZE := by
    obtain ⟨l, hl, hx⟩ := core_loop_invoked clock exec fuel _ _ _ q hq
    rw [hl] at hmem
    have : i ∈ l := by simpa [pass_start] using hmem
    have := hx i this
    omega
  obtain ⟨p1, q1, hreach, hstep, hrest⟩ := pass_visits clock exec fuel _ q hq i hi
  have hdue : slot_due i p1 :=
    (invoked_iff_due clock exec fuel _ p1 q1 q i rfl hreach hstep hrest).1.1 hmem
  have hp1 : p1.sys.scheduled_tasks.get i = s.scheduled_tasks.get i := by
    rw [core_loop_untouched clock exec fuel hframe i 0 _ p1 (by omega) hreach i
      (Or.inr (by omega)), pass_start_table]
  have hq1 : q.sys.scheduled_tasks.get i = q1.sys.scheduled_tasks.get i :=
    core_loop_untouched clock exec fuel hframe _ (i + 1) q1 q (by omega) hrest i
      (Or.inl (by omega))
  obtain ⟨n, hn, hnow⟩ := core_loop_now clock exec fuel hclock i 0 _ p1 hreach
    (pass_start_now clock s hclock)
  have hle : p1.now ≤ (slot_resample clock exec i p1 : Int) := by
    rw [hnow]
    have h1 : p1.sys.clock_reads ≤ (slot_call exec i p1).2.clock_reads := hreads _ _ _
    have h2 : clock n ≤ clock (slot_call exec i p1).2.clock_reads := hmono (by omega)
    unfold slot_resample
    exact_mod_cast h2
  have hre : slot_reread exec i p1 = p1.sys.scheduled_tasks.get i := by
    unfold slot_reread slot_call; rw [hframe]
  have hclk := hclock (slot_call exec i p1).2.clock_reads
  have hgt : (slot_resample clock exec i p1 : Int)
      < (q.sys.scheduled_tasks.get i).next_execution_time := by
    rcases process_slot_facts clock exec fuel i p1 q1 hstep with
      ⟨hnd, _⟩ | ⟨_, _, _, _, _, _, e, htab, hcases⟩
    · exact absurd hdue hnd
    · have hqe : q.sys.scheduled_tasks.get i = e := by
        rw [hq1, htab]; exact Table.get_set_eq _ _ _ hi
      rw [hqe]
      rcases hcases with ⟨hnz, he⟩ | ⟨_, _, next, hc, he⟩ | ⟨_, _, he⟩
      · rw [he, slot_now_eq clock exec i p1 hclock]
        dsimp only
        have hlt : slot_return exec i p1 < 4294967296 := toUInt32_lt _
        have hsum : toInt64 ((slot_return exec i p1 : Int)
            + (slot_resample clock exec i p1 : Int))
            = (slot_return exec i p1 : Int) + (slot_resample clock exec i p1 : Int) := by
          unfold TimeInRange INT64_MAX at hclk
          unfold slot_resample
          exact toInt64_of_range _ (by omega) (by omega)
        rw [hsum]
        omega
      · rw [he]
        dsimp only
        have := catch_up_some_gt _ _ _ _ _ hc
        rw [slot_now_eq clock exec i p1 hclock] at this
        exact this
      · exfalso
        apply hocc
        rw [hqe, he]
        rfl
  refine ⟨p1, hreach, hdue, hgt, ?_⟩
  have hd := hdue.2
  rw [hp1] at hd
  omega

/-- A worked instance of C16: task 7 bound in slots 0 and 1, both due, both asking to
be run again after 4 ticks. -/
theorem C16_never_rescheduled_into_the_past_witness :
    TasksKeepTable busy_exec ∧ TasksAdvanceReads busy_exec ∧ Monotone demo_clock ∧
    ClockInRange demo_clock ∧ RatesTyped twice_scheduled.scheduled_tasks ∧
    PeriodsPositive twice_scheduled.scheduled_tasks ∧
    ∃ r tr s', scheduler_core_process demo_clock busy_exec 18446744073709551617
        twice_scheduled = some (r, tr, s') ∧
      ∀ i, i ∈ tr → s'.scheduled_tasks.occupied i →
        (twice_scheduled.scheduled_tasks.get i).next_execution_time
          ≤ (s'.scheduled_tasks.get i).next_execution_time :=
  ⟨busy_exec_keeps_table, busy_exec_advances_reads, demo_clock_monotone,
   demo_clock_in_range, by decide, by decide,
   (C16_never_rescheduled_into_the_past demo_clock busy_exec 18446744073709551617
      twice_scheduled busy_exec_keeps_table busy_exec_advances_reads demo_clock_monotone
      demo_clock_in_range (by decide) (by decide) (by decide)).imp
    (fun _ h => h.imp (fun _ h => h.imp (fun _ h =>
      ⟨h.1, fun i hi ho => (h.2 i hi ho).elim (fun _ hp => hp.2.2.2)⟩)))⟩

/-! ## A wake time that the pass does not report -/

/-- Claim C19.  The state with slot 0 empty and a coroutine bound once in slot 1 is
reachable from `scheduler_init`; the coroutine is due and reaches `wait_ms(5)`, which
calls `schedule` in `SCHEDULE_MODE_MULTI_SCHEDULE` and returns 0.  The new binding lands
in slot 0, below the slot being scanned, and the pass returns `-1` although slot 0 is
occupied after the pass. -/
theorem C19_binding_behind_cursor_is_not_reported :
    Reachable demo_clock (sleeping_exec demo_clock) (fun _ _ => True) co_gap_machine ∧
    ¬ co_gap_machine.scheduled_tasks.occupied 0 ∧
    (co_gap_machine.scheduled_tasks.get 1).order
      = { execute := 2, rate := 0, mode := SCHEDULE_MODE_ONCE, context := 0 } ∧
    slot_call (sleeping_exec demo_clock) 1
        (pass_start demo_clock co_gap_machine)
      = wait_ms_suspend demo_clock 2 0 30 5 (pass_start demo_clock co_gap_machine).sys ∧
    ∃ tr s', scheduler_core_process demo_clock (sleeping_exec demo_clock) 100
        co_gap_machine = some (-1, tr, s') ∧
      s'.scheduled_tasks.occupied 0 ∧
      (s'.scheduled_tasks.get 0).order
        = { execute := 2, rate := 5, mode := SCHEDULE_MODE_MULTI_SCHEDULE,
            context := 0 } ∧
      (s'.scheduled_tasks.get 0).next_execution_time = 1008 :=
  ⟨Reachable.cancel _ 1
     (Reachable.schedule _ 2 SCHEDULE_MODE_ONCE 0 0
       (Reachable.schedule _ 1 SCHEDULE_MODE_ONCE 0 0
         (Reachable.init Machine.co_boot) trivial) trivial),
   by decide, by decide, rfl, _, _, rfl, by decide, by decide, by decide⟩

/-! ## The timed suspension `wait_ms` -/

/-- Claim C14 fails on the code of `wait_ms`.  A coroutine bound once in slot 0 reaches
`wait_ms(5)`: the value returned to the scheduler is 0, not 5; slot 0 is not retained
but zeroed; and the task is bound anew in slot 1, in `SCHEDULE_MODE_MULTI_SCHEDULE`. -/
theorem C14_wait_ms_returns_zero_counterexample :
    slot_due 0 (pass_start demo_clock co_single_machine) ∧
    (co_single_machine.scheduled_tasks.get 0).order.mode = SCHEDULE_MODE_ONCE ∧
    slot_call (sleeping_exec demo_clock) 0 (pass_start demo_clock co_single_machine)
      = wait_ms_suspend demo_clock 2 0 30 5
          (pass_start demo_clock co_single_machine).sys ∧
    slot_return (sleeping_exec demo_clock) 0 (pass_start demo_clock co_single_machine)
      = 0 ∧
    ∃ r tr s', scheduler_core_process demo_clock (sleeping_exec demo_clock) 100
        co_single_machine = some (r, tr, s') ∧
      s'.scheduled_tasks.get 0 = zero_entry ∧
      (s'.scheduled_tasks.get 1).order
        = { execute := 2, rate := 5, mode := SCHEDULE_MODE_MULTI_SCHEDULE,
            context := 0 } :=
  ⟨by decide, by decide, rfl, by decide, _, _, _, rfl, by decide, by decide⟩

theorem bind_task_mem {σ : Type} (clock : Nat → Nat) (i : Nat) (o : TaskOrder_t)
    (s : Machine σ) : (bind_task clock i o s).2.mem = s.mem := rfl

/-- Claim C14, amended.  Let the scan reach slot `i`, due, bound in `SCHEDULE_MODE_ONCE`
or `SCHEDULE_MODE_MULTI_SCHEDULE` to a coroutine that starts at its beginning and
reaches `wait_ms(ms)`, and let `j` be the lowest empty slot.  Then the task returns 0 to
the scheduler; the dispatch of the slot returns, records the resume point, leaves slot
`j` bound to the task in `SCHEDULE_MODE_MULTI_SCHEDULE` with rate `ms` and both
timestamps `now + ms` (`now` the clock value read by that registration), zeroes slot
`i` and leaves the other slots alone; and an invocation that finds the resume point set
continues right after the `wait_ms` statement. -/
theorem C14_wait_ms_registers_anew {τ : Type} (clock : Nat → Nat)
    (exec : TaskEnv (Statics τ)) (fuel : Nat) (i j : Nat) (p : Pass (Statics τ))
    (routine_name context : Nat) (line : Int) (ms : Nat)
    (before : Machine (Statics τ) → Machine (Statics τ))
    (after tail : Machine (Statics τ) → Nat × Machine (Statics τ))
    (hexec : ∀ c s, exec routine_name c s
      = coroutine_with_wait_ms clock routine_name context line ms before after tail s)
    (hbefore : ∀ s, (before s).scheduled_tasks = s.scheduled_tasks)
    (hline : line ≠ 0) (hclock : ClockInRange clock) (hms : ms < 4294967296)
    (hdue : slot_due i p)
    (hbound : (p.sys.scheduled_tasks.get i).order.execute = routine_name)
    (hmode : (p.sys.scheduled_tasks.get i).order.mode = SCHEDULE_MODE_ONCE ∨
      (p.sys.scheduled_tasks.get i).order.mode = SCHEDULE_MODE_MULTI_SCHEDULE)
    (hbegin : p.sys.mem.a = 0)
    (hi : i < SCHEDULER_SIZE) (hj : j < SCHEDULER_SIZE)
    (hfree : ¬ p.sys.scheduled_tasks.occupied j)
    (hlow : ∀ l, l < j → p.sys.scheduled_tasks.occupied l) :
    slot_return exec i p = 0 ∧
    (∃ q, process_slot clock exec fuel i p = some q ∧
      q.sys.mem.a = line ∧
      q.sys.scheduled_tasks.get j
        = { order := { execute := routine_name, rate := ms,
                       mode := SCHEDULE_MODE_MULTI_SCHEDULE, context := context },
            config := 0,
            current_execution_beginning :=
              (clock (before p.sys).clock_reads : Int) + (ms : Int),
            next_execution_time :=
              (clock (before p.sys).clock_reads : Int) + (ms : Int) } ∧
      q.sys.scheduled_tasks.get i = zero_entry ∧
      ∀ l, l ≠ i → l ≠ j →
        q.sys.scheduled_tasks.get l = p.sys.scheduled_tasks.get l) ∧
    (∀ c s, s.mem.a = line → exec routine_name c s = after s) := by
  have hij : j ≠ i := by
    intro h; rw [h] at hfree; exact hfree hdue.1
  have hfind : find_slot (before p.sys).scheduled_tasks 0 SCHEDULER_SIZE 0 = some j := by
    rw [hbefore, find_slot_eq_some_iff]
    refine ⟨Nat.zero_le _, by omega, ?_, fun l _ hl => hlow l hl⟩
    by_contra h
    exact hfree h
  have hrange : (clock (before p.sys).clock_reads : Int) + (ms : Int) ≤ INT64_MAX := by
    have := hclock (before p.sys).clock_reads
    unfold TimeInRange at this
    omega
  have hcall : slot_call exec i p =
      (0, (bind_task clock j
        { execute := routine_name, rate := ms, mode := SCHEDULE_MODE_MULTI_SCHEDULE,
          context := context }
        { before p.sys with mem := { (before p.sys).mem with a := line } }).2) := by
    unfold slot_call
    rw [hbound, hexec]
    unfold coroutine_with_wait_ms
    rw [if_pos hbegin]
    unfold wait_ms_suspend
    dsimp only
    exact congrArg (fun x => ((0 : Nat), x.2))
      (schedule_fresh clock routine_name SCHEDULE_MODE_MULTI_SCHEDULE ms context
        { before p.sys with mem := { (before p.sys).mem with a := line } } j
        (Or.inl rfl) hfind)
  have hret : slot_return exec i p = 0 := by
    unfold slot_return; rw [hcall]; rfl
  have htab : (slot_call exec i p).2.scheduled_tasks =
      p.sys.scheduled_tasks.set j
        { order := { execute := routine_name, rate := ms,
                     mode := SCHEDULE_MODE_MULTI_SCHEDULE, context := context },
          config := 0,
          current_execution_beginning :=
            (clock (before p.sys).clock_reads : Int) + (ms : Int),
          next_execution_time :=
            (clock (before p.sys).clock_reads : Int) + (ms : Int) } := by
    rw [hcall]
    dsimp only
    rw [bind_task_table]
    dsimp only
    rw [bind_time_of_range _ _ hrange, hbefore]
  have hre : slot_reread exec i p = p.sys.scheduled_tasks.get i := by
    unfold slot_reread
    rw [htab, Table.get_set_ne _ _ _ _ hij]
  have hm : (slot_reread exec i p).order.mode ≠ SCHEDULE_MODE_FIXED_RATE := by
    rw [hre]
    rcases hmode with h | h <;> rw [h] <;> decide
  refine ⟨hret, ?_, ?_⟩
  · refine ⟨_, by rw [process_slot_due_eq clock exec fuel i p hdue, if_pos hret,
      if_neg hm], ?_, ?_, ?_, ?_⟩
    · show (slot_call exec i p).2.mem.a = line
      rw [hcall]
      rfl
    · show (((slot_call exec i p).2.scheduled_tasks).set i zero_entry).get j = _
      rw [Table.get_set_ne _ _ _ _ (Ne.symm hij), htab, Table.get_set_eq _ _ _ hj]
    · show (((slot_call exec i p).2.scheduled_tasks).set i zero_entry).get i = _
      exact Table.get_set_eq _ _ _ hi
    · intro l hli hlj
      show (((slot_call exec i p).2.scheduled_tasks).set i zero_entry).get l = _
      rw [Table.get_set_ne _ _ _ _ (Ne.symm hli), htab,
        Table.get_set_ne _ _ _ _ (Ne.symm hlj)]
  · intro c s ha
    rw [hexec]
    unfold coroutine_with_wait_ms
    rw [if_neg (by rw [ha]; exact hline), if_pos ha]

/-- A worked instance of the amended C14: the coroutine bound once in slot 0 reaches
`wait_ms(5)` at clock value 1002; slot 1 is bound for time 1007 and slot 0 is zeroed. -/
theorem C14_wait_ms_registers_anew_witness :
    ClockInRange demo_clock ∧
    slot_due 0 (pass_start demo_clock co_single_machine) ∧
    ¬ (pass_start demo_clock co_single_machine).sys.scheduled_tasks.occupied 1 ∧
    slot_return (sleeping_exec demo_clock) 0 (pass_start demo_clock co_single_machine)
      = 0 ∧
    ∃ q, process_slot demo_clock (sleeping_exec demo_clock) 100 0
        (pass_start demo_clock co_single_machine) = some q ∧
      q.sys.mem.a = 30 ∧
      (q.sys.scheduled_tasks.get 1).next_execution_time = 1007 ∧
      q.sys.scheduled_tasks.get 0 = zero_entry :=
  ⟨demo_clock_in_range, by decide, by decide,
   (C14_wait_ms_registers_anew demo_clock (sleeping_exec demo_clock) 100 0 1
      (pass_start demo_clock co_single_machine) 2 0 30 5 (fun s => s)
      (fun s => (0, end_coroutine s)) (fun s => (0, s))
      (fun _ _ => rfl) (fun _ => rfl) (by decide) demo_clock_in_range (by decide)
      (by decide) (by decide) (Or.inl (by decide)) rfl (by decide) (by decide)
      (by decide) (by decide)).1,
   (C14_wait_ms_registers_anew demo_clock (sleeping_exec demo_clock) 100 0 1
      (pass_start demo_clock co_single_machine) 2 0 30 5 (fun s => s)
      (fun s => (0, end_coroutine s)) (fun s => (0, s))
      (fun _ _ => rfl) (fun _ => rfl) (by decide) demo_clock_in_range (by decide)
      (by decide) (by decide) (Or.inl (by decide)) rfl (by decide) (by decide)
      (by decide) (by decide)).2.1.imp
    (fun _ h => ⟨h.1, h.2.1, by rw [h.2.2.1]; decide, h.2.2.2.1⟩)⟩


/-! ## Passes in which one task changes the table -/

/-- The scan up to slot `i`, when the tasks of the slots below `i` keep the table: the
slots from `i` on are as they were, every slot keeps its order or is zeroed, and a
property `J` preserved by those iterations is carried along. -/
theorem reach_kept {σ : Type} (clock : Nat → Nat) (exec : TaskEnv σ) (fuel : Nat)
    (hclock : ClockInRange clock) (hfuel : 18446744073709551616 < fuel)
    (Good : Nat → Prop)
    (hgood : ∀ task, Good task → ∀ context s,
      (exec task context s).2.scheduled_tasks = s.scheduled_tasks)
    (J : Pass σ → Prop)
    (hJ : ∀ j p1 q1, J p1 → process_slot clock exec fuel j p1 = some q1 →
      (slot_due j p1 → Good (p1.sys.scheduled_tasks.get j).order.execute) → J q1)
    (i : Nat) (p0 p : Pass σ) (hi : i ≤ SCHEDULER_SIZE)
    (hslots : ∀ l, l < i → p0.sys.scheduled_tasks.occupied l →
      Good (p0.sys.scheduled_tasks.get l).order.execute ∧
      (p0.sys.scheduled_tasks.get l).order.rate < 4294967296 ∧
      ((p0.sys.scheduled_tasks.get l).order.mode = SCHEDULE_MODE_FIXED_RATE →
        0 < (p0.sys.scheduled_tasks.get l).order.rate))
    (h0 : J p0)
    (hreach : core_loop clock exec fuel i 0 p0 = some p) :
    (∀ l, i ≤ l → p.sys.scheduled_tasks.get l = p0.sys.scheduled_tasks.get l) ∧
    (∀ l, (p.sys.scheduled_tasks.get l).order = (p0.sys.scheduled_tasks.get l).order ∨
      p.sys.scheduled_tasks.get l = zero_entry) ∧
    J p := by
  obtain ⟨q, hq, h1, h2, h3⟩ := core_loop_kept clock exec fuel hclock hfuel Good hgood
    J hJ i 0 p0 (by omega) (fun l _ hl ho => hslots l (by omega) ho) h0
  rw [hreach] at hq
  have e : p = q := Option.some.inj hq
  subst e
  exact ⟨fun l hl => h1 l (Or.inr (by omega)), h2, h3⟩

/-- A pass put together from the scan up to slot `i`, the iteration for slot `i` and
the scan of the slots after it. -/
theorem pass_glue {σ : Type} (clock : Nat → Nat) (exec : TaskEnv σ) (fuel : Nat)
    (i : Nat) (p0 p q1 qf : Pass σ) (hi : i < SCHEDULER_SIZE)
    (hreach : core_loop clock exec fuel i 0 p0 = some p)
    (hstep : process_slot clock exec fuel i p = some q1)
    (hrest : core_loop clock exec fuel (SCHEDULER_SIZE - (i + 1)) (i + 1) q1 = some qf) :
    core_loop clock exec fuel SCHEDULER_SIZE 0 p0 = some qf := by
  have hsplit : core_loop clock exec fuel SCHEDULER_SIZE 0 p0
      = core_loop clock exec fuel (i + ((SCHEDULER_SIZE - (i + 1)) + 1)) 0 p0 := by
    congr 1
    omega
  rw [hsplit, core_loop_add, hreach]
  simp only [core_loop, Nat.zero_add, hstep]
  exact hrest


/-! ## A task that registers itself again in its own slot -/

/-- Claim C20.  Let task `T` be bound in exactly one slot `i` (in `SCHEDULE_MODE_ONCE`,
or in any other mode), and let its invocation end with
`schedule(T, SCHEDULE_MODE_ONCE, r, ctx)` and `return 0`, while the other tasks leave
the slot table alone.  When the scan reaches slot `i` and finds it due, the call of
`schedule` returns `i`, the iteration zeroes slot `i`, the pass returns with slot `i`
among the invoked ones, and after the pass no slot is bound to `T`. -/
theorem C20_rebind_in_own_slot_is_lost {σ : Type} (clock : Nat → Nat)
    (exec : TaskEnv σ) (fuel : Nat) (s : Machine σ) (i : Nat) (p : Pass σ)
    (T r ctx : Nat) (body : Machine σ → Machine σ)
    (hclock : ClockInRange clock) (hfuel : 18446744073709551616 < fuel)
    (htyped : RatesTyped s.scheduled_tasks) (hper : PeriodsPositive s.scheduled_tasks)
    (hT : ∀ c s1, exec T c s1
      = (0, (schedule clock T SCHEDULE_MODE_ONCE r ctx (body s1)).2))
    (hbody : ∀ s1, (body s1).scheduled_tasks = s1.scheduled_tasks)
    (hothers : ∀ task, task ≠ T → ∀ c s1,
      (exec task c s1).2.scheduled_tasks = s1.scheduled_tasks)
    (hi : i < SCHEDULER_SIZE) (hbound : s.scheduled_tasks.bound T i)
    (honly : ∀ l, s.scheduled_tasks.bound T l → l = i)
    (hreach : core_loop clock exec fuel i 0 (pass_start clock s) = some p)
    (hdue : slot_due i p) :
    (schedule clock T SCHEDULE_MODE_ONCE r ctx (body p.sys)).1 = (i : Int) ∧
    ∃ q, process_slot clock exec fuel i p = some q ∧
      q.sys.scheduled_tasks.get i = zero_entry ∧
      ∃ ret tr s', scheduler_core_process clock exec fuel s = some (ret, tr, s') ∧
        i ∈ tr ∧ ∀ l, ¬ s'.scheduled_tasks.bound T l := by
  obtain ⟨hsame, hord, _⟩ := reach_kept clock exec fuel hclock hfuel (fun t => t ≠ T)
    hothers (fun _ => True) (fun _ _ _ _ _ _ => trivial) i (pass_start clock s) p
    (by omega)
    (fun l hl ho => ⟨fun h => by have := honly l h; omega, htyped l (by omega) ho,
      hper l (by omega) ho⟩)
    trivial hreach
  have hstart : ∀ l, (pass_start clock s).sys.scheduled_tasks.get l
      = s.scheduled_tasks.get l := fun _ => rfl
  have hpi : p.sys.scheduled_tasks.get i = s.scheduled_tasks.get i := by
    rw [hsame i (le_refl _), hstart]
  have hTi : (p.sys.scheduled_tasks.get i).order.execute = T := by
    rw [hpi]; exact hbound
  have hT0 : T ≠ 0 := by
    rw [← hTi]; exact hdue.1
  have hnotT : ∀ l, l ≠ i → (p.sys.scheduled_tasks.get l).order.execute ≠ T := by
    intro l hl h
    rcases hord l with h' | h'
    · rw [h', hstart] at h
      exact hl (honly l h)
    · rw [h'] at h
      exact hT0 h.symm
  have hfind : find_slot (body p.sys).scheduled_tasks T SCHEDULER_SIZE 0 = some i := by
    rw [hbody, find_slot_eq_some_iff]
    exact ⟨Nat.zero_le _, by omega, hTi, fun l _ hl => hnotT l (by omega)⟩
  have hsched := schedule_rebind clock T SCHEDULE_MODE_ONCE r ctx (body p.sys) i
    (by decide) hfind
  have hcall : slot_call exec i p =
      (0, (bind_task clock i
        { execute := T, rate := r, mode := SCHEDULE_MODE_ONCE, context := ctx }
        (body p.sys)).2) := by
    unfold slot_call
    rw [hTi, hT, hsched]
  have hret : slot_return exec i p = 0 := by
    unfold slot_return; rw [hcall]; rfl
  have hm : (slot_reread exec i p).order.mode ≠ SCHEDULE_MODE_FIXED_RATE := by
    unfold slot_reread
    rw [hcall]
    dsimp only
    rw [bind_task_table, Table.get_set_eq _ _ _ hi]
    exact fun h => TaskExecutionModeEnum_t.noConfusion h
  have hkeep : ∀ l, l ≠ i → (slot_call exec i p).2.scheduled_tasks.get l
      = p.sys.scheduled_tasks.get l := by
    intro l hl
    rw [hcall]
    dsimp only
    rw [bind_task_table, Table.get_set_ne _ _ _ _ (Ne.symm hl), hbody]
  obtain ⟨q1, hstep⟩ : ∃ q1, process_slot clock exec fuel i p = some q1 :=
    ⟨_, by rw [process_slot_due_eq clock exec fuel i p hdue, if_pos hret, if_neg hm]⟩
  have hq1 : q1.sys.scheduled_tasks
      = (slot_call exec i p).2.scheduled_tasks.set i zero_entry := by
    rcases process_slot_facts clock exec fuel i p q1 hstep with
      ⟨hnd, _⟩ | ⟨_, _, _, _, _, _, e, htab, hcases⟩
    · exact absurd hdue hnd
    · rcases hcases with ⟨hnz, _⟩ | ⟨_, hfix, _⟩ | ⟨_, _, he⟩
      · exact absurd hret hnz
      · exact absurd hfix hm
      · rw [htab, he]
  have hq1i : q1.sys.scheduled_tasks.get i = zero_entry := by
    rw [hq1, Table.get_set_eq _ _ _ hi]
  have hq1l : ∀ l, l ≠ i → q1.sys.scheduled_tasks.get l = p.sys.scheduled_tasks.get l := by
    intro l hl
    rw [hq1, Table.get_set_ne _ _ _ _ (Ne.symm hl), hkeep l hl]
  have hq1s : ∀ l, i + 1 ≤ l → q1.sys.scheduled_tasks.get l = s.scheduled_tasks.get l := by
    intro l hl
    rw [hq1l l (by omega), hsame l (by omega), hstart]
  obtain ⟨qf, hrest, _, hf2, _⟩ := core_loop_kept clock exec fuel hclock hfuel
    (fun t => t ≠ T) hothers (fun _ => True) (fun _ _ _ _ _ _ => trivial)
    (SCHEDULER_SIZE - (i + 1)) (i + 1) q1 (by omega)
    (by
      intro l hl1 hl2 ho
      unfold Table.occupied at ho
      rw [hq1s l hl1] at ho ⊢
      exact ⟨fun h => by have := honly l h; omega, htyped l (by omega) ho,
        hper l (by omega) ho⟩)
    trivial
  have hloop := pass_glue clock exec fuel i (pass_start clock s) p q1 qf hi hreach
    hstep hrest
  refine ⟨by rw [hsched], q1, hstep, hq1i, _, _, _,
    core_process_of_loop clock exec fuel s qf hloop, ?_, ?_⟩
  · exact (invoked_iff_due clock exec fuel _ p q1 qf i rfl hreach hstep hrest).1.2 hdue
  · intro l h
    unfold Table.bound at h
    rcases hf2 l with h' | h'
    · rw [h'] at h
      by_cases hl : l = i
      · rw [hl, hq1i] at h
        exact hT0 h.symm
      · rw [hq1l l hl] at h
        exact hnotT l hl h
    · rw [h'] at h
      exact hT0 h.symm

/-- A worked instance of C20: task 3, bound once in slot 0, registers itself anew while
it runs and returns 0; the call returns 0, the slot index, and after the pass the table
is empty of task 3. -/
theorem C20_rebind_in_own_slot_is_lost_witness :
    ClockInRange demo_clock ∧ RatesTyped single_machine.scheduled_tasks ∧
    PeriodsPositive single_machine.scheduled_tasks ∧
    single_machine.scheduled_tasks.bound 3 0 ∧
    slot_due 0 (pass_start demo_clock single_machine) ∧
    (schedule demo_clock 3 SCHEDULE_MODE_ONCE 9 42
      (pass_start demo_clock single_machine).sys).1 = ((0 : Nat) : Int) ∧
    ∃ q, process_slot demo_clock (rearming_exec demo_clock) 18446744073709551617 0
        (pass_start demo_clock single_machine) = some q ∧
      q.sys.scheduled_tasks.get 0 = zero_entry ∧
      ∃ ret tr s', scheduler_core_process demo_clock (rearming_exec demo_clock)
          18446744073709551617 single_machine = some (ret, tr, s') ∧
        0 ∈ tr ∧ ∀ l, ¬ s'.scheduled_tasks.bound 3 l :=
  ⟨demo_clock_in_range, by decide, by decide, by decide, by decide,
   C20_rebind_in_own_slot_is_lost demo_clock (rearming_exec demo_clock)
     18446744073709551617 single_machine 0 (pass_start demo_clock single_machine)
     3 9 42 (fun s1 => s1) demo_clock_in_range (by decide) (by decide) (by decide)
     (fun _ _ => rfl) (fun _ => rfl)
     (fun task ht c s1 => by unfold rearming_exec; rw [if_neg ht])
     (by decide) (by decide)
     (fun l h => by
       by_contra hl
       have h16 : l < 16 ∨ 16 ≤ l := by omega
       rcases h16 with h1 | h1
       · have : ∀ k, k < 16 → single_machine.scheduled_tasks.bound 3 k → k = 0 := by
           decide
         exact hl (this l h1 h)
       · unfold Table.bound at h
         rw [Table.get_of_le _ _ h1] at h
         exact absurd h (by decide))
     rfl (by decide)⟩


/-! ## The suspension `wait` and the semaphore callback -/

/-- While a coroutine `T` is suspended and the other tasks leave alone the slot table,
the resume point and the semaphore value of `T` and do not turn back the count of clock
readings: an iteration that does not invoke `T` keeps the resume point and the
semaphore value, and `now` stays a reading made no earlier than reading `base`. -/
theorem others_step_keeps {τ : Type} (clock : Nat → Nat) (exec : TaskEnv (Statics τ))
    (fuel : Nat) (T : Nat) (hclock : ClockInRange clock)
    (hothers : ∀ task, task ≠ T → ∀ c s,
      (exec task c s).2.scheduled_tasks = s.scheduled_tasks ∧
      (exec task c s).2.mem.a = s.mem.a ∧
      (exec task c s).2.mem.semaphore_value = s.mem.semaphore_value ∧
      s.clock_reads ≤ (exec task c s).2.clock_reads)
    (line V : Int) (base : Nat) (j : Nat) (p1 q1 : Pass (Statics τ))
    (hJ : p1.sys.mem.a = line ∧ p1.sys.mem.semaphore_value = V ∧
      base ≤ p1.sys.clock_reads ∧ ∃ n, base ≤ n ∧ p1.now = (clock n : Int))
    (hs : process_slot clock exec fuel j p1 = some q1)
    (hg : slot_due j p1 → (p1.sys.scheduled_tasks.get j).order.execute ≠ T) :
    q1.sys.mem.a = line ∧ q1.sys.mem.semaphore_value = V ∧
      base ≤ q1.sys.clock_reads ∧ ∃ n, base ≤ n ∧ q1.now = (clock n : Int) := by
  obtain ⟨ha, hv, hb, n, hn, hnow⟩ := hJ
  rcases process_slot_facts clock exec fuel j p1 q1 hs with
    ⟨_, hsys, hnow1, _⟩ | ⟨hdue, hnow1, _, hmem, _, hreads, _⟩
  · rw [hsys, hnow1]
    exact ⟨ha, hv, hb, n, hn, hnow⟩
  · obtain ⟨_, h2, h3, h4⟩ := hothers _ (hg hdue)
      (p1.sys.scheduled_tasks.get j).order.context p1.sys
    have h2' : (slot_call exec j p1).2.mem.a = p1.sys.mem.a := h2
    have h3' : (slot_call exec j p1).2.mem.semaphore_value
        = p1.sys.mem.semaphore_value := h3
    have h4' : p1.sys.clock_reads ≤ (slot_call exec j p1).2.clock_reads := h4
    refine ⟨by rw [hmem, h2', ha], by rw [hmem, h3', hv], by rw [hreads]; omega,
      (slot_call exec j p1).2.clock_reads, by omega, ?_⟩
    rw [hnow1, slot_now_eq clock exec j p1 hclock]
    rfl


/-- The semaphore callback and the pass after it.  In a state where the coroutine `T`
is suspended at its `wait`, no slot is bound to `T` and slot `i` is empty: after the
callback has been called with value `V`, the next pass reaches a slot bound to `T` and
finds it due, and the call it makes there continues after the `wait` statement, with
the semaphore cleared and its value `V`. -/
theorem resumed_after_callback {τ : Type} (clock : Nat → Nat)
    (exec : TaskEnv (Statics τ)) (fuel : Nat) (T context : Nat) (line V : Int)
    (before : Machine (Statics τ) → Machine (Statics τ))
    (after tail : Machine (Statics τ) → Nat × Machine (Statics τ))
    (s1 : Machine (Statics τ)) (i : Nat)
    (hclock : ClockInRange clock) (hmono : Monotone clock)
    (hfuel : 18446744073709551616 < fuel)
    (hT : ∀ c s, exec T c s = coroutine_with_wait line before after tail s)
    (hothers : ∀ task, task ≠ T → ∀ c s,
      (exec task c s).2.scheduled_tasks = s.scheduled_tasks ∧
      (exec task c s).2.mem.a = s.mem.a ∧
      (exec task c s).2.mem.semaphore_value = s.mem.semaphore_value ∧
      s.clock_reads ≤ (exec task c s).2.clock_reads)
    (hline : line ≠ 0) (hT0 : T ≠ 0) (hi : i < SCHEDULER_SIZE)
    (hfree : s1.scheduled_tasks.get i = zero_entry)
    (ha : s1.mem.a = line)
    (hs1 : ∀ l, s1.scheduled_tasks.occupied l →
      (s1.scheduled_tasks.get l).order.execute ≠ T ∧
      (s1.scheduled_tasks.get l).order.rate < 4294967296 ∧
      ((s1.scheduled_tasks.get l).order.mode = SCHEDULE_MODE_FIXED_RATE →
        0 < (s1.scheduled_tasks.get l).order.rate)) :
    ∃ j p2, j < SCHEDULER_SIZE ∧
      core_loop clock exec fuel j 0
        (pass_start clock (semaphore_setter_callback clock T context V s1).2) = some p2 ∧
      slot_due j p2 ∧ p2.sys.scheduled_tasks.bound T j ∧
      slot_call exec j p2 = after (wait_resume p2.sys) ∧
      (wait_resume p2.sys).mem.semaphore = 0 ∧
      (wait_resume p2.sys).mem.semaphore_value = V := by
  -- the callback binds the lowest empty slot
  obtain ⟨j, hfind⟩ : ∃ j, find_slot s1.scheduled_tasks 0 SCHEDULER_SIZE 0 = some j := by
    cases h : find_slot s1.scheduled_tasks 0 SCHEDULER_SIZE 0 with
    | some j => exact ⟨j, rfl⟩
    | none =>
      have := (find_slot_eq_none_iff _ _ _ _).1 h i (Nat.zero_le _) (by omega)
      rw [hfree] at this
      exact absurd rfl this
  obtain ⟨_, hj, hj0, hlow⟩ := (find_slot_eq_some_iff _ _ _ _ _).1 hfind
  have hj : j < SCHEDULER_SIZE := by omega
  have hcb : (semaphore_setter_callback clock T context V s1).2 =
      (bind_task clock j
        { execute := T, rate := 0, mode := SCHEDULE_MODE_MULTI_SCHEDULE,
          context := context }
        { s1 with mem := { s1.mem with semaphore := 1, semaphore_value := V } }).2 := by
    unfold semaphore_setter_callback
    exact congrArg (fun x => x.2)
      (schedule_fresh clock T SCHEDULE_MODE_MULTI_SCHEDULE 0 context
        { s1 with mem := { s1.mem with semaphore := 1, semaphore_value := V } } j
        (Or.inl rfl) hfind)
  have hrange : (clock s1.clock_reads : Int) + ((0 : Nat) : Int) ≤ INT64_MAX := by
    have := hclock s1.clock_reads
    unfold TimeInRange at this
    omega
  have htab : (semaphore_setter_callback clock T context V s1).2.scheduled_tasks =
      s1.scheduled_tasks.set j
        { order := { execute := T, rate := 0, mode := SCHEDULE_MODE_MULTI_SCHEDULE,
                     context := context },
          config := 0,
          current_execution_beginning := (clock s1.clock_reads : Int) + ((0 : Nat) : Int),
          next_execution_time := (clock s1.clock_reads : Int) + ((0 : Nat) : Int) } := by
    rw [hcb, bind_task_table]
    dsimp only
    rw [bind_time_of_range _ _ hrange]
  have hreads : (semaphore_setter_callback clock T context V s1).2.clock_reads
      = s1.clock_reads + 1 := by
    rw [hcb]; rfl
  have hmem : (semaphore_setter_callback clock T context V s1).2.mem.a = line ∧
      (semaphore_setter_callback clock T context V s1).2.mem.semaphore_value = V := by
    rw [hcb]
    exact ⟨ha, rfl⟩
  -- the scan of the next pass up to slot `j`
  obtain ⟨p2, hp2, hsame, _, hJa, hJv, _, n, hn, hnow⟩ :=
    core_loop_kept clock exec fuel hclock hfuel
    (fun t => t ≠ T) (fun task ht c s => (hothers task ht c s).1)
    (fun p => p.sys.mem.a = line ∧ p.sys.mem.semaphore_value = V ∧
      s1.clock_reads + 1 ≤ p.sys.clock_reads ∧
      ∃ n, s1.clock_reads + 1 ≤ n ∧ p.now = (clock n : Int))
    (fun k p1 q1 hJ hs hg =>
      others_step_keeps clock exec fuel T hclock hothers line V _ k p1 q1 hJ hs hg)
    j 0 (pass_start clock (semaphore_setter_callback clock T context V s1).2) (by omega)
    (by
      intro l _ hl ho
      have e : (pass_start clock
          (semaphore_setter_callback clock T context V s1).2).sys.scheduled_tasks.get l
          = s1.scheduled_tasks.get l := by
        rw [pass_start_table, htab, Table.get_set_ne _ _ _ _ (by omega)]
      unfold Table.occupied at ho
      rw [e] at ho ⊢
      exact hs1 l ho)
    ⟨hmem.1, hmem.2,
      by
        show s1.clock_reads + 1
          ≤ (semaphore_setter_callback clock T context V s1).2.clock_reads + 1
        omega,
      (semaphore_setter_callback clock T context V s1).2.clock_reads, by omega,
      now_of_clock _ (hclock _)⟩
  have hpj : p2.sys.scheduled_tasks.get j =
      { order := { execute := T, rate := 0, mode := SCHEDULE_MODE_MULTI_SCHEDULE,
                   context := context },
        config := 0,
        current_execution_beginning := (clock s1.clock_reads : Int) + ((0 : Nat) : Int),
        next_execution_time := (clock s1.clock_reads : Int) + ((0 : Nat) : Int) } := by
    rw [hsame j (Or.inr (by omega)), pass_start_table, htab, Table.get_set_eq _ _ _ hj]
  have hdue : slot_due j p2 := by
    refine ⟨?_, ?_⟩
    · unfold Table.occupied
      rw [hpj]
      exact hT0
    · rw [hpj, hnow]
      have := hmono (show s1.clock_reads ≤ n by omega)
      dsimp only
      omega
  refine ⟨j, p2, hj, hp2, hdue, ?_, ?_, rfl, hJv⟩
  · unfold Table.bound
    rw [hpj]
  · unfold slot_call
    rw [hpj]
    dsimp only
    rw [hT]
    unfold coroutine_with_wait
    rw [if_neg (by rw [hJa]; exact hline), if_pos hJa]


/-- Claim C13.  Let the coroutine `T` be bound in exactly one slot `i`, in
`SCHEDULE_MODE_ONCE` or `SCHEDULE_MODE_MULTI_SCHEDULE`, while the other tasks leave
alone the slot table, the resume point and the semaphore value of `T`, and the clock
does not run backwards.  When the scan reaches slot `i`, finds it due and the invocation
runs from the beginning of the routine to `wait`, the task returns 0, the pass returns,
and after it no slot is bound to `T`.  If the semaphore callback is then called with a
value `V`, the next pass reaches a slot bound to `T`, finds it due, and the call made
there continues at the statement after the `wait`, with the ready flag 0 and the
semaphore value `V`. -/
theorem C13_wait_suspends_until_callback {τ : Type} (clock : Nat → Nat)
    (exec : TaskEnv (Statics τ)) (fuel : Nat) (T context : Nat) (line : Int)
    (before : Machine (Statics τ) → Machine (Statics τ))
    (after tail : Machine (Statics τ) → Nat × Machine (Statics τ))
    (s0 : Machine (Statics τ)) (i : Nat) (p1 : Pass (Statics τ))
    (hclock : ClockInRange clock) (hmono : Monotone clock)
    (hfuel : 18446744073709551616 < fuel)
    (htyped : RatesTyped s0.scheduled_tasks) (hper : PeriodsPositive s0.scheduled_tasks)
    (hT : ∀ c s, exec T c s = coroutine_with_wait line before after tail s)
    (hbefore : ∀ s, (before s).scheduled_tasks = s.scheduled_tasks)
    (hothers : ∀ task, task ≠ T → ∀ c s,
      (exec task c s).2.scheduled_tasks = s.scheduled_tasks ∧
      (exec task c s).2.mem.a = s.mem.a ∧
      (exec task c s).2.mem.semaphore_value = s.mem.semaphore_value ∧
      s.clock_reads ≤ (exec task c s).2.clock_reads)
    (hline : line ≠ 0) (hi : i < SCHEDULER_SIZE)
    (hbound : s0.scheduled_tasks.bound T i)
    (honly : ∀ l, s0.scheduled_tasks.bound T l → l = i)
    (hmode : (s0.scheduled_tasks.get i).order.mode = SCHEDULE_MODE_ONCE ∨
      (s0.scheduled_tasks.get i).order.mode = SCHEDULE_MODE_MULTI_SCHEDULE)
    (hreach : core_loop clock exec fuel i 0 (pass_start clock s0) = some p1)
    (hdue : slot_due i p1) (hbegin : p1.sys.mem.a = 0) :
    slot_call exec i p1 = wait_suspend line (before p1.sys) ∧
    slot_return exec i p1 = 0 ∧
    ∃ r1 tr1 s1, scheduler_core_process clock exec fuel s0 = some (r1, tr1, s1) ∧
      i ∈ tr1 ∧ (∀ l, ¬ s1.scheduled_tasks.bound T l) ∧
      ∀ V : Int, ∃ j p2, j < SCHEDULER_SIZE ∧
        core_loop clock exec fuel j 0
          (pass_start clock (semaphore_setter_callback clock T context V s1).2)
          = some p2 ∧
        slot_due j p2 ∧ p2.sys.scheduled_tasks.bound T j ∧
        slot_call exec j p2 = after (wait_resume p2.sys) ∧
        (wait_resume p2.sys).mem.semaphore = 0 ∧
        (wait_resume p2.sys).mem.semaphore_value = V := by
  obtain ⟨hsame, hord, _⟩ := reach_kept clock exec fuel hclock hfuel (fun t => t ≠ T)
    (fun task ht c s => (hothers task ht c s).1) (fun _ => True)
    (fun _ _ _ _ _ _ => trivial) i (pass_start clock s0) p1 (by omega)
    (fun l hl ho => ⟨fun h => by have := honly l h; omega, htyped l (by omega) ho,
      hper l (by omega) ho⟩)
    trivial hreach
  have hstart : ∀ l, (pass_start clock s0).sys.scheduled_tasks.get l
      = s0.scheduled_tasks.get l := fun _ => rfl
  have hpi : p1.sys.scheduled_tasks.get i = s0.scheduled_tasks.get i := by
    rw [hsame i (le_refl _), hstart]
  have hTi : (p1.sys.scheduled_tasks.get i).order.execute = T := by
    rw [hpi]; exact hbound
  have hT0 : T ≠ 0 := by
    rw [← hTi]; exact hdue.1
  -- the invocation that reaches the `wait`
  have hcall : slot_call exec i p1 = wait_suspend line (before p1.sys) := by
    unfold slot_call
    rw [hTi, hT]
    unfold coroutine_with_wait
    rw [if_pos hbegin]
  have hret : slot_return exec i p1 = 0 := by
    unfold slot_return; rw [hcall]; rfl
  have hctab : (slot_call exec i p1).2.scheduled_tasks = p1.sys.scheduled_tasks := by
    rw [hcall]
    exact hbefore p1.sys
  have hm : (slot_reread exec i p1).order.mode ≠ SCHEDULE_MODE_FIXED_RATE := by
    unfold slot_reread
    rw [hctab, hpi]
    rcases hmode with h | h <;> rw [h] <;> exact fun h => TaskExecutionModeEnum_t.noConfusion h
  obtain ⟨q1, hstep⟩ : ∃ q1, process_slot clock exec fuel i p1 = some q1 :=
    ⟨_, by rw [process_slot_due_eq clock exec fuel i p1 hdue, if_pos hret, if_neg hm]⟩
  have hq1 : q1.sys.scheduled_tasks = p1.sys.scheduled_tasks.set i zero_entry ∧
      q1.sys.mem.a = line := by
    rcases process_slot_facts clock exec fuel i p1 q1 hstep with
      ⟨hnd, _⟩ | ⟨_, _, _, hmem, _, _, e, htab, hcases⟩
    · exact absurd hdue hnd
    · rcases hcases with ⟨hnz, _⟩ | ⟨_, hfix, _⟩ | ⟨_, _, he⟩
      · exact absurd hret hnz
      · exact absurd hfix hm
      · refine ⟨by rw [htab, he, hctab], ?_⟩
        rw [hmem, hcall]
        rfl
  have hq1i : q1.sys.scheduled_tasks.get i = zero_entry := by
    rw [hq1.1, Table.get_set_eq _ _ _ hi]
  have hq1l : ∀ l, l ≠ i →
      q1.sys.scheduled_tasks.get l = p1.sys.scheduled_tasks.get l := by
    intro l hl
    rw [hq1.1, Table.get_set_ne _ _ _ _ (Ne.symm hl)]
  have hq1s : ∀ l, i + 1 ≤ l →
      q1.sys.scheduled_tasks.get l = s0.scheduled_tasks.get l := by
    intro l hl
    rw [hq1l l (by omega), hsame l (by omega), hstart]
  -- the rest of the pass
  obtain ⟨qf, hrest, hf1, hf2, hfa⟩ := core_loop_kept clock exec fuel hclock hfuel
    (fun t => t ≠ T) (fun task ht c s => (hothers task ht c s).1)
    (fun p => p.sys.mem.a = line)
    (by
      intro k pa qa hJ hs hg
      rcases process_slot_facts clock exec fuel k pa qa hs with
        ⟨_, hsys, _⟩ | ⟨hd, _, _, hmem, _⟩
      · rw [hsys]; exact hJ
      · rw [hmem]
        exact ((hothers _ (hg hd) _ _).2.1).trans hJ)
    (SCHEDULER_SIZE - (i + 1)) (i + 1) q1 (by omega)
    (by
      intro l hl1 hl2 ho
      unfold Table.occupied at ho
      rw [hq1s l hl1] at ho ⊢
      exact ⟨fun h => by have := honly l h; omega, htyped l (by omega) ho,
        hper l (by omega) ho⟩)
    hq1.2
  have hloop := pass_glue clock exec fuel i (pass_start clock s0) p1 q1 qf hi hreach
    hstep hrest
  have hfi : qf.sys.scheduled_tasks.get i = zero_entry := by
    rw [hf1 i (Or.inl (by omega)), hq1i]
  -- every slot occupied after the pass holds an order it held before the pass
  have hfrom : ∀ l, qf.sys.scheduled_tasks.occupied l →
      l ≠ i ∧ l < SCHEDULER_SIZE ∧
      (qf.sys.scheduled_tasks.get l).order = (s0.scheduled_tasks.get l).order := by
    intro l ho
    unfold Table.occupied at ho
    have hli : l ≠ i := by
      intro h
      rw [h, hfi] at ho
      exact ho rfl
    have h1 : (qf.sys.scheduled_tasks.get l).order
        = (p1.sys.scheduled_tasks.get l).order := by
      rcases hf2 l with h | h
      · rw [h, hq1l l hli]
      · rw [h] at ho
        exact absurd rfl ho
    have h2 : (p1.sys.scheduled_tasks.get l).order
        = (s0.scheduled_tasks.get l).order := by
      rcases hord l with h | h
      · rw [h, hstart]
      · rw [h1, h] at ho
        exact absurd rfl ho
    refine ⟨hli, ?_, h1.trans h2⟩
    by_contra hge
    rw [h1, h2, Table.get_of_le _ _ (by omega)] at ho
    exact ho rfl
  have hs1 : ∀ l, qf.sys.scheduled_tasks.occupied l →
      (qf.sys.scheduled_tasks.get l).order.execute ≠ T ∧
      (qf.sys.scheduled_tasks.get l).order.rate < 4294967296 ∧
      ((qf.sys.scheduled_tasks.get l).order.mode = SCHEDULE_MODE_FIXED_RATE →
        0 < (qf.sys.scheduled_tasks.get l).order.rate) := by
    intro l ho
    obtain ⟨hli, hl16, he⟩ := hfrom l ho
    have ho0 : s0.scheduled_tasks.occupied l := by
      unfold Table.occupied at ho ⊢
      rw [← he]; exact ho
    rw [he]
    exact ⟨fun h => hli (honly l h), htyped l hl16 ho0, hper l hl16 ho0⟩
  refine ⟨hcall, hret, _, _, _, core_process_of_loop clock exec fuel s0 qf hloop,
    ?_, ?_, ?_⟩
  · exact (invoked_iff_due clock exec fuel _ p1 q1 qf i rfl hreach hstep hrest).1.2 hdue
  · intro l h
    by_cases ho : qf.sys.scheduled_tasks.occupied l
    · exact (hs1 l ho).1 h
    · unfold Table.occupied at ho
      unfold Table.bound at h
      rw [h] at ho
      exact ho hT0
  · intro V
    exact resumed_after_callback clock exec fuel T context line V before after tail
      qf.sys i hclock hmono hfuel hT hothers hline hT0 hi hfi hfa hs1


theorem waiting_exec_others (task : Nat) (ht : task ≠ 2) (c : Nat)
    (s : Machine (Statics Unit)) :
    (waiting_exec task c s).2.scheduled_tasks = s.scheduled_tasks ∧
    (waiting_exec task c s).2.mem.a = s.mem.a ∧
    (waiting_exec task c s).2.mem.semaphore_value = s.mem.semaphore_value ∧
    s.clock_reads ≤ (waiting_exec task c s).2.clock_reads := by
  unfold waiting_exec
  rw [if_neg ht]
  exact ⟨rfl, rfl, rfl, le_refl _⟩

theorem co_single_machine_only (l : Nat)
    (h : co_single_machine.scheduled_tasks.bound 2 l) : l = 0 := by
  by_contra hl
  have h16 : l < 16 ∨ 16 ≤ l := by omega
  rcases h16 with h1 | h1
  · have : ∀ k, k < 16 → co_single_machine.scheduled_tasks.bound 2 k → k = 0 := by
      decide
    exact hl (this l h1 h)
  · unfold Table.bound at h
    rw [Table.get_of_le _ _ h1] at h
    exact absurd h (by decide)

/-- A worked instance of C13: the coroutine (task 2), bound once in slot 0, runs to its
`wait` on line 40; the pass frees the slot, and after the callback the next pass finds a
slot bound to the coroutine due and resumes it after the `wait`. -/
theorem C13_wait_suspends_until_callback_witness :
    ClockInRange demo_clock ∧ Monotone demo_clock ∧
    RatesTyped co_single_machine.scheduled_tasks ∧
    PeriodsPositive co_single_machine.scheduled_tasks ∧
    co_single_machine.scheduled_tasks.bound 2 0 ∧
    (co_single_machine.scheduled_tasks.get 0).order.mode = SCHEDULE_MODE_ONCE ∧
    slot_due 0 (pass_start demo_clock co_single_machine) ∧
    (pass_start demo_clock co_single_machine).sys.mem.a = 0 ∧
    slot_call waiting_exec 0 (pass_start demo_clock co_single_machine)
      = wait_suspend 40 (pass_start demo_clock co_single_machine).sys ∧
    slot_return waiting_exec 0 (pass_start demo_clock co_single_machine) = 0 ∧
    ∃ r1 tr1 s1, scheduler_core_process demo_clock waiting_exec 18446744073709551617
        co_single_machine = some (r1, tr1, s1) ∧
      0 ∈ tr1 ∧ (∀ l, ¬ s1.scheduled_tasks.bound 2 l) ∧
      ∀ V : Int, ∃ j p2, j < SCHEDULER_SIZE ∧
        core_loop demo_clock waiting_exec 18446744073709551617 j 0
          (pass_start demo_clock (semaphore_setter_callback demo_clock 2 0 V s1).2)
          = some p2 ∧
        slot_due j p2 ∧ p2.sys.scheduled_tasks.bound 2 j ∧
        slot_call waiting_exec j p2 = (0, end_coroutine (wait_resume p2.sys)) ∧
        (wait_resume p2.sys).mem.semaphore = 0 ∧
        (wait_resume p2.sys).mem.semaphore_value = V :=
  ⟨demo_clock_in_range, demo_clock_monotone, by decide, by decide, by decide, by decide,
   by decide, rfl,
   C13_wait_suspends_until_callback demo_clock waiting_exec 18446744073709551617 2 0 40
     (fun s => s) (fun s => (0, end_coroutine s)) (fun s => (0, s))
     co_single_machine 0 (pass_start demo_clock co_single_machine)
     demo_clock_in_range demo_clock_monotone (by decide) (by decide) (by decide)
     (fun _ _ => rfl) (fun _ => rfl) waiting_exec_others (by decide) (by decide)
     (by decide) co_single_machine_only (Or.inl (by decide)) rfl (by decide) rfl⟩


/-! ## A slot bound ahead of the cursor -/

/-- Claim C17.  Let the task of slot `i` be bound in that slot only, and let the other
tasks leave the slot table alone.  When the scan reaches slot `i`, finds it due, and the
task invoked from it calls `schedule(task, mode, rate, context)`, which binds a slot
`j > i`: the iteration for slot `i` returns, the scan goes on and reaches slot `j` in
the same pass, after slot `i` has been served and before slot `j` has; slot `j` then
still holds the new binding, with `next_execution_time` the clock value read by the
registration plus `rate`; it is due exactly when that time is not later than `now`, and
always when `rate` is 0; the call the dispatch makes for it is the new task with its
context; and when the new task keeps the table (and has a positive period if it is
bound at a fixed rate) the iteration for slot `j` returns with slot `j` invoked. -/
theorem C17_slot_bound_ahead_is_scanned {σ : Type} (clock : Nat → Nat)
    (exec : TaskEnv σ) (fuel : Nat) (s : Machine σ) (i j : Nat) (p : Pass σ)
    (task : Nat) (mode : TaskExecutionModeEnum_t) (rate context : Nat)
    (before_call : Machine σ) (returned : Nat)
    (hclock : ClockInRange clock) (hmono : Monotone clock)
    (hfuel : 18446744073709551616 < fuel)
    (htyped : RatesTyped s.scheduled_tasks) (hper : PeriodsPositive s.scheduled_tasks)
    (hothers : ∀ t, t ≠ (s.scheduled_tasks.get i).order.execute → ∀ c s1,
      (exec t c s1).2.scheduled_tasks = s1.scheduled_tasks ∧
      s1.clock_reads ≤ (exec t c s1).2.clock_reads)
    (honly : ∀ l, l < SCHEDULER_SIZE → l ≠ i →
      (s.scheduled_tasks.get l).order.execute ≠ (s.scheduled_tasks.get i).order.execute)
    (hreach : core_loop clock exec fuel i 0 (pass_start clock s) = some p)
    (hdue : slot_due i p)
    (hcall : slot_call exec i p
      = (returned, (schedule clock task mode rate context before_call).2))
    (hbefore : before_call.scheduled_tasks = p.sys.scheduled_tasks)
    (hbind : (schedule clock task mode rate context before_call).1 = (j : Int))
    (hij : i < j) (htask : task ≠ 0) (hrate : rate < 4294967296) :
    ∃ q pj, process_slot clock exec fuel i p = some q ∧
      core_loop clock exec fuel (j - (i + 1)) (i + 1) q = some pj ∧
      core_loop clock exec fuel j 0 (pass_start clock s) = some pj ∧
      i ∈ pj.invoked ∧ j ∉ pj.invoked ∧
      pj.sys.scheduled_tasks.get j
        = { order := { execute := task, rate := rate, mode := mode, context := context },
            config := 0,
            current_execution_beginning :=
              (clock before_call.clock_reads : Int) + (rate : Int),
            next_execution_time :=
              (clock before_call.clock_reads : Int) + (rate : Int) } ∧
      (slot_due j pj ↔ (clock before_call.clock_reads : Int) + (rate : Int) ≤ pj.now) ∧
      (rate = 0 → slot_due j pj) ∧
      slot_call exec j pj = exec task context pj.sys ∧
      (slot_due j pj →
        (∀ c s1, (exec task c s1).2.scheduled_tasks = s1.scheduled_tasks) →
        (mode = SCHEDULE_MODE_FIXED_RATE → 0 < rate) →
        ∃ qj, process_slot clock exec fuel j pj = some qj ∧
          qj.invoked = pj.invoked ++ [j]) := by
  obtain ⟨hj, hsched⟩ := schedule_of_index clock task mode rate context before_call j hbind
  have hi : i < SCHEDULER_SIZE := by omega
  have hstart : ∀ l, (pass_start clock s).sys.scheduled_tasks.get l
      = s.scheduled_tasks.get l := fun _ => rfl
  -- the scan up to slot `i`
  obtain ⟨hsame, _, _⟩ := reach_kept clock exec fuel hclock hfuel
    (fun t => t ≠ (s.scheduled_tasks.get i).order.execute)
    (fun t ht c s1 => (hothers t ht c s1).1) (fun _ => True)
    (fun _ _ _ _ _ _ => trivial) i (pass_start clock s) p (by omega)
    (fun l hl ho => ⟨honly l (by omega) (by omega), htyped l (by omega) ho,
      hper l (by omega) ho⟩)
    trivial hreach
  have hps : ∀ l, i ≤ l → p.sys.scheduled_tasks.get l = s.scheduled_tasks.get l := by
    intro l hl
    rw [hsame l hl, hstart]
  have hoi : s.scheduled_tasks.occupied i := by
    have := hdue.1
    unfold Table.occupied at this ⊢
    rw [← hps i (le_refl _)]; exact this
  -- the call made for slot `i`
  have hrange : (clock before_call.clock_reads : Int) + (rate : Int) ≤ INT64_MAX := by
    have := hclock before_call.clock_reads
    unfold TimeInRange at this
    omega
  have hctab : (slot_call exec i p).2.scheduled_tasks =
      p.sys.scheduled_tasks.set j
        { order := { execute := task, rate := rate, mode := mode, context := context },
          config := 0,
          current_execution_beginning :=
            (clock before_call.clock_reads : Int) + (rate : Int),
          next_execution_time :=
            (clock before_call.clock_reads : Int) + (rate : Int) } := by
    rw [hcall]
    dsimp only
    rw [hsched, bind_task_table]
    dsimp only
    rw [bind_time_of_range _ _ hrange, hbefore]
  have hcreads : (slot_call exec i p).2.clock_reads = before_call.clock_reads + 1 := by
    rw [hcall]
    dsimp only
    rw [hsched, bind_task_reads]
  have hre : slot_reread exec i p = s.scheduled_tasks.get i := by
    unfold slot_reread
    rw [hctab, Table.get_set_ne _ _ _ _ (by omega), hps i (le_refl _)]
  obtain ⟨q, hstep⟩ := process_slot_returns clock exec fuel i p hclock hfuel
    (by
      intro _ _ hm
      rw [hre] at hm ⊢
      exact ⟨hper i hi hoi hm, htyped i hi hoi⟩)
  obtain ⟨hqnow, hqinv, hqreads, hqtab⟩ :
      q.now = (clock (before_call.clock_reads + 1) : Int) ∧
      q.invoked = p.invoked ++ [i] ∧
      q.sys.clock_reads = before_call.clock_reads + 2 ∧
      ∀ l, l ≠ i → q.sys.scheduled_tasks.get l
        = (slot_call exec i p).2.scheduled_tasks.get l := by
    rcases process_slot_facts clock exec fuel i p q hstep with
      ⟨hnd, _⟩ | ⟨_, hnow, hinv, _, _, hreads, e, htab, _⟩
    · exact absurd hdue hnd
    · refine ⟨?_, hinv, by rw [hreads, hcreads], ?_⟩
      · rw [hnow, slot_now_eq clock exec i p hclock]
        unfold slot_resample
        rw [hcreads]
      · intro l hl
        rw [htab, Table.get_set_ne _ _ _ _ (Ne.symm hl)]
  have hqj : q.sys.scheduled_tasks.get j
      = { order := { execute := task, rate := rate, mode := mode, context := context },
          config := 0,
          current_execution_beginning :=
            (clock before_call.clock_reads : Int) + (rate : Int),
          next_execution_time :=
            (clock before_call.clock_reads : Int) + (rate : Int) } := by
    rw [hqtab j (by omega), hctab, Table.get_set_eq _ _ _ hj]
  have hql : ∀ l, i + 1 ≤ l → l < j →
      q.sys.scheduled_tasks.get l = s.scheduled_tasks.get l := by
    intro l hl1 hl2
    rw [hqtab l (by omega), hctab, Table.get_set_ne _ _ _ _ (by omega), hps l (by omega)]
  -- the scan from slot `i + 1` to slot `j`
  obtain ⟨pj, hmid, hkeep, _, ⟨n, hn, hnow⟩, _⟩ :=
    core_loop_kept clock exec fuel hclock hfuel
    (fun t => t ≠ (s.scheduled_tasks.get i).order.execute)
    (fun t ht c s1 => (hothers t ht c s1).1)
    (fun p1 => (∃ n, before_call.clock_reads ≤ n ∧ p1.now = (clock n : Int)) ∧
      before_call.clock_reads ≤ p1.sys.clock_reads)
    (by
      intro k p1 q1 ⟨⟨n, hn, hnow⟩, hr⟩ hs hg
      rcases process_slot_facts clock exec fuel k p1 q1 hs with
        ⟨_, hsys, hnow1, _⟩ | ⟨hd, hnow1, _, _, _, hreads, _⟩
      · rw [hsys, hnow1]
        exact ⟨⟨n, hn, hnow⟩, hr⟩
      · have h4 : p1.sys.clock_reads ≤ (slot_call exec k p1).2.clock_reads :=
          (hothers _ (hg hd) _ _).2
        refine ⟨⟨(slot_call exec k p1).2.clock_reads, by omega, ?_⟩,
          by rw [hreads]; omega⟩
        rw [hnow1, slot_now_eq clock exec k p1 hclock]
        rfl)
    (j - (i + 1)) (i + 1) q (by omega)
    (by
      intro l hl1 hl2 ho
      unfold Table.occupied at ho
      rw [hql l hl1 (by omega)] at ho ⊢
      exact ⟨honly l (by omega) (by omega), htyped l (by omega) ho,
        hper l (by omega) ho⟩)
    ⟨⟨before_call.clock_reads + 1, by omega, hqnow⟩, by omega⟩
  have hpj : pj.sys.scheduled_tasks.get j
      = { order := { execute := task, rate := rate, mode := mode, context := context },
          config := 0,
          current_execution_beginning :=
            (clock before_call.clock_reads : Int) + (rate : Int),
          next_execution_time :=
            (clock before_call.clock_reads : Int) + (rate : Int) } := by
    rw [hkeep j (Or.inr (by omega)), hqj]
  have hfromstart : core_loop clock exec fuel j 0 (pass_start clock s) = some pj := by
    have hsplit : core_loop clock exec fuel j 0 (pass_start clock s)
        = core_loop clock exec fuel (i + ((j - (i + 1)) + 1)) 0 (pass_start clock s) := by
      congr 1
      omega
    rw [hsplit, core_loop_add, hreach]
    simp only [core_loop, Nat.zero_add, hstep]
    exact hmid
  -- the record of the slots served so far
  obtain ⟨l1, hl1, hx1⟩ := core_loop_invoked clock exec fuel i 0 _ p hreach
  obtain ⟨l2, hl2, hx2⟩ := core_loop_invoked clock exec fuel _ _ q pj hmid
  have hinv : pj.invoked = (l1 ++ [i]) ++ l2 := by
    rw [hl2, hqinv, hl1]
    rfl
  have hiff : slot_due j pj ↔
      (clock before_call.clock_reads : Int) + (rate : Int) ≤ pj.now := by
    unfold slot_due Table.occupied
    rw [hpj]
    exact ⟨fun h => h.2, fun h => ⟨htask, h⟩⟩
  refine ⟨q, pj, hstep, hmid, hfromstart, ?_, ?_, hpj, hiff, ?_, ?_, ?_⟩
  · rw [hinv]
    simp
  · rw [hinv]
    intro hm
    rcases List.mem_append.1 hm with h | h
    · rcases List.mem_append.1 h with h' | h'
      · have := hx1 j h'
        omega
      · have := List.mem_singleton.1 h'
        omega
    · have := hx2 j h
      omega
  · intro h0
    rw [hiff, hnow, h0]
    have := hmono hn
    push_cast
    omega
  · unfold slot_call
    rw [hpj]
  · intro hduej hnew hpos
    have hre2 : slot_reread exec j pj = pj.sys.scheduled_tasks.get j := by
      unfold slot_reread slot_call
      rw [hpj]
      dsimp only
      rw [hnew, hpj]
    obtain ⟨qj, hs⟩ := process_slot_returns clock exec fuel j pj hclock hfuel
      (by
        intro _ _ hm
        rw [hre2, hpj] at hm ⊢
        exact ⟨hpos hm, hrate⟩)
    refine ⟨qj, hs, ?_⟩
    rcases process_slot_facts clock exec fuel j pj qj hs with
      ⟨hnd, _⟩ | ⟨_, _, hinvj, _⟩
    · exact absurd hduej hnd
    · exact hinvj


theorem spawning_exec_others (t : Nat)
    (ht : t ≠ (spawner_machine.scheduled_tasks.get 0).order.execute) (c : Nat)
    (s1 : Machine Unit) :
    (spawning_exec demo_clock t c s1).2.scheduled_tasks = s1.scheduled_tasks ∧
    s1.clock_reads ≤ (spawning_exec demo_clock t c s1).2.clock_reads := by
  have ht8 : t ≠ 8 := ht
  unfold spawning_exec
  rw [if_neg ht8]
  exact ⟨rfl, le_refl _⟩

/-- A worked instance of C17: task 8, invoked from slot 0, registers task 9 with no
delay; the binding lands in slot 1, the scan reaches slot 1 in the same pass and finds
it due, and task 9 is invoked there. -/
theorem C17_slot_bound_ahead_is_scanned_witness :
    slot_due 0 (pass_start demo_clock spawner_machine) ∧
    (schedule demo_clock 9 SCHEDULE_MODE_ONCE 0 0
      (pass_start demo_clock spawner_machine).sys).1 = ((1 : Nat) : Int) ∧
    ∃ q pj, process_slot demo_clock (spawning_exec demo_clock) 18446744073709551617 0
        (pass_start demo_clock spawner_machine) = some q ∧
      core_loop demo_clock (spawning_exec demo_clock) 18446744073709551617
        (1 - (0 + 1)) (0 + 1) q = some pj ∧
      core_loop demo_clock (spawning_exec demo_clock) 18446744073709551617 1 0
        (pass_start demo_clock spawner_machine) = some pj ∧
      0 ∈ pj.invoked ∧ 1 ∉ pj.invoked ∧
      pj.sys.scheduled_tasks.get 1
        = { order := { execute := 9, rate := 0, mode := SCHEDULE_MODE_ONCE,
                       context := 0 },
            config := 0,
            current_execution_beginning :=
              (demo_clock (pass_start demo_clock spawner_machine).sys.clock_reads : Int)
                + ((0 : Nat) : Int),
            next_execution_time :=
              (demo_clock (pass_start demo_clock spawner_machine).sys.clock_reads : Int)
                + ((0 : Nat) : Int) } ∧
      (slot_due 1 pj ↔
        (demo_clock (pass_start demo_clock spawner_machine).sys.clock_reads : Int)
          + ((0 : Nat) : Int) ≤ pj.now) ∧
      (0 = 0 → slot_due 1 pj) ∧
      slot_call (spawning_exec demo_clock) 1 pj = spawning_exec demo_clock 9 0 pj.sys ∧
      (slot_due 1 pj →
        (∀ c s1, (spawning_exec demo_clock 9 c s1).2.scheduled_tasks
          = s1.scheduled_tasks) →
        (SCHEDULE_MODE_ONCE = SCHEDULE_MODE_FIXED_RATE → 0 < 0) →
        ∃ qj, process_slot demo_clock (spawning_exec demo_clock) 18446744073709551617 1
            pj = some qj ∧
          qj.invoked = pj.invoked ++ [1]) :=
  ⟨by decide, by decide,
   C17_slot_bound_ahead_is_scanned demo_clock (spawning_exec demo_clock)
     18446744073709551617 spawner_machine 0 1 (pass_start demo_clock spawner_machine) 9
     SCHEDULE_MODE_ONCE 0 0 (pass_start demo_clock spawner_machine).sys 0
     demo_clock_in_range demo_clock_monotone (by decide) (by decide) (by decide)
     spawning_exec_others (by decide) rfl (by decide) rfl rfl (by decide) (by decide)
     (by decide) (by decide)⟩

end MWScheduler
